import Mathlib

/-!
# Gene symbol resolution and region mapping of `NGSD` (src/cppNGSD/NGSD.cpp)

Shallow embedding of the data-access functions of `NGSD.cpp` that resolve gene
symbols and map genes to genomic regions.

* The relational store is a record of tables (lists of rows); a query is the list
  of rows it selects, `=` in a `WHERE` clause is equality of the stored value.
* Function-local `static` variables are fields of `Statics`, threaded through every
  function: each function returns its result together with the statics it leaves.
* `THROW` is `Except.error`; the statics reached before the throw are kept.
* `QByteArray`/`QString` are `String`; C++ `int` values read from the store are `Int`.
-/

namespace NGSD

/-! ## Byte strings -/

/-- Whitespace as removed by `QByteArray::trimmed` (the C `isspace` characters). -/
def isSpace (c : Char) : Bool :=
  c == ' ' || c == '\t' || c == '\n' || c == '\x0b' || c == '\x0c' || c == '\r'

/-- Characters of a trimmed text: leading and trailing whitespace removed. -/
def trimmedChars (l : List Char) : List Char :=
  ((l.dropWhile isSpace).reverse.dropWhile isSpace).reverse

/-- The call `QByteArray::trimmed()`. -/
def trimmed (s : String) : String := String.mk (trimmedChars s.data)

/-- The call `QByteArray::toUpper()` (letters `a`..`z`). -/
def toUpper (s : String) : String := String.mk (s.data.map Char.toUpper)

/-- The call `QByteArray::startsWith`. -/
def startsWith (s pre : String) : Bool := pre.data.isPrefixOf s.data

/-! ## Exceptions -/

/-- Exception classes used by `THROW` in `NGSD.cpp`, with their message. -/
inductive Exception where
  | ArgumentException (msg : String)
  | DatabaseException (msg : String)
  | ProgrammingException (msg : String)
deriving DecidableEq, Repr

/-- Equality of call outcomes is decidable. -/
instance instDecidableEqExcept {ε α : Type} [DecidableEq ε] [DecidableEq α] :
    DecidableEq (Except ε α)
  | .ok a, .ok b => if h : a = b then isTrue (by rw [h]) else isFalse (by intro h2; cases h2; exact h rfl)
  | .error a, .error b =>
    if h : a = b then isTrue (by rw [h]) else isFalse (by intro h2; cases h2; exact h rfl)
  | .ok _, .error _ => isFalse (by intro h; cases h)
  | .error _, .ok _ => isFalse (by intro h; cases h)

/-! ## The store -/

/-- Row of table `gene`. -/
structure GeneRow where
  id : Int
  symbol : String
deriving DecidableEq, Repr

/-- Row of table `gene_alias`; `type` is `previous` or `synonym`. -/
structure GeneAliasRow where
  gene_id : Int
  symbol : String
  type : String
deriving DecidableEq, Repr

/-- Row of table `gene_transcript`; a `NULL` coding bound is `none`. -/
structure GeneTranscriptRow where
  id : Int
  gene_id : Int
  name : String
  source : String
  chromosome : String
  start_coding : Option Int
  end_coding : Option Int
  strand : String
deriving DecidableEq, Repr

/-- Row of table `gene_exon`. -/
structure GeneExonRow where
  transcript_id : Int
  start : Int
  end_ : Int
deriving DecidableEq, Repr

/-- Row of table `hpo_term`. -/
structure HpoTermRow where
  id : Int
  hpo_id : String
  name : String
  synonyms : String
deriving DecidableEq, Repr

/-- Row of table `hpo_genes`. -/
structure HpoGenesRow where
  hpo_term_id : Int
  gene : String
deriving DecidableEq, Repr

/-- Row of table `hpo_parent`. -/
structure HpoParentRow where
  parent : Int
  child : Int
deriving DecidableEq, Repr

/-- Snapshot of the tables read by the functions below. -/
structure Store where
  gene : List GeneRow := []
  gene_alias : List GeneAliasRow := []
  gene_transcript : List GeneTranscriptRow := []
  gene_exon : List GeneExonRow := []
  hpo_term : List HpoTermRow := []
  hpo_genes : List HpoGenesRow := []
  hpo_parent : List HpoParentRow := []
deriving Repr

/-- The class `Phenotype` by its accession and its name. -/
structure Phenotype where
  accession : String
  name : String
deriving DecidableEq, Repr

/-- Modelled from the spec: `Phenotype::toString` is not among the sources; a term is
shown by its accession and its display name. -/
def Phenotype.toString (p : Phenotype) : String := p.accession ++ " - " ++ p.name

/-- The enumeration `Transcript::SOURCE`, by the two values `NGSD.cpp` names. -/
inductive SOURCE where
  | CCDS
  | ENSEMBL
deriving DecidableEq, Repr

/-- Declarations used by `NGSD.cpp` that are not among the sources (default arguments
of `NGSD.h`, `Transcript::sourceToString`): they are parameters of the model. -/
structure Externals where
  /-- Default of `no_value_is_ok` in `getValue`. -/
  getValue_no_value_is_ok : Bool
  /-- Default of `return_input_when_unconvertable` in `geneToApproved`. -/
  geneToApproved_return_input_when_unconvertable : Bool
  /-- The function `Transcript::sourceToString`. -/
  sourceToString : SOURCE → String
  /-- What the store makes of the text of a query in which a value with a single quote
  or a backslash stands between single quotes: the ids of the rows it selects, or the
  text of the `DatabaseException` with which `SqlQuery::exec` refuses the query. -/
  splicedQuery : Store → String → Except String (List Int)

/-! ## GeneSet -/

/-- Modelled from the spec: class `GeneSet` is not among the sources. The spec calls
the approved symbols a `set<string>` that membership is tested against; the model
is a duplicate-free list of the inserted byte strings in insertion order. -/
structure GeneSet where
  elems : List String := []
deriving DecidableEq, Repr

/-- Modelled from the spec: `GeneSet::insert`, set insertion. -/
def GeneSet.insert (s : GeneSet) (g : String) : GeneSet :=
  if g ∈ s.elems then s else GeneSet.mk (s.elems ++ [g])

/-- Modelled from the spec: `GeneSet::contains`, set membership. -/
def GeneSet.contains (s : GeneSet) (g : String) : Bool := decide (g ∈ s.elems)

/-- Modelled from the spec: `GeneSet::count`, number of elements. -/
def GeneSet.count (s : GeneSet) : Nat := s.elems.length

/-! ## Static variables -/

/-- Function-local `static` variables of `NGSD.cpp`. -/
structure Statics where
  /-- The variable `static GeneSet output` of `approvedGeneNames`. -/
  approved : GeneSet := {}
  /-- The variable `static QMap mapping` of `geneToApproved`, newest binding first. -/
  mapping : List (String × String) := []
deriving DecidableEq, Repr

/-- Statics at process start. -/
def Statics.init : Statics := {}

/-- Result of a call: the returned value or the exception thrown, and the statics
after the call. -/
abbrev Res (α : Type) := Except Exception α × Statics

/-! ## Queries -/

/-- The function `NGSD::getValue` on the rows selected by `query`. -/
def getValue {α : Type} (rows : List α) (no_value_is_ok : Bool) (query : String) :
    Except Exception (Option α) :=
  if rows.length = 0 then
    if no_value_is_ok then .ok none
    else .error (.DatabaseException ("NGSD single value query returned no value: " ++ query))
  else if rows.length > 1 then
    .error (.DatabaseException ("NGSD single value query returned several values: " ++ query))
  else .ok rows.head?

/-- Rows of `FROM gene g, gene_alias ga WHERE g.id=ga.gene_id AND ga.symbol=:0 AND
ga.type=ty`: one gene row per matching pair. -/
def aliasJoin (db : Store) (symbol ty : String) : List GeneRow :=
  db.gene.flatMap fun g =>
    (db.gene_alias.filter fun ga => g.id == ga.gene_id && ga.symbol == symbol && ga.type == ty).map
      fun _ => g

/-- The clause `ORDER BY g.id`. -/
def orderById (rows : List GeneRow) : List GeneRow :=
  rows.insertionSort fun a b => a.id ≤ b.id

/-- The function `NGSD::approvedGeneNames`. -/
def approvedGeneNames (db : Store) (st : Statics) : GeneSet × Statics :=
  if st.approved.count = 0 then
    let output := db.gene.foldl (fun acc r => acc.insert r.symbol) st.approved
    (output, { st with approved := output })
  else (st.approved, st)

/-- The text has no single quote and no backslash: between single quotes in the text of
a query the store reads it as the string literal of itself. -/
def sqlPlain (text : String) : Bool :=
  text.data.all fun c => c != Char.ofNat 39 && c != Char.ofNat 92

/-- The call `getValue("SELECT id FROM gene WHERE symbol='" + gene + "'")` of
`geneToApprovedID`: the symbol is put into the text of the query as it is. For a symbol
without single quote and backslash the query selects the rows with this symbol; for
another symbol the store decides what the text selects, or it refuses the text. -/
def getValueIdOfSymbol (H : Externals) (db : Store) (gene : String) :
    Except Exception (Option Int) :=
  if sqlPlain gene then
    getValue ((db.gene.filter fun g => g.symbol == gene).map fun g => g.id)
      H.getValue_no_value_is_ok ("SELECT id FROM gene WHERE symbol='" ++ gene ++ "'")
  else
    match H.splicedQuery db ("SELECT id FROM gene WHERE symbol='" ++ gene ++ "'") with
    | .error msg => .error (.DatabaseException msg)
    | .ok rows =>
      getValue rows H.getValue_no_value_is_ok
        ("SELECT id FROM gene WHERE symbol='" ++ gene ++ "'")

/-- The function `NGSD::geneToApprovedID`. -/
def geneToApprovedID (H : Externals) (db : Store) (st : Statics) (gene : String) : Res Int :=
  let (approved, st) := approvedGeneNames db st
  --approved
  if approved.contains gene then
    match getValueIdOfSymbol H db gene with
    | .error e => (.error e, st)
    | .ok v => (.ok (v.getD 0), st)
  else
    --previous
    let q_prev := (aliasJoin db gene "previous").map fun g => g.id
    if q_prev.length = 1 then (.ok (q_prev.headD 0), st)
    else if q_prev.length > 1 then (.ok (-1), st)
    else
      --synonymous
      let q_syn := (aliasJoin db gene "synonym").map fun g => g.id
      if q_syn.length = 1 then (.ok (q_syn.headD 0), st)
      else (.ok (-1), st)

/-- The function `NGSD::geneSymbol`. -/
def geneSymbol (db : Store) (id : Int) : Except Exception String :=
  match getValue ((db.gene.filter fun g => g.id == id).map fun g => g.symbol) true
      "SELECT symbol FROM gene WHERE id=:0" with
  | .error e => .error e
  | .ok v => .ok (v.getD "")

/-- The function `NGSD::geneToApproved`. -/
def geneToApproved (H : Externals) (db : Store) (st : Statics) (gene : String)
    (return_input_when_unconvertable : Bool) : Res String :=
  let gene := toUpper (trimmed gene)
  let (approved, st) := approvedGeneNames db st
  --already approved gene
  if approved.contains gene then (.ok gene, st)
  else
    --check if already cached
    match st.mapping.lookup gene with
    | some cached =>
      if return_input_when_unconvertable && cached.isEmpty then (.ok gene, st)
      else (.ok cached, st)
    | none =>
      --not cached => try to convert
      match geneToApprovedID H db st gene with
      | (.error e, st) => (.error e, st)
      | (.ok gene_id, st) =>
        match (if gene_id != -1 then geneSymbol db gene_id else .ok "") with
        | .error e => (.error e, st)
        | .ok value =>
          let st := { st with mapping := (gene, value) :: st.mapping }
          if return_input_when_unconvertable && value.isEmpty then (.ok gene, st)
          else (.ok value, st)

/-- The loop that joins the symbols of an ambiguous result with a comma. -/
def joinGenes (symbols : List String) : String :=
  symbols.foldl (fun genes s => (if genes.isEmpty then genes else genes ++ ", ") ++ s) ""

/-- The function `NGSD::geneToApprovedWithMessage`. -/
def geneToApprovedWithMessage (db : Store) (st : Statics) (gene : String) :
    (String × String) × Statics :=
  let (approved, st) := approvedGeneNames db st
  --approved
  if approved.contains gene then
    ((gene, "KEPT: " ++ gene ++ " is an approved symbol"), st)
  else
    --previous
    let q_prev := (orderById (aliasJoin db gene "previous")).map fun g => g.symbol
    if q_prev.length = 1 then
      ((q_prev.headD "", "REPLACED: " ++ gene ++ " is a previous symbol"), st)
    else if q_prev.length > 1 then
      ((gene, "ERROR: " ++ gene ++ " is a previous symbol of the genes " ++ joinGenes q_prev), st)
    else
      --synonymous
      let q_syn := (orderById (aliasJoin db gene "synonym")).map fun g => g.symbol
      if q_syn.length = 1 then
        ((q_syn.headD "", "REPLACED: " ++ gene ++ " is a synonymous symbol"), st)
      else if q_syn.length > 1 then
        ((gene, "ERROR: " ++ gene ++ " is a synonymous symbol of the genes " ++ joinGenes q_syn), st)
      else
        ((gene, "ERROR: " ++ gene ++ " is unknown symbol"), st)

/-- The function `NGSD::geneToApprovedWithMessageAndAmbiguous`. -/
def geneToApprovedWithMessageAndAmbiguous (db : Store) (st : Statics) (gene : String) :
    List (String × String) × Statics :=
  let (approved, st) := approvedGeneNames db st
  --approved
  if approved.contains gene then
    ([(gene, "KEPT: " ++ gene ++ " is an approved symbol")], st)
  else
    --previous
    let q_prev := (orderById (aliasJoin db gene "previous")).map fun g => g.symbol
    if q_prev.length ≥ 1 then
      (q_prev.map fun s => (s, "REPLACED: " ++ gene ++ " is a previous symbol"), st)
    else
      --synonymous
      let q_syn := (orderById (aliasJoin db gene "synonym")).map fun g => g.symbol
      if q_syn.length ≥ 1 then
        (q_syn.map fun s => (s, "REPLACED: " ++ gene ++ " is a synonymous symbol"), st)
      else
        --unknown
        ([(gene, "ERROR: " ++ gene ++ " is an unknown symbol")], st)

/-! ## Regions -/

/-- A line of a `BedFile`: chromosome, start, end and annotations. -/
structure BedLine where
  chr : String
  start : Int
  end_ : Int
  annotations : List String := []
deriving DecidableEq, Repr

/-- A `BedFile` by its lines. -/
abbrev BedFile := List BedLine

/-- Modelled from the spec: order of two chromosome labels in the sort by (chromosome,
start); class `Chromosome` is not among the sources, the labels are compared
lexicographically by character code. -/
def chrLe : List Char → List Char → Bool
  | [], _ => true
  | _ :: _, [] => false
  | a :: as, b :: bs => decide (a.toNat < b.toNat) || (a == b && chrLe as bs)

/-- Modelled from the spec: order of the final sort, by chromosome, then by start. -/
def BedLine.le (a b : BedLine) : Prop :=
  if a.chr = b.chr then a.start ≤ b.start else chrLe a.chr.data b.chr.data = true

instance : DecidableRel BedLine.le := fun a b =>
  inferInstanceAs
    (Decidable (if a.chr = b.chr then a.start ≤ b.start else chrLe a.chr.data b.chr.data = true))

/-- Modelled from the spec: the merge pass over sorted lines. A line of `rest` that
starts inside or right at the end of the open region `cur` on the same chromosome
extends it, another line closes it. -/
def mergeInto (cur : BedLine) : List BedLine → List BedLine
  | [] => [cur]
  | b :: rest =>
    if b.chr = cur.chr ∧ b.start ≤ cur.end_ then
      mergeInto { cur with end_ := max cur.end_ b.end_ } rest
    else cur :: mergeInto b rest

/-- Modelled from the spec: `BedFile::merge` is not among the sources. Overlapping and
adjacent regions of a sorted file are combined. -/
def BedFile.merge : BedFile → BedFile
  | [] => []
  | a :: rest => mergeInto a rest

/-- Modelled from the spec: `BedFile::sort(bool)` is not among the sources. By the spec
the regions are sorted by (chromosome, start) and, when the flag is set, overlapping
and adjacent regions are merged. -/
def BedFile.sort (lines : BedFile) (merge : Bool) : BedFile :=
  let sorted := lines.insertionSort BedLine.le
  if merge then BedFile.merge sorted else sorted

/-- Value of `MIN(col)`/`MAX(col)` read with `toInt()`: `0` for `NULL` (no row). -/
def aggToInt (pick : Int → Int → Int) : List Int → Int
  | [] => 0
  | x :: xs => xs.foldl pick x

/-- Body of the loop over `q_exon` in exon mode: the region appended for the exon
`(start, end)`, or `none` when the exon is skipped. -/
def exonRegion (start_coding end_coding : Option Int) (start end_ : Int) : Option (Int × Int) :=
  let is_coding := start_coding.isSome && end_coding.isSome
  let start_coding := start_coding.getD 0
  let end_coding := end_coding.getD 0
  if is_coding then
    let start := max start_coding start
    let end_ := min end_coding end_
    --skip non-coding exons of coding transcripts
    if end_ < start_coding ∨ start > end_coding then none
    else some (start, end_)
  else some (start, end_)

/-- Lines appended by the gene-mode loop over the transcripts `rows`. -/
def geneModeLines (db : Store) (rows : List GeneTranscriptRow) (annos : GeneTranscriptRow → List String) :
    BedFile :=
  rows.map fun t =>
    let q_range := (db.gene_exon.filter fun e => e.transcript_id == t.id)
    { chr := "chr" ++ t.chromosome,
      start := aggToInt min (q_range.map fun e => e.start),
      end_ := aggToInt max (q_range.map fun e => e.end_),
      annotations := annos t }

/-- Lines appended by the exon-mode loop over the transcripts `rows`. -/
def exonModeLines (db : Store) (rows : List GeneTranscriptRow) (annos : GeneTranscriptRow → List String) :
    BedFile :=
  rows.flatMap fun t =>
    (db.gene_exon.filter fun e => e.transcript_id == t.id).filterMap fun e =>
      (exonRegion t.start_coding t.end_coding e.start e.end_).map fun r =>
        { chr := "chr" ++ t.chromosome, start := r.1, end_ := r.2, annotations := annos t }

/-- The function `NGSD::geneToRegions`; `messages` tells whether a message stream is
supplied, the lines written to it are returned with the regions. -/
def geneToRegions (H : Externals) (db : Store) (st : Statics) (gene : String) (source : SOURCE)
    (mode : String) (fallback annotate_transcript_names messages : Bool) :
    Res (BedFile × List String) :=
  let source_str := H.sourceToString source
  --check mode
  let valid_modes := ["gene", "exon"]
  if ¬ mode ∈ valid_modes then
    (.error (.ArgumentException ("Invalid mode '" ++ mode ++ "'. Valid modes are: "
      ++ ", ".intercalate valid_modes ++ ".")), st)
  else
  let q_transcript := db.gene_transcript.filter fun t => t.source == source_str
  --get approved gene id
  match geneToApprovedID H db st gene with
  | (.error e, st) => (.error e, st)
  | (.ok id, st) =>
  if id = -1 then
    (.ok ([], if messages then
      ["Gene name '" ++ gene ++ "' is no HGNC-approved symbol. Skipping it!"] else []), st)
  else
  match geneToApproved H db st gene H.geneToApproved_return_input_when_unconvertable with
  | (.error e, st) => (.error e, st)
  | (.ok gene_approved, st) =>
  let rows := q_transcript.filter fun t => t.gene_id == id
  let rows_fallback := db.gene_transcript.filter fun t => t.gene_id == id
  let annos := fun (label : String) (t : GeneTranscriptRow) =>
    if annotate_transcript_names then [label ++ " " ++ t.name] else [gene_approved]
  let no_hits := if messages then ["No transcripts found for gene '" ++ gene ++ "'. Skipping it!"] else []
  --GENE mode
  if mode = "gene" then
    let output := geneModeLines db rows (annos gene_approved)
    --add fallback transcripts
    let output := if output.isEmpty && fallback then
      geneModeLines db rows_fallback (annos gene_approved) else output
    (.ok (BedFile.sort output (!annotate_transcript_names),
      if output.isEmpty then no_hits else []), st)
  --EXON mode
  else
    let output := exonModeLines db rows (annos gene_approved)
    --fallback
    let output := if output.isEmpty && fallback then
      exonModeLines db rows_fallback (annos gene) else output
    (.ok (BedFile.sort output (!annotate_transcript_names),
      if output.isEmpty then no_hits else []), st)

/-- Modelled from the spec: `BedFile::add` is not among the sources; by the spec the
regions of the genes are united, the lines of the other file are appended. -/
def BedFile.add (output other : BedFile) : BedFile := output ++ other

/-- The loop of `NGSD::genesToRegions` over the genes left, with the regions and the
messages collected so far. -/
def genesToRegionsLoop (H : Externals) (db : Store) (source : SOURCE) (mode : String)
    (fallback annotate_transcript_names messages : Bool) :
    List String → BedFile → List String → Statics → Res (BedFile × List String)
  | [], output, msgs, st => (.ok (output, msgs), st)
  | gene :: genes, output, msgs, st =>
    match geneToRegions H db st gene source mode fallback annotate_transcript_names messages with
    | (.error e, st) => (.error e, st)
    | (.ok (regions, m), st) =>
      genesToRegionsLoop H db source mode fallback annotate_transcript_names messages genes
        (BedFile.add output regions) (msgs ++ m) st

/-- The function `NGSD::genesToRegions`. -/
def genesToRegions (H : Externals) (db : Store) (st : Statics) (genes : GeneSet) (source : SOURCE)
    (mode : String) (fallback annotate_transcript_names messages : Bool) :
    Res (BedFile × List String) :=
  match genesToRegionsLoop H db source mode fallback annotate_transcript_names messages
      genes.elems [] [] st with
  | (.error e, st) => (.error e, st)
  | (.ok (output, msgs), st) =>
    (.ok (BedFile.sort output (!annotate_transcript_names), msgs), st)

/-! ## Transcripts -/

/-- The class `Transcript` by the members that `NGSD::transcripts` sets; the value `{}`
is the default-constructed transcript. The strand is kept as the text of the store
(`Transcript::stringToStrand` is not among the sources). -/
structure Transcript where
  name : String := ""
  source : Option SOURCE := none
  strand : Option String := none
  regions : BedFile := []
deriving DecidableEq, Repr

/-- Modelled from the spec: `BedFile::baseCount` is not among the sources; the total
covered base count of half-open regions is the sum of `end - start` over the lines. -/
def BedFile.baseCount (lines : BedFile) : Int :=
  (lines.map fun l => l.end_ - l.start).sum

/-- Body of the loop over `query2` in `transcripts`: the region appended for the exon
`(start, end)`, or `none` when the exon is skipped. -/
def codingExonRegion (coding_only : Bool) (start_coding end_coding start end_ : Int) :
    Option (Int × Int) :=
  if coding_only then
    let start := max start start_coding
    let end_ := min end_ end_coding
    if end_ < start_coding ∨ start > end_coding then none
    else some (start, end_)
  else some (start, end_)

/-- The clause `ORDER BY name` of `transcripts`, names compared by character code. -/
def orderByName (rows : List GeneTranscriptRow) : List GeneTranscriptRow :=
  rows.insertionSort fun a b => chrLe a.name.data b.name.data = true

/-- The clause `ORDER BY start` of `transcripts`. -/
def orderByStart (rows : List GeneExonRow) : List GeneExonRow :=
  rows.insertionSort fun a b => a.start ≤ b.start

/-- The function `NGSD::transcripts`. The coding bounds and the exon bounds are read with
`toUInt()` into `int` variables, which gives back the stored 32-bit value, `0` for
`NULL`. -/
def transcripts (H : Externals) (db : Store) (gene_id : Int) (source : SOURCE)
    (coding_only : Bool) : List Transcript :=
  --get transcripts
  let query := orderByName (db.gene_transcript.filter fun t =>
    t.gene_id == gene_id && t.source == H.sourceToString source &&
      (!coding_only || (t.start_coding.isSome && t.end_coding.isSome)))
  query.map fun t =>
    --get exons
    let start_coding := t.start_coding.getD 0
    let end_coding := t.end_coding.getD 0
    let query2 := orderByStart (db.gene_exon.filter fun e => e.transcript_id == t.id)
    let regions : BedFile := query2.filterMap fun e =>
      (codingExonRegion coding_only start_coding end_coding e.start e.end_).map fun r =>
        { chr := t.chromosome, start := r.1, end_ := r.2 }
    { name := t.name, source := some source, strand := some t.strand,
      regions := BedFile.merge regions }

/-- The call `std::max_element` of `longestCodingTranscript` on the elements after
`largest`: a later element replaces `largest` when the base count of `largest` is less
than its own. -/
def maxElement (largest : Transcript) : List Transcript → Transcript
  | [] => largest
  | t :: rest =>
    if largest.regions.baseCount < t.regions.baseCount then maxElement t rest
    else maxElement largest rest

/-- The variable `alt_source` of `longestCodingTranscript`. -/
def alt_source (source : SOURCE) : SOURCE :=
  if source = SOURCE.CCDS then SOURCE.ENSEMBL else SOURCE.CCDS

/-- The variable `list` of `longestCodingTranscript` when the longest transcript is
selected. -/
def longestCodingTranscriptList (H : Externals) (db : Store) (gene_id : Int) (source : SOURCE)
    (fallback_alt_source fallback_alt_source_nocoding : Bool) : List Transcript :=
  let list := transcripts H db gene_id source true
  let list := if list.isEmpty && fallback_alt_source then
    transcripts H db gene_id (alt_source source) true else list
  let list := if list.isEmpty && fallback_alt_source_nocoding then
    transcripts H db gene_id (alt_source source) false else list
  list

/-- The function `NGSD::longestCodingTranscript`. -/
def longestCodingTranscript (H : Externals) (db : Store) (gene_id : Int) (source : SOURCE)
    (fallback_alt_source fallback_alt_source_nocoding : Bool) : Transcript :=
  match longestCodingTranscriptList H db gene_id source fallback_alt_source
      fallback_alt_source_nocoding with
  | [] => {}
  --get longest transcript (transcripts regions are merged!)
  | first :: rest => maxElement first rest

/-! ## Overlap queries -/

/-- The variables `static BedFile bed` of `genesOverlapping` and of
`genesOverlappingByExon`, each with the index that is built on it; no other function
reads or writes them. -/
structure IndexStatics where
  /-- The variable `bed` of `genesOverlapping`. -/
  genes_bed : BedFile := []
  /-- The variable `bed` of `genesOverlappingByExon`. -/
  exons_bed : BedFile := []
deriving DecidableEq, Repr

/-- Value of an expression of type `int`: the mathematical result in 32-bit two's
complement arithmetic. -/
def wrapInt (x : Int) : Int := (x + 2147483648) % 4294967296 - 2147483648

/-- Modelled from the spec: `ChromosomalIndex::matchingIndices` is not among the sources;
by the spec the query gives every indexed interval that intersects `[start, end]` after
chromosome-exact matching. The positions of these lines in `bed` are returned. -/
def matchingIndices (bed : BedFile) (chr : String) (start end_ : Int) : List Nat :=
  (List.range bed.length).filter fun i =>
    match bed.get? i with
    | some l => l.chr == chr && decide (l.start ≤ end_) && decide (start ≤ l.end_)
    | none => false

/-- The loop `foreach(int i, matches) genes << bed[i].annotations()[0]`. -/
def genesOfMatches (bed : BedFile) (matches_ : List Nat) : GeneSet :=
  matches_.foldl (fun genes i =>
    genes.insert (((bed.get? i).map fun l => l.annotations.headD "").getD "")) {}

/-- Rows of `SELECT g.symbol, gt.chromosome, MIN(ge.start), MAX(ge.end) FROM gene g,
gene_transcript gt, gene_exon ge WHERE ge.transcript_id=gt.id AND gt.gene_id=g.id GROUP
BY gt.id`, as lines: one line per transcript that has exons, with the symbol of its gene
(`gene.id` and `gene_transcript.id` being keys). -/
def transcriptSpanLines (db : Store) : BedFile :=
  db.gene_transcript.flatMap fun gt =>
    (db.gene.filter fun g => gt.gene_id == g.id).flatMap fun g =>
      let ge := db.gene_exon.filter fun e => e.transcript_id == gt.id
      if ge.isEmpty then []
      else [{ chr := gt.chromosome, start := aggToInt min (ge.map fun e => e.start),
              end_ := aggToInt max (ge.map fun e => e.end_), annotations := [g.symbol] }]

/-- Rows of `SELECT DISTINCT g.symbol, gt.chromosome, ge.start, ge.end FROM gene g,
gene_exon ge, gene_transcript gt WHERE ge.transcript_id=gt.id AND gt.gene_id=g.id`, as
lines. -/
def exonLines (db : Store) : BedFile :=
  (db.gene_transcript.flatMap fun gt =>
    (db.gene.filter fun g => gt.gene_id == g.id).flatMap fun g =>
      (db.gene_exon.filter fun e => e.transcript_id == gt.id).map fun e =>
        ({ chr := gt.chromosome, start := e.start, end_ := e.end_, annotations := [g.symbol] }
          : BedLine)).dedup

/-- The function `NGSD::genesOverlapping`. The call `bed.sort()` has no argument; by the
spec the index is built on the lines sorted by chromosome and start. The bounds
`start-extend` and `end+extend` are expressions of type `int`. -/
def genesOverlapping (db : Store) (st : IndexStatics) (chr : String)
    (start end_ extend : Int) : GeneSet × IndexStatics :=
  --init static data (load gene regions file from NGSD to memory)
  let bed := if st.genes_bed.length = 0 then
    BedFile.sort (st.genes_bed ++ transcriptSpanLines db) false else st.genes_bed
  --create gene list
  let matches_ := matchingIndices bed chr (wrapInt (start - extend)) (wrapInt (end_ + extend))
  (genesOfMatches bed matches_, { st with genes_bed := bed })

/-- The function `NGSD::genesOverlappingByExon`. -/
def genesOverlappingByExon (db : Store) (st : IndexStatics) (chr : String)
    (start end_ extend : Int) : GeneSet × IndexStatics :=
  --init static data (load gene regions file from NGSD to memory)
  let bed := if st.exons_bed.length = 0 then
    BedFile.sort (st.exons_bed ++ exonLines db) false else st.exons_bed
  --create gene list
  let matches_ := matchingIndices bed chr (wrapInt (start - extend)) (wrapInt (end_ + extend))
  (genesOfMatches bed matches_, { st with exons_bed := bed })

/-! ## Phenotypes -/

/-- The loop `while(pid2genes.next())` of `phenotypeToGenes` over the genes of a term. -/
def addGenesOfTerm (H : Externals) (db : Store) : List String → GeneSet → Statics → Res GeneSet
  | [], genes, st => (.ok genes, st)
  | gene :: rest, genes, st =>
    match geneToApproved H db st gene true with
    | (.error e, st) => (.error e, st)
    | (.ok approved, st) => addGenesOfTerm H db rest (genes.insert approved) st

/-- The loop `while (!pheno_ids.isEmpty())` of `phenotypeToGenes`, run for at most `fuel`
iterations: `none` when the work-list is not empty after them. -/
def phenotypeToGenesLoop (H : Externals) (db : Store) (recursive : Bool) :
    Nat → List Int → GeneSet → Statics → Option (Res GeneSet)
  | 0, pheno_ids, genes, st => if pheno_ids.isEmpty then some (.ok genes, st) else none
  | fuel + 1, pheno_ids, genes, st =>
    match pheno_ids.getLast? with
    | none => some (.ok genes, st)
    | some id =>
      let pheno_ids := pheno_ids.dropLast
      --add genes of current phenotype
      match addGenesOfTerm H db
          ((db.hpo_genes.filter fun r => r.hpo_term_id == id).map fun r => r.gene) genes st with
      | (.error e, st) => some (.error e, st)
      | (.ok genes, st) =>
        --add sub-phenotypes
        let pheno_ids := if recursive then
          pheno_ids ++ ((db.hpo_parent.filter fun r => r.parent == id).map fun r => r.child)
          else pheno_ids
        phenotypeToGenesLoop H db recursive fuel pheno_ids genes st

/-- The function `NGSD::phenotypeToGenes`, its loop run for at most `fuel` iterations. -/
def phenotypeToGenes (fuel : Nat) (H : Externals) (db : Store) (st : Statics)
    (phenotype : Phenotype) (recursive : Bool) : Option (Res GeneSet) :=
  --convert phenotype to id
  match (db.hpo_term.filter fun t => t.name == phenotype.name).head? with
  | none =>
    some (.error (.ProgrammingException ("Unknown phenotype '" ++ phenotype.toString ++ "'!")), st)
  | some tmp => phenotypeToGenesLoop H db recursive fuel [tmp.id] {} st

/-- Rows of `FROM hpo_parent p, hpo_term t WHERE p.parent=:0 AND p.child=t.id`. -/
def childTermRows (db : Store) (id : Int) : List HpoTermRow :=
  (db.hpo_parent.filter fun p => p.parent == id).flatMap fun p =>
    db.hpo_term.filter fun t => p.child == t.id

/-- The loop `while (!pheno_ids.isEmpty())` of `phenotypeChildTems`, run for at most
`fuel` iterations: `none` when the work-list is not empty after them. -/
def phenotypeChildTemsLoop (db : Store) (recursive : Bool) :
    Nat → List Int → List Phenotype → Option (List Phenotype)
  | 0, pheno_ids, terms => if pheno_ids.isEmpty then some terms else none
  | fuel + 1, pheno_ids, terms =>
    match pheno_ids.getLast? with
    | none => some terms
    | some id =>
      let pheno_ids := pheno_ids.dropLast
      let terms := terms ++ (childTermRows db id).map fun t => ⟨t.hpo_id, t.name⟩
      let pheno_ids := if recursive then pheno_ids ++ (childTermRows db id).map fun t => t.id
        else pheno_ids
      phenotypeChildTemsLoop db recursive fuel pheno_ids terms

/-- The function `NGSD::phenotypeChildTems`, its loop run for at most `fuel` iterations. -/
def phenotypeChildTems (fuel : Nat) (db : Store) (phenotype : Phenotype) (recursive : Bool) :
    Option (Except Exception (List Phenotype)) :=
  --convert phenotype to id
  match getValue ((db.hpo_term.filter fun t => t.name == phenotype.name).map fun t => t.id) true
      "SELECT id FROM hpo_term WHERE name=:0" with
  | .error e => some (.error e)
  | .ok none =>
    some (.error (.ProgrammingException ("Unknown phenotype '" ++ phenotype.toString ++ "'!")))
  | .ok (some id) => (phenotypeChildTemsLoop db recursive fuel [id] []).map .ok

/-! ## Texts -/

/-- Whitespace as removed by `QString::trimmed` (`QChar::isSpace`): the C `isspace`
characters, U+0085, U+00A0 and the Unicode separators. -/
def isSpaceQChar (c : Char) : Bool :=
  isSpace c || c.toNat == 0x85 || c.toNat == 0xA0 || c.toNat == 0x1680 ||
  (decide (0x2000 ≤ c.toNat) && decide (c.toNat ≤ 0x200A)) || c.toNat == 0x2028 ||
  c.toNat == 0x2029 || c.toNat == 0x202F || c.toNat == 0x205F || c.toNat == 0x3000

/-- The call `QString::trimmed()`. -/
def trimmedQString (s : String) : String :=
  String.mk ((s.data.dropWhile isSpaceQChar).reverse.dropWhile isSpaceQChar).reverse

/-- The call `QString::replace(before, "")` for a text `before` of the one character
`c`: every occurrence of `c` is removed. -/
def removeChar (c : Char) (s : String) : String :=
  String.mk (s.data.filter fun x => x != c)

/-- The double quote, the single quote, the semicolon and the newline. -/
def sqlSpecialChars : List Char := [Char.ofNat 34, Char.ofNat 39, ';', '\n']

/-- The function `NGSD::escapeForSql`. -/
def escapeForSql (text : String) : String :=
  removeChar '\n' (removeChar ';' (removeChar (Char.ofNat 39) (removeChar (Char.ofNat 34)
    (trimmedQString text))))

/-! ## Phenotype search -/

/-- The operator `LIKE` of the store (MySQL) on a pattern and a text: `%` stands for any
sequence of characters, `_` for any one character, a backslash takes the pattern
character after it literally; every other pattern character stands for itself,
compared exactly as by `=`. -/
def likeMatch : List Char → List Char → Bool
  | [], s => s.isEmpty
  | c :: p, s =>
    if c = '%' then s.tails.any (likeMatch p)
    else if c = '_' then
      match s with
      | [] => false
      | _ :: t => likeMatch p t
    else if c = '\\' then
      match p with
      | [] => s == [c]
      | d :: q =>
        match s with
        | [] => false
        | x :: t => x == d && likeMatch q t
    else
      match s with
      | [] => false
      | x :: t => x == c && likeMatch p t

/-- The condition `name LIKE :0 OR hpo_id LIKE :1 OR synonyms LIKE :2` with the three
values bound to one pattern. -/
def rowLike (pattern : String) (r : HpoTermRow) : Bool :=
  likeMatch pattern.data r.name.data || likeMatch pattern.data r.hpo_id.data ||
    likeMatch pattern.data r.synonyms.data

/-- The phenotype `Phenotype(query.value(0).toByteArray(), query.value(1).toByteArray())`
of a row of `SELECT hpo_id, name FROM hpo_term`. -/
def HpoTermRow.phenotype (r : HpoTermRow) : Phenotype := ⟨r.hpo_id, r.name⟩

/-- Order of two phenotypes by name, names compared by character code. -/
def nameLe (a b : Phenotype) : Prop := chrLe a.name.data b.name.data = true

instance : DecidableRel nameLe := fun a b =>
  inferInstanceAs (Decidable (chrLe a.name.data b.name.data = true))

/-- Order by name, of the clause `ORDER BY name ASC` and of the call of `std::sort` with
`a.name()<b.name()`. -/
def sortByName (list : List Phenotype) : List Phenotype :=
  list.insertionSort nameLe

/-- The set `tmp` of one search term: a `QSet<Phenotype>` is a list without repetition,
two phenotypes being equal when accession and name are. -/
def termMatches (db : Store) (term : String) : List Phenotype :=
  ((db.hpo_term.filter (rowLike ("%" ++ term ++ "%"))).map HpoTermRow.phenotype).dedup

/-- The function `NGSD::phenotypes(QStringList)`. -/
def phenotypes (db : Store) (search_terms : List String) : List Phenotype :=
  --trim terms and remove empty terms
  let search_terms := (search_terms.map trimmedQString).filter fun term => term != ""
  if search_terms.isEmpty then --no terms => all phenotypes
    sortByName (db.hpo_term.map HpoTermRow.phenotype)
  else --search for terms (intersect results of all terms)
    let r := search_terms.foldl (fun (acc : List Phenotype × Bool) term =>
      let tmp := termMatches db term
      if acc.2 then (tmp, false) else (acc.1.filter fun p => decide (p ∈ tmp), false))
      (([] : List Phenotype), true)
    sortByName r.1

/-! ## Samples -/

/-- Sample values of the declarations that are not among the sources. -/
def sampleExternals : Externals :=
  { getValue_no_value_is_ok := true,
    geneToApproved_return_input_when_unconvertable := false,
    sourceToString := fun s => match s with
      | .CCDS => "ccds"
      | .ENSEMBL => "ensembl",
    splicedQuery := fun _ query => .error ("SQL query failed: " ++ query) }

/-! ## Invariant of the statics -/

/-- The symbol set that `approvedGeneNames` builds from table `gene`. -/
def approvedFill (db : Store) : GeneSet :=
  db.gene.foldl (fun acc r => acc.insert r.symbol) {}

/-- Gene id found through the alias edges for a symbol that is not approved:
`previous` edges first, then `synonym` edges, `-1` when there is no single match. -/
def aliasID (db : Store) (gene : String) : Int :=
  let q_prev := (aliasJoin db gene "previous").map fun g => g.id
  if q_prev.length = 1 then q_prev.headD 0
  else if q_prev.length > 1 then -1
  else
    let q_syn := (aliasJoin db gene "synonym").map fun g => g.id
    if q_syn.length = 1 then q_syn.headD 0 else -1

/-- Value that `geneToApproved` stores in `mapping` for a symbol that is not approved. -/
def cachedSymbol (db : Store) (gene : String) : Except Exception String :=
  if aliasID db gene != -1 then geneSymbol db (aliasID db gene) else .ok ""

/-- The statics belong to the snapshot `db`: the approved set is still unfilled or is
the one filled from `db`, and every binding of `mapping` for a symbol that is not
approved is the value computed from `db`. -/
def Coherent (db : Store) (st : Statics) : Prop :=
  (st.approved = {} ∨ st.approved = approvedFill db) ∧
  ∀ k v, st.mapping.lookup k = some v → (approvedFill db).contains k = false →
    cachedSymbol db k = .ok v

/-- Statics after the approved set has been filled from `db`. -/
def Statics.filled (st : Statics) (db : Store) : Statics :=
  { st with approved := approvedFill db }

/-! ## Outcomes of a resolution -/

/-- Rows of the `previous` lookup of `geneToApprovedID` for `s`. -/
abbrev previousMatches (db : Store) (s : String) : List GeneRow := aliasJoin db s "previous"

/-- Rows of the `synonym` lookup of `geneToApprovedID` for `s`. -/
abbrev synonymMatches (db : Store) (s : String) : List GeneRow := aliasJoin db s "synonym"

/-- A symbol that is not approved resolves to one gene: a single `previous` match, or
no `previous` match and a single `synonym` match. -/
abbrev ResolvesToOne (db : Store) (s : String) : Prop :=
  (previousMatches db s).length = 1 ∨
    ((previousMatches db s).length = 0 ∧ (synonymMatches db s).length = 1)

/-- A symbol that is not approved is ambiguous: more than one match in the lookup
that decides. -/
abbrev Ambiguous (db : Store) (s : String) : Prop :=
  1 < (previousMatches db s).length ∨
    ((previousMatches db s).length = 0 ∧ 1 < (synonymMatches db s).length)

/-- A symbol that is not approved is unknown: no match in either lookup. -/
abbrev Unknown (db : Store) (s : String) : Prop :=
  (previousMatches db s).length = 0 ∧ (synonymMatches db s).length = 0

/-- Genes that have a `previous` edge with alias text `a`, in table order. -/
def previousCandidates (db : Store) (a : String) : List GeneRow :=
  db.gene.filter fun g => decide ((⟨g.id, a, "previous"⟩ : GeneAliasRow) ∈ db.gene_alias)

/-- The text `inner` occurs in `text`. -/
def Occurs (inner text : String) : Prop :=
  ∃ pre post : String, text = pre ++ inner ++ post

/-- Rows of table `gene` as the store holds them: the id is not the value `-1` that
`geneToApprovedID` returns for an unresolved symbol, and the symbol is not empty. -/
def WellFormed (db : Store) : Prop :=
  ∀ g ∈ db.gene, g.id ≠ -1 ∧ g.symbol ≠ ""

instance (db : Store) : Decidable (WellFormed db) :=
  inferInstanceAs (Decidable (∀ g ∈ db.gene, g.id ≠ -1 ∧ g.symbol ≠ ""))

/-- Two lines overlap or touch: they lie on the same chromosome and neither ends before
the other starts. -/
def BedLine.Overlaps (a b : BedLine) : Prop :=
  a.chr = b.chr ∧ a.start ≤ b.end_ ∧ b.start ≤ a.end_

instance : DecidableRel BedLine.Overlaps := fun a b =>
  inferInstanceAs (Decidable (a.chr = b.chr ∧ a.start ≤ b.end_ ∧ b.start ≤ a.end_))

/-- Lines that follow each other in a merged file: in order, and on one chromosome the
earlier line ends before the later line starts. -/
def Apart (a b : BedLine) : Prop :=
  BedLine.le a b ∧ (a.chr = b.chr → a.end_ < b.start)

/-! ## Region generation -/

/-- Lines that `geneToRegions` appends to `output` before the final sort, for the gene
id `id` and the approved symbol `gene_approved` it has resolved `gene` to. -/
def generatedLines (H : Externals) (db : Store) (gene gene_approved : String) (id : Int)
    (source : SOURCE) (mode : String) (fallback annotate_transcript_names : Bool) : BedFile :=
  let rows := (db.gene_transcript.filter fun t => t.source == H.sourceToString source).filter
    fun t => t.gene_id == id
  let rows_fallback := db.gene_transcript.filter fun t => t.gene_id == id
  let annos := fun (label : String) (t : GeneTranscriptRow) =>
    if annotate_transcript_names then [label ++ " " ++ t.name] else [gene_approved]
  if mode = "gene" then
    let output := geneModeLines db rows (annos gene_approved)
    if output.isEmpty && fallback then geneModeLines db rows_fallback (annos gene_approved)
    else output
  else
    let output := exonModeLines db rows (annos gene_approved)
    if output.isEmpty && fallback then exonModeLines db rows_fallback (annos gene) else output

/-- Transcripts of gene `id` with the requested source. -/
def sourceTranscripts (H : Externals) (db : Store) (id : Int) (source : SOURCE) :
    List GeneTranscriptRow :=
  (db.gene_transcript.filter fun t => t.source == H.sourceToString source).filter
    fun t => t.gene_id == id

/-- Transcripts that gene mode generates regions from: those of the requested source,
or all transcripts of the gene when there is none and `fallback` is set. -/
def selectedTranscripts (H : Externals) (db : Store) (id : Int) (source : SOURCE)
    (fallback : Bool) : List GeneTranscriptRow :=
  if (sourceTranscripts H db id source).isEmpty && fallback then
    db.gene_transcript.filter fun t => t.gene_id == id
  else sourceTranscripts H db id source

/-- Exons of a transcript. -/
def exonsOf (db : Store) (t : GeneTranscriptRow) : List GeneExonRow :=
  db.gene_exon.filter fun e => e.transcript_id == t.id

/-- The line `l` is the gene-mode region of transcript `t`: on chromosome `chr` +
chromosome of `t`, and when `t` has exons, from their minimum start to their maximum
end. -/
def SpansTranscript (db : Store) (t : GeneTranscriptRow) (l : BedLine) : Prop :=
  l.chr = "chr" ++ t.chromosome ∧
  (exonsOf db t ≠ [] →
    ((∃ e ∈ exonsOf db t, l.start = e.start) ∧ ∀ e ∈ exonsOf db t, l.start ≤ e.start) ∧
    ((∃ e ∈ exonsOf db t, l.end_ = e.end_) ∧ ∀ e ∈ exonsOf db t, e.end_ ≤ l.end_))

/-- Value of `geneToApprovedID` on statics that belong to the store. -/
def resolveID (H : Externals) (db : Store) (gene : String) : Except Exception Int :=
  if (approvedFill db).contains gene then
    match getValueIdOfSymbol H db gene with
    | .error e => .error e
    | .ok v => .ok (v.getD 0)
  else .ok (aliasID db gene)

/-- Value of `geneToApproved` on statics that belong to the store. -/
def bestEffort (db : Store) (gene : String) (return_input_when_unconvertable : Bool) : String :=
  if (approvedFill db).contains (toUpper (trimmed gene)) then toUpper (trimmed gene)
  else
    match cachedSymbol db (toUpper (trimmed gene)) with
    | .ok value =>
      if return_input_when_unconvertable && value.isEmpty then toUpper (trimmed gene) else value
    | .error _ => ""

/-- Value of `geneToRegions` on statics that belong to the store. -/
def regionsValue (H : Externals) (db : Store) (gene : String) (source : SOURCE) (mode : String)
    (fallback annotate_transcript_names messages : Bool) : Except Exception (BedFile × List String) :=
  if ¬ mode ∈ ["gene", "exon"] then
    .error (.ArgumentException ("Invalid mode '" ++ mode ++ "'. Valid modes are: "
      ++ ", ".intercalate ["gene", "exon"] ++ "."))
  else
    match resolveID H db gene with
    | .error e => .error e
    | .ok id =>
      if id = -1 then
        .ok ([], if messages then
          ["Gene name '" ++ gene ++ "' is no HGNC-approved symbol. Skipping it!"] else [])
      else
        let output := generatedLines H db gene
          (bestEffort db gene H.geneToApproved_return_input_when_unconvertable) id source mode
          fallback annotate_transcript_names
        .ok (BedFile.sort output (!annotate_transcript_names),
          if output.isEmpty then
            (if messages then ["No transcripts found for gene '" ++ gene ++ "'. Skipping it!"]
              else [])
          else [])

/-- Regions of a call that returned, no region for a call that threw. -/
def okRegions : Except Exception (BedFile × List String) → BedFile
  | .ok (regions, _) => regions
  | .error _ => []

/-- Messages of a call that returned, no message for a call that threw. -/
def okMessages : Except Exception (BedFile × List String) → List String
  | .ok (_, msgs) => msgs
  | .error _ => []

/-- The parent→child relation of the store has no cycle: the terms can be ranked so
that every child has a smaller rank than its parent. -/
def Acyclic (db : Store) : Prop :=
  ∃ rank : Int → Nat, ∀ e ∈ db.hpo_parent, rank e.child < rank e.parent

/-- Gene 1 with three coding CCDS transcripts: `T1` covers 10 bases, `T2` and `T3` cover
30 bases each. -/
def storeTie : Store :=
  { gene := [⟨1, "FOO"⟩],
    gene_transcript := [⟨7, 1, "T1", "ccds", "1", some 0, some 100, "+"⟩,
      ⟨8, 1, "T2", "ccds", "1", some 0, some 100, "+"⟩,
      ⟨9, 1, "T3", "ccds", "1", some 0, some 100, "-"⟩],
    gene_exon := [⟨7, 10, 20⟩, ⟨8, 10, 40⟩, ⟨9, 50, 80⟩] }

/-- Genes on chromosomes `2` and `3`: `AAA` spans 900..1100 and `BBB` spans 1500..2500
on chromosome `2` (exons 1500..1600 and 2400..2500), `CCC` spans 1000..2000 on
chromosome `3`, `DDD` spans 2020..2100 on chromosome `2`. -/
def storeIndex : Store :=
  { gene := [⟨1, "AAA"⟩, ⟨2, "BBB"⟩, ⟨3, "CCC"⟩, ⟨4, "DDD"⟩],
    gene_transcript := [⟨11, 1, "T1", "ccds", "2", none, none, "+"⟩,
      ⟨12, 2, "T2", "ccds", "2", none, none, "+"⟩,
      ⟨13, 3, "T3", "ccds", "3", none, none, "+"⟩,
      ⟨14, 4, "T4", "ccds", "2", none, none, "+"⟩],
    gene_exon := [⟨11, 900, 1100⟩, ⟨12, 1500, 1600⟩, ⟨12, 2400, 2500⟩, ⟨13, 1000, 2000⟩,
      ⟨14, 2020, 2100⟩] }

/-- Four phenotype terms; `cab` contains `ab` but not `ab` followed by a blank, and no
text of the store contains an underscore. -/
def storeSearch : Store :=
  { hpo_term := [⟨1, "HP:0000003", "zeta", "cab"⟩, ⟨2, "HP:0000001", "cab", ""⟩,
      ⟨3, "HP:0000002", "abc", "xyz"⟩, ⟨4, "HP:0000004", "mn", "a_c"⟩] }

/-- Term `A` with child `B`; the raw symbol `qux` of `B` is no symbol and no alias of a
gene, the raw symbol `foo` of `A` is the approved symbol `FOO` in lower case. -/
def storeRaw : Store :=
  { gene := [⟨1, "FOO"⟩],
    hpo_term := [⟨1, "HP:1", "A", ""⟩, ⟨2, "HP:2", "B", ""⟩],
    hpo_genes := [⟨1, "foo"⟩, ⟨2, "qux"⟩],
    hpo_parent := [⟨1, 2⟩] }

/-- Ranks of the terms of `storeDiamond`. -/
def rankDiamond (id : Int) : Nat := if id = 1 then 2 else if id = 4 then 0 else 1

/-- The index statics belong to the snapshot `db`: each `bed` is still empty or is the
one built from `db`. -/
def IndexCoherent (db : Store) (st : IndexStatics) : Prop :=
  (st.genes_bed = [] ∨ st.genes_bed = BedFile.sort (transcriptSpanLines db) false) ∧
  (st.exons_bed = [] ∨ st.exons_bed = BedFile.sort (exonLines db) false)

/-- The number is a value of type `int`. -/
def InIntRange (x : Int) : Prop := -2147483648 ≤ x ∧ x ≤ 2147483647

instance (x : Int) : Decidable (InIntRange x) :=
  inferInstanceAs (Decidable (-2147483648 ≤ x ∧ x ≤ 2147483647))

/-- Minimum exon start of a transcript. -/
def spanStart (db : Store) (t : GeneTranscriptRow) : Int :=
  aggToInt min ((exonsOf db t).map fun e => e.start)

/-- Maximum exon end of a transcript. -/
def spanEnd (db : Store) (t : GeneTranscriptRow) : Int :=
  aggToInt max ((exonsOf db t).map fun e => e.end_)

/-- Term `t` is a child of term `s` in table `hpo_parent`. -/
def ChildEdge (db : Store) (s t : Int) : Prop :=
  ∃ e ∈ db.hpo_parent, e.parent = s ∧ e.child = t

/-- The terms whose genes a call on the term `start` is to collect: the term itself,
and for a recursive call every term reachable from it through child edges. -/
def InScope (db : Store) (recursive : Bool) (start t : Int) : Prop :=
  t = start ∨ (recursive = true ∧ Relation.ReflTransGen (ChildEdge db) start t)

/-! ## Sample stores -/

/-- Ontology with a cycle: term `A` has child `B` and term `B` has child `A`. -/
def storeCycle : Store :=
  { hpo_term := [⟨1, "HP:1", "A", ""⟩, ⟨2, "HP:2", "B", ""⟩],
    hpo_parent := [⟨1, 2⟩, ⟨2, 1⟩] }

/-- Acyclic ontology in which term `D` is reached from `A` through `B` and through `C`;
gene `FOO` belongs to `A`, the alias `BAR` of gene `BAZ` and the unknown `QUX` to `D`. -/
def storeDiamond : Store :=
  { gene := [⟨1, "FOO"⟩, ⟨2, "BAZ"⟩],
    gene_alias := [⟨2, "BAR", "previous"⟩],
    hpo_term := [⟨1, "HP:1", "A", ""⟩, ⟨2, "HP:2", "B", ""⟩, ⟨3, "HP:3", "C", ""⟩,
      ⟨4, "HP:4", "D", ""⟩],
    hpo_genes := [⟨1, "FOO"⟩, ⟨4, "BAR"⟩, ⟨4, "QUX"⟩],
    hpo_parent := [⟨1, 2⟩, ⟨1, 3⟩, ⟨2, 4⟩, ⟨3, 4⟩] }


/-- An approved symbol with lower-case letters. -/
def storeLower : Store := { gene := [⟨1, "C9orf72"⟩] }

/-- The approved symbol `FOO` is also a `previous` symbol of gene `BAR`. -/
def storeShadow : Store :=
  { gene := [⟨1, "FOO"⟩, ⟨2, "BAR"⟩], gene_alias := [⟨2, "FOO", "previous"⟩] }

/-- A `previous` symbol with lower-case letters. -/
def storeLowerAlias : Store :=
  { gene := [⟨1, "CRNN"⟩], gene_alias := [⟨1, "C1orf10", "previous"⟩] }

/-- The symbol `BAR` is a `previous` symbol of the genes `BAZ1` and `BAZ2`. -/
def storeAmbiguous : Store :=
  { gene := [⟨1, "BAZ1"⟩, ⟨2, "BAZ2"⟩],
    gene_alias := [⟨2, "BAR", "previous"⟩, ⟨1, "BAR", "previous"⟩] }

/-- As `storeAmbiguous`, with `BAR` also the approved symbol of a third gene. -/
def storeAmbiguousApproved : Store :=
  { gene := [⟨1, "BAZ1"⟩, ⟨2, "BAZ2"⟩, ⟨3, "BAR"⟩],
    gene_alias := [⟨2, "BAR", "previous"⟩, ⟨1, "BAR", "previous"⟩] }

/-- The `previous` edge from `BAR` to gene `BAZ1` is stored twice. -/
def storeDuplicateEdge : Store :=
  { gene := [⟨1, "BAZ1"⟩, ⟨2, "BAZ2"⟩],
    gene_alias := [⟨1, "BAR", "previous"⟩, ⟨1, "BAR", "previous"⟩, ⟨2, "BAR", "previous"⟩] }

/-- Scenario of the spec: gene `FOO` with one coding CCDS transcript on chromosome `1`,
exons (10,50) and (60,100), coding region 20..90. -/
def storeFoo : Store :=
  { gene := [⟨1, "FOO"⟩],
    gene_transcript := [⟨7, 1, "CCDS1", "ccds", "1", some 20, some 90, "+"⟩],
    gene_exon := [⟨7, 10, 50⟩, ⟨7, 60, 100⟩] }

/-- Gene `FOO` with two coding transcripts on chromosome `1` whose clipped exons
(20,50), (60,90) and (40,65), (95,99) overlap. -/
def storeOverlap : Store :=
  { gene := [⟨1, "FOO"⟩],
    gene_transcript := [⟨7, 1, "CCDS1", "ccds", "1", some 20, some 90, "+"⟩,
      ⟨8, 1, "CCDS2", "ccds", "1", some 20, some 99, "+"⟩],
    gene_exon := [⟨7, 10, 50⟩, ⟨7, 60, 100⟩, ⟨8, 40, 65⟩, ⟨8, 95, 120⟩] }

/-- Gene `FOO` with a transcript on chromosome `1` (exon 500..600) and a transcript on
chromosome `2` (exon 100..200). -/
def storeTwoChromosomes : Store :=
  { gene := [⟨1, "FOO"⟩],
    gene_transcript := [⟨7, 1, "CCDS1", "ccds", "1", none, none, "+"⟩,
      ⟨8, 1, "CCDS2", "ccds", "2", none, none, "+"⟩],
    gene_exon := [⟨7, 500, 600⟩, ⟨8, 100, 200⟩] }

/-- The symbol `BAR` is a `previous` symbol of gene `BAZ`, which has one ENSEMBL
transcript and no CCDS transcript. -/
def storeAliasFallback : Store :=
  { gene := [⟨1, "BAZ"⟩],
    gene_alias := [⟨1, "BAR", "previous"⟩],
    gene_transcript := [⟨8, 1, "ENST1", "ensembl", "1", none, none, "+"⟩],
    gene_exon := [⟨8, 10, 50⟩] }

/-- Gene `FOO` has a CCDS transcript without exon rows and an ENSEMBL transcript with
the exon (10,50). -/
def storeNoExon : Store :=
  { gene := [⟨1, "FOO"⟩],
    gene_transcript := [⟨7, 1, "CCDS1", "ccds", "1", some 20, some 90, "+"⟩,
      ⟨8, 1, "ENST1", "ensembl", "2", none, none, "+"⟩],
    gene_exon := [⟨8, 10, 50⟩] }

/-- The symbol `BAR` is a `previous` symbol of gene `BAZ` only; `QUX` is a `synonym` of
the genes `BAZ` and `FOO`. -/
def storeAlias : Store :=
  { gene := [⟨1, "BAZ"⟩, ⟨2, "FOO"⟩],
    gene_alias := [⟨1, "BAR", "previous"⟩, ⟨1, "QUX", "synonym"⟩, ⟨2, "QUX", "synonym"⟩] }

end NGSD

namespace NGSD

/-! ## Lemmas: byte strings -/

theorem isSpace_toUpper (c : Char) : isSpace c.toUpper = isSpace c := by
  unfold Char.toUpper
  simp only []
  split
  · rename_i h
    have h1 : isSpace c = false := by
      unfold isSpace
      have : c.toNat ≠ 32 ∧ c.toNat ≠ 9 ∧ c.toNat ≠ 10 ∧ c.toNat ≠ 11 ∧ c.toNat ≠ 12 ∧ c.toNat ≠ 13 := by
        omega
      simp only [Bool.or_eq_false_iff, beq_eq_false_iff_ne, ne_eq]
      refine ⟨⟨⟨⟨⟨?_, ?_⟩, ?_⟩, ?_⟩, ?_⟩, ?_⟩ <;> intro hc <;> subst hc <;> revert this <;> decide
    rw [h1]
    obtain ⟨ha, hb⟩ := h
    generalize c.toNat = n at ha hb
    interval_cases n <;> decide
  · rfl

theorem toUpper_toUpper_char (c : Char) : c.toUpper.toUpper = c.toUpper := by
  by_cases h : c.toNat ≥ 97 ∧ c.toNat ≤ 122
  · have h1 : c.toUpper = Char.ofNat (c.toNat - 32) := by
      unfold Char.toUpper
      simp only []
      rw [if_pos h]
    rw [h1]
    obtain ⟨ha, hb⟩ := h
    generalize c.toNat = n at ha hb
    interval_cases n <;> decide
  · have h1 : c.toUpper = c := by
      unfold Char.toUpper
      simp only []
      rw [if_neg h]
    rw [h1, h1]

theorem dropWhile_isSpace_map_toUpper (l : List Char) :
    (l.map Char.toUpper).dropWhile isSpace = (l.dropWhile isSpace).map Char.toUpper := by
  induction l with
  | nil => rfl
  | cons c t ih =>
    simp only [List.map_cons, List.dropWhile_cons, isSpace_toUpper]
    split
    · exact ih
    · simp

theorem trimmedChars_map_toUpper (l : List Char) :
    trimmedChars (l.map Char.toUpper) = (trimmedChars l).map Char.toUpper := by
  unfold trimmedChars
  rw [dropWhile_isSpace_map_toUpper, ← List.map_reverse, dropWhile_isSpace_map_toUpper,
    List.map_reverse]

theorem dropWhile_isSpace_idem (l : List Char) :
    (l.dropWhile isSpace).dropWhile isSpace = l.dropWhile isSpace := by
  induction l with
  | nil => rfl
  | cons c t ih =>
    by_cases h : isSpace c = true
    · simp only [List.dropWhile_cons, h, if_true, ih]
    · simp only [List.dropWhile_cons, h, if_false]
      simp [h]

/-- A list from which trailing whitespace was dropped does not start with whitespace
after reversal, and dropping leading whitespace keeps that. -/
theorem dropWhile_reverse_dropWhile (l : List Char) :
    ((l.dropWhile isSpace).reverse.dropWhile isSpace).reverse.dropWhile isSpace
      = ((l.dropWhile isSpace).reverse.dropWhile isSpace).reverse := by
  generalize hm : l.dropWhile isSpace = m
  have hm2 : m.dropWhile isSpace = m := by rw [← hm, dropWhile_isSpace_idem]
  clear hm
  cases m with
  | nil => rfl
  | cons c t =>
    have hc : isSpace c = false := by
      by_contra hc
      simp only [Bool.not_eq_false] at hc
      simp only [List.dropWhile_cons, hc, if_true] at hm2
      have := (List.dropWhile_sublist isSpace (l := t)).length_le
      rw [hm2] at this
      simp at this
    -- the reversed list ends with `c`; dropping leading whitespace keeps a list ending with `c`
    have key : ∀ (r : List Char), ∃ r2, (r ++ [c]).dropWhile isSpace = r2 ++ [c] := by
      intro r
      induction r with
      | nil => exact ⟨[], by simp [List.dropWhile_cons, hc]⟩
      | cons x xs ih =>
        by_cases hx : isSpace x = true
        · obtain ⟨r2, h2⟩ := ih
          exact ⟨r2, by simp only [List.cons_append, List.dropWhile_cons, hx, if_true]; exact h2⟩
        · exact ⟨x :: xs, by simp [List.dropWhile_cons, hx]⟩
    obtain ⟨r2, h2⟩ := key t.reverse
    rw [List.reverse_cons, h2]
    simp [List.dropWhile_cons, hc]

theorem trimmedChars_idem (l : List Char) : trimmedChars (trimmedChars l) = trimmedChars l := by
  unfold trimmedChars
  rw [dropWhile_reverse_dropWhile l, List.reverse_reverse, dropWhile_isSpace_idem]

/-- Normalisation `trimmed().toUpper()` is idempotent. -/
theorem toUpper_trimmed_idem (s : String) :
    toUpper (trimmed (toUpper (trimmed s))) = toUpper (trimmed s) := by
  unfold toUpper trimmed
  simp only [trimmedChars_map_toUpper, trimmedChars_idem, List.map_map]
  congr 1
  apply List.map_congr_left
  intro c _
  exact toUpper_toUpper_char c

/-! ## Lemmas: the statics -/

theorem mem_foldl_insert (l : List GeneRow) (s : GeneSet) (g : String) :
    g ∈ (l.foldl (fun acc r => acc.insert r.symbol) s).elems ↔
      g ∈ s.elems ∨ ∃ r ∈ l, r.symbol = g := by
  induction l generalizing s with
  | nil => simp
  | cons r t ih =>
    rw [List.foldl_cons, ih]
    unfold GeneSet.insert
    by_cases hr : r.symbol ∈ s.elems
    · rw [if_pos hr]
      constructor
      · rintro (h | ⟨x, hx, hxg⟩)
        · exact Or.inl h
        · exact Or.inr ⟨x, List.mem_cons_of_mem _ hx, hxg⟩
      · rintro (h | ⟨x, hx, hxg⟩)
        · exact Or.inl h
        · rcases List.mem_cons.mp hx with rfl | hx
          · exact Or.inl (hxg ▸ hr)
          · exact Or.inr ⟨x, hx, hxg⟩
    · rw [if_neg hr]
      simp only [List.mem_append, List.mem_singleton, List.mem_cons, exists_eq_or_imp,
        List.not_mem_nil, or_false]
      constructor
      · rintro ((h | h) | h)
        · exact Or.inl h
        · exact Or.inr (Or.inl h.symm)
        · exact Or.inr (Or.inr h)
      · rintro (h | h | h)
        · exact Or.inl (Or.inl h)
        · exact Or.inl (Or.inr h.symm)
        · exact Or.inr h

theorem approvedFill_contains (db : Store) (g : String) :
    (approvedFill db).contains g = true ↔ ∃ r ∈ db.gene, r.symbol = g := by
  unfold GeneSet.contains approvedFill
  rw [decide_eq_true_iff, mem_foldl_insert]
  simp

theorem approvedFill_contains_false (db : Store) (g : String) :
    (approvedFill db).contains g = false ↔ ∀ r ∈ db.gene, r.symbol ≠ g := by
  rw [← Bool.not_eq_true, approvedFill_contains]
  simp

theorem approvedGeneNames_eq {db : Store} {st : Statics} (hc : Coherent db st) :
    approvedGeneNames db st = (approvedFill db, st.filled db) := by
  obtain ⟨st_approved, st_mapping⟩ := st
  unfold approvedGeneNames Statics.filled
  rcases hc.1 with h | h
  · simp only at h
    subst h
    simp [GeneSet.count, approvedFill]
  · simp only at h
    subst h
    by_cases h0 : (approvedFill db).count = 0
    · rw [if_pos h0]
      have h1 : approvedFill db = {} := by
        unfold GeneSet.count at h0
        cases hf : approvedFill db with
        | mk elems =>
          rw [hf] at h0
          simp only [List.length_eq_zero] at h0
          rw [h0]
      have h2 : List.foldl (fun acc r => acc.insert r.symbol) (approvedFill db) db.gene
          = approvedFill db := by
        conv_lhs => rw [h1]
        rfl
      simp only [h2]
    · rw [if_neg h0]

theorem coherent_init (db : Store) : Coherent db Statics.init :=
  ⟨Or.inl rfl, fun k v h => by simp [Statics.init] at h⟩

theorem coherent_filled {db : Store} {st : Statics} (hc : Coherent db st) :
    Coherent db (st.filled db) :=
  ⟨Or.inr rfl, hc.2⟩

theorem approvedGeneNames_contains {db : Store} {st : Statics} (hc : Coherent db st) (g : String) :
    (approvedGeneNames db st).1.contains g = (approvedFill db).contains g := by
  rw [approvedGeneNames_eq hc]

theorem geneToApprovedID_not_approved (H : Externals) {db : Store} {st : Statics}
    (hc : Coherent db st) {gene : String} (hn : (approvedFill db).contains gene = false) :
    geneToApprovedID H db st gene = (.ok (aliasID db gene), st.filled db) := by
  unfold geneToApprovedID
  rw [approvedGeneNames_eq hc]
  simp only [hn, Bool.false_eq_true, if_false]
  unfold aliasID
  simp only []
  split
  · rfl
  · split
    · rfl
    · split <;> rfl

theorem geneToApproved_approved (H : Externals) {db : Store} {st : Statics}
    (hc : Coherent db st) {gene : String} (flag : Bool)
    (ha : (approvedFill db).contains (toUpper (trimmed gene)) = true) :
    geneToApproved H db st gene flag = (.ok (toUpper (trimmed gene)), st.filled db) := by
  unfold geneToApproved
  simp only [approvedGeneNames_eq hc, ha, if_true]

/-- Outcome of `geneToApproved` for a symbol whose normal form is not approved. -/
theorem geneToApproved_not_approved (H : Externals) {db : Store} {st : Statics}
    (hc : Coherent db st) {gene : String} (flag : Bool)
    (hn : (approvedFill db).contains (toUpper (trimmed gene)) = false) :
    (geneToApproved H db st gene flag).1 =
      (cachedSymbol db (toUpper (trimmed gene))).map
        (fun v => if (flag && v.isEmpty) = true then toUpper (trimmed gene) else v) ∧
    Coherent db (geneToApproved H db st gene flag).2 := by
  unfold geneToApproved
  simp only [approvedGeneNames_eq hc, hn, Bool.false_eq_true, if_false]
  have hm : (st.filled db).mapping = st.mapping := rfl
  cases hl : (st.filled db).mapping.lookup (toUpper (trimmed gene)) with
  | some cached =>
    have hcv := hc.2 _ _ (hm ▸ hl) hn
    simp only [hcv, Except.map]
    split <;> exact ⟨rfl, coherent_filled hc⟩
  | none =>
    simp only [geneToApprovedID_not_approved H (coherent_filled hc) hn]
    have hff : (st.filled db).filled db = st.filled db := rfl
    simp only [hff]
    have hcs : cachedSymbol db (toUpper (trimmed gene)) =
        (if (aliasID db (toUpper (trimmed gene)) != -1) = true then
          geneSymbol db (aliasID db (toUpper (trimmed gene))) else .ok "") := rfl
    rw [← hcs]
    cases hv : cachedSymbol db (toUpper (trimmed gene)) with
    | error e => exact ⟨rfl, coherent_filled hc⟩
    | ok value =>
      simp only [Except.map]
      have hco : Coherent db { st.filled db with
          mapping := (toUpper (trimmed gene), value) :: (st.filled db).mapping } := by
        refine ⟨Or.inr rfl, ?_⟩
        intro k v hk hkn
        simp only [List.lookup_cons] at hk
        by_cases hkg : k = toUpper (trimmed gene)
        · subst hkg
          simp only [beq_self_eq_true] at hk
          cases hk
          exact hv
        · have : (k == toUpper (trimmed gene)) = false := by simpa using hkg
          simp only [this] at hk
          exact hc.2 k v hk hkn
      split <;> exact ⟨rfl, hco⟩

/-- The invariant is kept by `geneToApprovedID`. -/
theorem coherent_geneToApprovedID (H : Externals) {db : Store} {st : Statics}
    (hc : Coherent db st) (gene : String) : Coherent db (geneToApprovedID H db st gene).2 := by
  cases hA : (approvedFill db).contains gene with
  | false =>
    rw [geneToApprovedID_not_approved H hc hA]
    exact coherent_filled hc
  | true =>
    unfold geneToApprovedID
    simp only [approvedGeneNames_eq hc, hA, if_true]
    split <;> exact coherent_filled hc

/-- The invariant is kept by `geneToApproved`. -/
theorem coherent_geneToApproved (H : Externals) {db : Store} {st : Statics}
    (hc : Coherent db st) (gene : String) (flag : Bool) :
    Coherent db (geneToApproved H db st gene flag).2 := by
  cases hA : (approvedFill db).contains (toUpper (trimmed gene)) with
  | false => exact (geneToApproved_not_approved H hc flag hA).2
  | true =>
    rw [geneToApproved_approved H hc flag hA]
    exact coherent_filled hc

/-! ## Lemmas: alias lookups -/

theorem flatMap_const_singleton {β : Type} (F : Int → List β) (g : GeneRow) :
    ∀ l : List GeneRow, (l.flatMap fun x => (F x.id).map fun _ => x) = [g] →
      l.filter (fun x => x.id == g.id) = [g] := by
  have L1 : ∀ l : List GeneRow, (l.flatMap fun x => (F x.id).map fun _ => x) = [] →
      F g.id ≠ [] → l.filter (fun x => x.id == g.id) = [] := by
    intro l
    induction l with
    | nil => intro _ _; rfl
    | cons x t ih =>
      intro h hF
      rw [List.flatMap_cons, List.append_eq_nil] at h
      have hx : x.id ≠ g.id := by
        intro hxg
        rw [hxg] at h
        exact hF (List.map_eq_nil_iff.mp h.1)
      have hb : (x.id == g.id) = false := by simpa using hx
      rw [List.filter_cons, hb]
      exact ih h.2 hF
  intro l
  induction l with
  | nil => intro h; simp at h
  | cons x t ih =>
    intro h
    rw [List.flatMap_cons] at h
    cases hFx : F x.id with
    | nil =>
      rw [hFx] at h
      simp only [List.map_nil, List.nil_append] at h
      have hF : F g.id ≠ [] := by
        intro hFg
        have hmem : g ∈ (t.flatMap fun x => (F x.id).map fun _ => x) := by rw [h]; simp
        rw [List.mem_flatMap] at hmem
        obtain ⟨y, _, hy⟩ := hmem
        rw [List.mem_map] at hy
        obtain ⟨b, hb, hyg⟩ := hy
        rw [hyg, hFg] at hb
        simp at hb
      have hx : x.id ≠ g.id := by
        intro hxg
        rw [hxg] at hFx
        exact hF hFx
      have hb : (x.id == g.id) = false := by simpa using hx
      rw [List.filter_cons, hb]
      exact ih h
    | cons b bs =>
      rw [hFx] at h
      simp only [List.map_cons, List.cons_append, List.cons.injEq, List.append_eq_nil,
        List.map_eq_nil_iff] at h
      obtain ⟨hxg, hbs, ht⟩ := h
      subst hxg
      have hF : F x.id ≠ [] := by rw [hFx]; simp
      rw [List.filter_cons]
      simp only [beq_self_eq_true, if_true]
      rw [L1 t ht hF]

theorem aliasJoin_singleton {db : Store} {a ty : String} {g : GeneRow}
    (h : aliasJoin db a ty = [g]) : db.gene.filter (fun x => x.id == g.id) = [g] := by
  unfold aliasJoin at h
  exact flatMap_const_singleton
    (fun i => db.gene_alias.filter fun ga => i == ga.gene_id && ga.symbol == a && ga.type == ty)
    g db.gene h

theorem geneSymbol_of_aliasJoin {db : Store} {a ty : String} {g : GeneRow}
    (h : aliasJoin db a ty = [g]) : geneSymbol db g.id = .ok g.symbol := by
  unfold geneSymbol getValue
  rw [aliasJoin_singleton h]
  rfl

theorem aliasID_previous {db : Store} {a : String} {g : GeneRow}
    (h : aliasJoin db a "previous" = [g]) : aliasID db a = g.id := by
  unfold aliasID
  simp [h]

theorem aliasID_synonym {db : Store} {a : String} {g : GeneRow}
    (hp : aliasJoin db a "previous" = []) (h : aliasJoin db a "synonym" = [g]) :
    aliasID db a = g.id := by
  unfold aliasID
  simp [h, hp]

theorem aliasID_not_one {db : Store} {a : String} (h : Ambiguous db a ∨ Unknown db a) :
    aliasID db a = -1 := by
  unfold aliasID
  simp only [List.length_map]
  simp only [Ambiguous, Unknown, previousMatches, synonymMatches] at h
  rcases h with (h | ⟨h1, h2⟩) | ⟨h1, h2⟩
  · rw [if_neg (by omega), if_pos (by omega)]
  · rw [if_neg (by omega), if_neg (by omega), if_neg (by omega)]
  · rw [if_neg (by omega), if_neg (by omega), if_neg (by omega)]

theorem isPrefixOf_append_self (p r : List Char) : p.isPrefixOf (p ++ r) = true := by
  induction p with
  | nil => simp [List.isPrefixOf]
  | cons c t ih => simp [List.isPrefixOf, ih]

theorem startsWith_append (p r : String) : startsWith (p ++ r) p = true := by
  unfold startsWith
  rw [String.data_append]
  exact isPrefixOf_append_self _ _

theorem isEmpty_false_of_ne {v : String} (h : v ≠ "") : v.isEmpty = false := by
  cases hv : v.isEmpty with
  | false => rfl
  | true => exact absurd ((String.isEmpty_iff v).mp hv) h

theorem orderById_singleton (g : GeneRow) : orderById [g] = [g] := by
  simp [orderById]

theorem aliasJoin_eq_candidates {db : Store} (hnodup : db.gene_alias.Nodup) (a : String) :
    aliasJoin db a "previous" = previousCandidates db a := by
  unfold aliasJoin previousCandidates
  have hrow : ∀ g : GeneRow,
      ((db.gene_alias.filter fun ga => g.id == ga.gene_id && ga.symbol == a && ga.type == "previous").map
        fun _ => g)
      = if (⟨g.id, a, "previous"⟩ : GeneAliasRow) ∈ db.gene_alias then [g] else [] := by
    intro g
    have hp : (fun ga : GeneAliasRow => g.id == ga.gene_id && ga.symbol == a && ga.type == "previous")
        = fun ga => ga == (⟨g.id, a, "previous"⟩ : GeneAliasRow) := by
      funext ga
      obtain ⟨gid, sym, ty⟩ := ga
      rw [Bool.eq_iff_iff]
      simp only [Bool.and_eq_true, beq_iff_eq, GeneAliasRow.mk.injEq]
      constructor
      · rintro ⟨⟨h1, h2⟩, h3⟩
        exact ⟨h1.symm, h2, h3⟩
      · rintro ⟨h1, h2, h3⟩
        exact ⟨⟨h1.symm, h2⟩, h3⟩
    rw [hp, List.filter_beq]
    by_cases hmem : (⟨g.id, a, "previous"⟩ : GeneAliasRow) ∈ db.gene_alias
    · rw [if_pos hmem, List.count_eq_one_of_mem hnodup hmem]
      rfl
    · rw [if_neg hmem, List.count_eq_zero_of_not_mem hmem]
      rfl
  induction db.gene with
  | nil => rfl
  | cons g t ih =>
    rw [List.flatMap_cons, ih, hrow g, List.filter_cons]
    by_cases hmem : (⟨g.id, a, "previous"⟩ : GeneAliasRow) ∈ db.gene_alias
    · simp [hmem]
    · simp [hmem]

theorem orderById_sorted (rows : List GeneRow) :
    ((orderById rows).map fun g => g.id).Sorted (· ≤ ·) := by
  haveI : IsTotal GeneRow (fun a b => a.id ≤ b.id) := ⟨fun a b => le_total a.id b.id⟩
  haveI : IsTrans GeneRow (fun a b => a.id ≤ b.id) := ⟨fun _ _ _ h1 h2 => le_trans h1 h2⟩
  have h := List.sorted_insertionSort (fun a b : GeneRow => a.id ≤ b.id) rows
  unfold List.Sorted at h ⊢
  rw [List.pairwise_map]
  exact h

theorem orderById_perm (rows : List GeneRow) : (orderById rows).Perm rows :=
  List.perm_insertionSort _ rows

theorem orderById_length (rows : List GeneRow) : (orderById rows).length = rows.length :=
  List.length_insertionSort _ rows

theorem isPrefixOf_append_true (q p r : List Char) (h : q.isPrefixOf p = true) :
    q.isPrefixOf (p ++ r) = true := by
  induction q generalizing p with
  | nil => simp [List.isPrefixOf]
  | cons d q ih =>
    cases p with
    | nil => simp [List.isPrefixOf] at h
    | cons c p =>
      simp only [List.isPrefixOf, Bool.and_eq_true, List.cons_append] at h ⊢
      exact ⟨h.1, ih p h.2⟩

theorem isPrefixOf_append_false (q p r : List Char)
    (h : (q.take p.length).isPrefixOf p = false) : q.isPrefixOf (p ++ r) = false := by
  induction q generalizing p with
  | nil => simp [List.isPrefixOf] at h
  | cons d q ih =>
    cases p with
    | nil => simp [List.isPrefixOf] at h
    | cons c p =>
      simp only [List.length_cons, List.take_succ_cons, List.isPrefixOf, Bool.and_eq_false_iff,
        List.cons_append] at h ⊢
      rcases h with h | h
      · exact Or.inl h
      · exact Or.inr (ih p h)

/-- A text that begins with the literal `p` starts with `q` when `p` does. -/
theorem startsWith_append_true (p r q : String) (h : startsWith p q = true) :
    startsWith (p ++ r) q = true := by
  unfold startsWith at h ⊢
  rw [String.data_append]
  exact isPrefixOf_append_true _ _ _ h

/-- A text that begins with the literal `p` does not start with `q` when `q` departs
from `p` within the length of `p`. -/
theorem startsWith_append_false (p r q : String)
    (h : (q.data.take p.data.length).isPrefixOf p.data = false) :
    startsWith (p ++ r) q = false := by
  unfold startsWith
  rw [String.data_append]
  exact isPrefixOf_append_false _ _ _ h

theorem mem_gene_of_mem_aliasJoin {db : Store} (a ty : String) {g : GeneRow}
    (h : g ∈ aliasJoin db a ty) : g ∈ db.gene := by
  unfold aliasJoin at h
  rw [List.mem_flatMap] at h
  obtain ⟨x, hx, hg⟩ := h
  rw [List.mem_map] at hg
  obtain ⟨_, _, hxg⟩ := hg
  exact hxg ▸ hx

theorem gTAWM_previous_one {db : Store} {st : Statics} (hc : Coherent db st) {a : String}
    {g : GeneRow} (hn : (approvedFill db).contains a = false)
    (h : aliasJoin db a "previous" = [g]) :
    (geneToApprovedWithMessage db st a).1
      = (g.symbol, "REPLACED: " ++ (a ++ " is a previous symbol")) := by
  unfold geneToApprovedWithMessage
  simp [approvedGeneNames_eq hc, hn, h, orderById_singleton, String.append_assoc]

theorem gTAWM_previous_many {db : Store} {st : Statics} (hc : Coherent db st) {a : String}
    (hn : (approvedFill db).contains a = false)
    (h : 1 < (aliasJoin db a "previous").length) :
    (geneToApprovedWithMessage db st a).1
      = (a, "ERROR: " ++ (a ++ (" is a previous symbol of the genes " ++
          joinGenes ((orderById (aliasJoin db a "previous")).map fun g => g.symbol)))) := by
  unfold geneToApprovedWithMessage
  simp only [approvedGeneNames_eq hc, hn, Bool.false_eq_true, if_false, List.length_map,
    orderById_length, String.append_assoc]
  rw [if_neg (by omega), if_pos (by omega)]

theorem gTAWM_synonym_one {db : Store} {st : Statics} (hc : Coherent db st) {a : String}
    {g : GeneRow} (hn : (approvedFill db).contains a = false)
    (hp : (aliasJoin db a "previous").length = 0) (h : aliasJoin db a "synonym" = [g]) :
    (geneToApprovedWithMessage db st a).1
      = (g.symbol, "REPLACED: " ++ (a ++ " is a synonymous symbol")) := by
  unfold geneToApprovedWithMessage
  simp only [approvedGeneNames_eq hc, hn, Bool.false_eq_true, if_false, List.length_map,
    orderById_length, String.append_assoc]
  rw [if_neg (by omega), if_neg (by omega)]
  simp [h, orderById_singleton]

theorem gTAWM_synonym_many {db : Store} {st : Statics} (hc : Coherent db st) {a : String}
    (hn : (approvedFill db).contains a = false)
    (hp : (aliasJoin db a "previous").length = 0)
    (h : 1 < (aliasJoin db a "synonym").length) :
    (geneToApprovedWithMessage db st a).1
      = (a, "ERROR: " ++ (a ++ (" is a synonymous symbol of the genes " ++
          joinGenes ((orderById (aliasJoin db a "synonym")).map fun g => g.symbol)))) := by
  unfold geneToApprovedWithMessage
  simp only [approvedGeneNames_eq hc, hn, Bool.false_eq_true, if_false, List.length_map,
    orderById_length, String.append_assoc]
  rw [if_neg (by omega), if_neg (by omega), if_neg (by omega), if_pos (by omega)]

theorem gTAWM_unknown {db : Store} {st : Statics} (hc : Coherent db st) {a : String}
    (hn : (approvedFill db).contains a = false)
    (hp : (aliasJoin db a "previous").length = 0)
    (h : (aliasJoin db a "synonym").length = 0) :
    (geneToApprovedWithMessage db st a).1 = (a, "ERROR: " ++ (a ++ " is unknown symbol")) := by
  unfold geneToApprovedWithMessage
  simp only [approvedGeneNames_eq hc, hn, Bool.false_eq_true, if_false, List.length_map,
    orderById_length, String.append_assoc]
  rw [if_neg (by omega), if_neg (by omega), if_neg (by omega), if_neg (by omega)]

theorem gTAWM_approved {db : Store} {st : Statics} (hc : Coherent db st) {a : String}
    (ha : (approvedFill db).contains a = true) :
    (geneToApprovedWithMessage db st a).1 = (a, "KEPT: " ++ (a ++ " is an approved symbol")) := by
  unfold geneToApprovedWithMessage
  simp only [approvedGeneNames_eq hc, ha, if_true, String.append_assoc]

theorem list_length_one {α : Type} {l : List α} (h : l.length = 1) : ∃ x, l = [x] := by
  match l, h with
  | [x], _ => exact ⟨x, rfl⟩

theorem cachedSymbol_previous_one {db : Store} {a : String} {g : GeneRow}
    (h : aliasJoin db a "previous" = [g]) (hid : g.id ≠ -1) :
    cachedSymbol db a = .ok g.symbol := by
  unfold cachedSymbol
  rw [aliasID_previous h]
  have : (g.id != -1) = true := by simpa using hid
  rw [if_pos this, geneSymbol_of_aliasJoin h]

theorem cachedSymbol_synonym_one {db : Store} {a : String} {g : GeneRow}
    (hp : aliasJoin db a "previous" = []) (h : aliasJoin db a "synonym" = [g]) (hid : g.id ≠ -1) :
    cachedSymbol db a = .ok g.symbol := by
  unfold cachedSymbol
  rw [aliasID_synonym hp h]
  have : (g.id != -1) = true := by simpa using hid
  rw [if_pos this, geneSymbol_of_aliasJoin h]

theorem cachedSymbol_not_one {db : Store} {a : String} (h : Ambiguous db a ∨ Unknown db a) :
    cachedSymbol db a = .ok "" := by
  unfold cachedSymbol
  rw [aliasID_not_one h]
  rfl

/-- Value of `geneToApproved(s, false)` for a trimmed upper-case symbol that is not
approved. -/
theorem geneToApproved_false_of_cached (H : Externals) {db : Store} {st : Statics}
    (hc : Coherent db st) {s v : String} (hnorm : toUpper (trimmed s) = s)
    (hn : (approvedFill db).contains s = false) (hv : cachedSymbol db s = .ok v) :
    (geneToApproved H db st s false).1 = .ok v := by
  have hn2 : (approvedFill db).contains (toUpper (trimmed s)) = false := by rw [hnorm]; exact hn
  rw [(geneToApproved_not_approved H hc false hn2).1, hnorm, hv]
  simp [Except.map]

theorem starts_kept (r : String) :
    startsWith ("KEPT: " ++ r) "KEPT" = true ∧ startsWith ("KEPT: " ++ r) "REPLACED" = false ∧
      startsWith ("KEPT: " ++ r) "ERROR" = false :=
  ⟨startsWith_append_true _ _ _ (by decide), startsWith_append_false _ _ _ (by decide),
    startsWith_append_false _ _ _ (by decide)⟩

theorem starts_replaced (r : String) :
    startsWith ("REPLACED: " ++ r) "KEPT" = false ∧
      startsWith ("REPLACED: " ++ r) "REPLACED" = true ∧
      startsWith ("REPLACED: " ++ r) "ERROR" = false :=
  ⟨startsWith_append_false _ _ _ (by decide), startsWith_append_true _ _ _ (by decide),
    startsWith_append_false _ _ _ (by decide)⟩

theorem starts_error (r : String) :
    startsWith ("ERROR: " ++ r) "KEPT" = false ∧ startsWith ("ERROR: " ++ r) "REPLACED" = false ∧
      startsWith ("ERROR: " ++ r) "ERROR" = true :=
  ⟨startsWith_append_false _ _ _ (by decide), startsWith_append_false _ _ _ (by decide),
    startsWith_append_true _ _ _ (by decide)⟩

theorem occurs_append_left {x t : String} (pre : String) (h : Occurs x t) : Occurs x (pre ++ t) := by
  obtain ⟨a, b, hab⟩ := h
  exact ⟨pre ++ a, b, by rw [hab]; simp only [String.append_assoc]⟩

theorem occurs_append_right {x t : String} (post : String) (h : Occurs x t) :
    Occurs x (t ++ post) := by
  obtain ⟨a, b, hab⟩ := h
  exact ⟨a, b ++ post, by rw [hab]; simp only [String.append_assoc]⟩

theorem occurs_foldl_joinGenes (l : List String) :
    ∀ acc : String,
      (∀ x, Occurs x acc →
        Occurs x (l.foldl (fun genes s => (if genes.isEmpty then genes else genes ++ ", ") ++ s) acc)) ∧
      (∀ x ∈ l,
        Occurs x (l.foldl (fun genes s => (if genes.isEmpty then genes else genes ++ ", ") ++ s) acc)) := by
  induction l with
  | nil =>
    intro acc
    exact ⟨fun x h => h, fun x h => by simp at h⟩
  | cons s t ih =>
    intro acc
    have hkeep : ∀ x, Occurs x acc →
        Occurs x ((if acc.isEmpty then acc else acc ++ ", ") ++ s) := by
      intro x hx
      apply occurs_append_right
      split
      · exact hx
      · exact occurs_append_right _ hx
    have hnew : Occurs s ((if acc.isEmpty then acc else acc ++ ", ") ++ s) :=
      ⟨if acc.isEmpty then acc else acc ++ ", ", "", by simp⟩
    refine ⟨fun x hx => (ih _).1 x (hkeep x hx), ?_⟩
    intro x hx
    rcases List.mem_cons.mp hx with rfl | hx
    · exact (ih _).1 x hnew
    · exact (ih _).2 x hx

theorem occurs_joinGenes {l : List String} {x : String} (h : x ∈ l) : Occurs x (joinGenes l) :=
  (occurs_foldl_joinGenes l "").2 x h

theorem mem_orderById_symbols {rows : List GeneRow} {g : GeneRow} (h : g ∈ rows) :
    g.symbol ∈ (orderById rows).map fun g => g.symbol :=
  List.mem_map.mpr ⟨g, (orderById_perm rows).mem_iff.mpr h, rfl⟩

/-- Messages of `geneToApprovedWithMessage` by outcome. -/
theorem gTAWM_kinds {db : Store} {st : Statics} (hc : Coherent db st) (s : String) :
    (startsWith (geneToApprovedWithMessage db st s).1.2 "KEPT" = true ↔
      (approvedFill db).contains s = true) ∧
    (startsWith (geneToApprovedWithMessage db st s).1.2 "REPLACED" = true ↔
      (approvedFill db).contains s = false ∧ ResolvesToOne db s) ∧
    (startsWith (geneToApprovedWithMessage db st s).1.2 "ERROR" = true ↔
      (approvedFill db).contains s = false ∧ (Ambiguous db s ∨ Unknown db s)) := by
  simp only [ResolvesToOne, Ambiguous, Unknown, previousMatches, synonymMatches]
  cases hA : (approvedFill db).contains s with
  | true =>
    rw [gTAWM_approved hc hA]
    simp [starts_kept]
  | false =>
    rcases Nat.lt_trichotomy (aliasJoin db s "previous").length 1 with hp | hp | hp
    · have hp0 : (aliasJoin db s "previous").length = 0 := by omega
      rcases Nat.lt_trichotomy (aliasJoin db s "synonym").length 1 with hs | hs | hs
      · have hs0 : (aliasJoin db s "synonym").length = 0 := by omega
        rw [gTAWM_unknown hc hA hp0 hs0]
        simp only [starts_error, hp0, hs0]
        simp
      · obtain ⟨g, hg⟩ := list_length_one hs
        rw [gTAWM_synonym_one hc hA hp0 hg]
        simp only [starts_replaced, hp0, hs]
        simp
      · rw [gTAWM_synonym_many hc hA hp0 hs]
        simp only [starts_error, hp0]
        simp only [hs]
        simp
        omega
    · obtain ⟨g, hg⟩ := list_length_one hp
      rw [gTAWM_previous_one hc hA hg]
      simp only [starts_replaced, hp]
      simp
    · rw [gTAWM_previous_many hc hA hp]
      simp only [starts_error]
      simp only [hp]
      simp
      exact ⟨by omega, fun h => by rw [h] at hp; simp at hp⟩

/-- Messages of `geneToApprovedWithMessageAndAmbiguous` by outcome. -/
theorem gTAWMAA_kinds {db : Store} {st : Statics} (hc : Coherent db st) (s : String) :
    (geneToApprovedWithMessageAndAmbiguous db st s).1 ≠ [] ∧
    ∀ e ∈ (geneToApprovedWithMessageAndAmbiguous db st s).1,
      (startsWith e.2 "KEPT" = true ↔ (approvedFill db).contains s = true) ∧
      (startsWith e.2 "REPLACED" = true ↔ (approvedFill db).contains s = false ∧ ¬ Unknown db s) ∧
      (startsWith e.2 "ERROR" = true ↔ (approvedFill db).contains s = false ∧ Unknown db s) := by
  simp only [Unknown, previousMatches, synonymMatches]
  unfold geneToApprovedWithMessageAndAmbiguous
  simp only [approvedGeneNames_eq hc, String.append_assoc, List.length_map, orderById_length]
  cases hA : (approvedFill db).contains s with
  | true =>
    simp only [if_true]
    refine ⟨by simp, ?_⟩
    intro e he
    rw [List.mem_singleton] at he
    subst he
    simp [starts_kept]
  | false =>
    simp only [Bool.false_eq_true, if_false]
    by_cases hp : (aliasJoin db s "previous").length ≥ 1
    · rw [if_pos hp]
      refine ⟨?_, ?_⟩
      · intro h
        have := congrArg List.length h
        simp only [List.length_map, orderById_length, List.length_nil] at this
        omega
      · intro e he
        rw [List.mem_map] at he
        obtain ⟨x, _, hx⟩ := he
        subst hx
        simp only [starts_replaced]
        exact ⟨⟨fun h => (by cases h), fun h => h.elim⟩,
          ⟨fun _ => ⟨trivial, by omega⟩, fun _ => trivial⟩,
          ⟨fun h => (by cases h), fun h => by omega⟩⟩
    · rw [if_neg hp]
      have hp0 : (aliasJoin db s "previous").length = 0 := by omega
      by_cases hs : (aliasJoin db s "synonym").length ≥ 1
      · rw [if_pos hs]
        refine ⟨?_, ?_⟩
        · intro h
          have := congrArg List.length h
          simp only [List.length_map, orderById_length, List.length_nil] at this
          omega
        · intro e he
          rw [List.mem_map] at he
          obtain ⟨x, _, hx⟩ := he
          subst hx
          simp only [starts_replaced]
          exact ⟨⟨fun h => (by cases h), fun h => h.elim⟩,
            ⟨fun _ => ⟨trivial, by omega⟩, fun _ => trivial⟩,
            ⟨fun h => (by cases h), fun h => by omega⟩⟩
      · rw [if_neg hs]
        have hs0 : (aliasJoin db s "synonym").length = 0 := by omega
        refine ⟨by simp, ?_⟩
        intro e he
        rw [List.mem_singleton] at he
        subst he
        simp only [starts_error, hp0, hs0]
        simp

/-! ## Lemmas: sorting and merging -/

theorem char_eq_of_toNat_eq {a b : Char} (h : a.toNat = b.toNat) : a = b := by
  rw [← Char.ofNat_toNat a, ← Char.ofNat_toNat b, h]

theorem chrLe_total (x y : List Char) : chrLe x y = true ∨ chrLe y x = true := by
  induction x generalizing y with
  | nil => exact Or.inl (by simp [chrLe])
  | cons a as ih =>
    cases y with
    | nil => exact Or.inr (by simp [chrLe])
    | cons b bs =>
      simp only [chrLe, Bool.or_eq_true, decide_eq_true_eq, Bool.and_eq_true, beq_iff_eq]
      rcases Nat.lt_trichotomy a.toNat b.toNat with h | h | h
      · exact Or.inl (Or.inl h)
      · have hab := char_eq_of_toNat_eq h
        rcases ih bs with h2 | h2
        · exact Or.inl (Or.inr ⟨hab, h2⟩)
        · exact Or.inr (Or.inr ⟨hab.symm, h2⟩)
      · exact Or.inr (Or.inl h)

theorem chrLe_antisymm (x y : List Char) (h1 : chrLe x y = true) (h2 : chrLe y x = true) :
    x = y := by
  induction x generalizing y with
  | nil =>
    cases y with
    | nil => rfl
    | cons b bs => simp [chrLe] at h2
  | cons a as ih =>
    cases y with
    | nil => simp [chrLe] at h1
    | cons b bs =>
      simp only [chrLe, Bool.or_eq_true, decide_eq_true_eq, Bool.and_eq_true, beq_iff_eq] at h1 h2
      rcases h1 with h1 | ⟨hab, h1⟩
      · rcases h2 with h2 | ⟨hba, _⟩
        · omega
        · rw [hba] at h1; omega
      · rcases h2 with h2 | ⟨_, h2⟩
        · rw [hab] at h2; omega
        · rw [hab, ih bs h1 h2]

theorem chrLe_trans (x y z : List Char) (h1 : chrLe x y = true) (h2 : chrLe y z = true) :
    chrLe x z = true := by
  induction x generalizing y z with
  | nil => simp [chrLe]
  | cons a as ih =>
    cases y with
    | nil => simp [chrLe] at h1
    | cons b bs =>
      cases z with
      | nil => simp [chrLe] at h2
      | cons c cs =>
        simp only [chrLe, Bool.or_eq_true, decide_eq_true_eq, Bool.and_eq_true, beq_iff_eq]
          at h1 h2 ⊢
        rcases h1 with h1 | ⟨hab, h1⟩
        · rcases h2 with h2 | ⟨hbc, _⟩
          · exact Or.inl (by omega)
          · exact Or.inl (by rw [← hbc]; exact h1)
        · rcases h2 with h2 | ⟨hbc, h2⟩
          · exact Or.inl (by rw [hab]; exact h2)
          · exact Or.inr ⟨hab.trans hbc, ih bs cs h1 h2⟩

theorem chr_eq_of_chrLe {a b : String} (h1 : chrLe a.data b.data = true)
    (h2 : chrLe b.data a.data = true) : a = b :=
  String.ext (chrLe_antisymm _ _ h1 h2)

theorem BedLine.le_total (a b : BedLine) : BedLine.le a b ∨ BedLine.le b a := by
  unfold BedLine.le
  by_cases h : a.chr = b.chr
  · rw [if_pos h, if_pos h.symm]
    exact Int.le_total _ _
  · rw [if_neg h, if_neg (fun h2 => h h2.symm)]
    exact chrLe_total _ _

theorem BedLine.le_trans {a b c : BedLine} (h1 : BedLine.le a b) (h2 : BedLine.le b c) :
    BedLine.le a c := by
  unfold BedLine.le at h1 h2 ⊢
  by_cases hab : a.chr = b.chr
  · rw [if_pos hab] at h1
    by_cases hbc : b.chr = c.chr
    · rw [if_pos hbc] at h2
      rw [if_pos (hab.trans hbc)]
      exact Int.le_trans h1 h2
    · rw [if_neg hbc] at h2
      rw [if_neg (by rw [hab]; exact hbc), hab]
      exact h2
  · rw [if_neg hab] at h1
    by_cases hbc : b.chr = c.chr
    · rw [if_neg (by rw [← hbc]; exact hab), ← hbc]
      exact h1
    · rw [if_neg hbc] at h2
      by_cases hac : a.chr = c.chr
      · rw [← hac] at h2
        exact absurd (chr_eq_of_chrLe h1 h2) hab
      · rw [if_neg hac]
        exact chrLe_trans _ _ _ h1 h2

/-- The order depends on chromosome and start only. -/
theorem BedLine.le_congr_right {a b c : BedLine} (hc : c.chr = b.chr) (hs : c.start = b.start)
    (h : BedLine.le a b) : BedLine.le a c := by
  unfold BedLine.le at h ⊢
  rw [hc, hs]
  exact h

theorem BedLine.le_congr_left {a b c : BedLine} (hc : c.chr = a.chr) (hs : c.start = a.start)
    (h : BedLine.le a b) : BedLine.le c b := by
  unfold BedLine.le at h ⊢
  rw [hc, hs]
  exact h

theorem sorted_insertionSort_le (lines : BedFile) :
    (lines.insertionSort BedLine.le).Pairwise BedLine.le := by
  haveI : IsTotal BedLine BedLine.le := ⟨BedLine.le_total⟩
  haveI : IsTrans BedLine BedLine.le := ⟨fun _ _ _ h1 h2 => BedLine.le_trans h1 h2⟩
  exact List.sorted_insertionSort BedLine.le lines

theorem mergeInto_spec (rest : List BedLine) :
    ∀ cur : BedLine, rest.Pairwise BedLine.le → (∀ x ∈ rest, BedLine.le cur x) →
      (mergeInto cur rest).Pairwise Apart ∧
      ∀ r ∈ mergeInto cur rest, ∃ x ∈ cur :: rest, r.chr = x.chr ∧ r.start = x.start := by
  induction rest with
  | nil =>
    intro cur _ _
    simp [mergeInto]
  | cons b rest ih =>
    intro cur hsorted hle
    rw [List.pairwise_cons] at hsorted
    unfold mergeInto
    by_cases hm : b.chr = cur.chr ∧ b.start ≤ cur.end_
    · rw [if_pos hm]
      have hle2 : ∀ x ∈ rest, BedLine.le { cur with end_ := max cur.end_ b.end_ } x :=
        fun x hx => BedLine.le_congr_left rfl rfl (hle x (List.mem_cons_of_mem _ hx))
      obtain ⟨h1, h2⟩ := ih { cur with end_ := max cur.end_ b.end_ } hsorted.2 hle2
      refine ⟨h1, ?_⟩
      intro r hr
      obtain ⟨x, hx, hxc, hxs⟩ := h2 r hr
      rcases List.mem_cons.mp hx with rfl | hx
      · exact ⟨cur, List.mem_cons_self _ _, hxc, hxs⟩
      · exact ⟨x, List.mem_cons_of_mem _ (List.mem_cons_of_mem _ hx), hxc, hxs⟩
    · rw [if_neg hm]
      obtain ⟨h1, h2⟩ := ih b hsorted.2 hsorted.1
      have hcb : BedLine.le cur b := hle b (List.mem_cons_self _ _)
      refine ⟨?_, ?_⟩
      · rw [List.pairwise_cons]
        refine ⟨?_, h1⟩
        intro r hr
        obtain ⟨x, hx, hxc, hxs⟩ := h2 r hr
        have hcx : BedLine.le cur x := hle x hx
        have hbx : BedLine.le b x := by
          rcases List.mem_cons.mp hx with rfl | hx2
          · unfold BedLine.le
            simp
          · exact hsorted.1 x hx2
        refine ⟨BedLine.le_congr_right hxc hxs hcx, ?_⟩
        intro hcr
        rw [hxs]
        have hcxc : cur.chr = x.chr := hcr.trans hxc
        by_cases hbc : b.chr = cur.chr
        · have hbs : cur.end_ < b.start := by
            by_contra hcon
            exact hm ⟨hbc, by omega⟩
          unfold BedLine.le at hbx
          rw [if_pos (hbc.trans hcxc)] at hbx
          omega
        · exfalso
          unfold BedLine.le at hcb hbx
          rw [if_neg (fun h => hbc h.symm)] at hcb
          rw [if_neg (by rw [← hcxc]; exact hbc), ← hcxc] at hbx
          exact hbc (chr_eq_of_chrLe hbx hcb)
      · intro r hr
        rcases List.mem_cons.mp hr with rfl | hr
        · exact ⟨r, List.mem_cons_self _ _, rfl, rfl⟩
        · obtain ⟨x, hx, hxc, hxs⟩ := h2 r hr
          exact ⟨x, List.mem_cons_of_mem _ hx, hxc, hxs⟩

theorem merge_apart {lines : BedFile} (h : lines.Pairwise BedLine.le) :
    (BedFile.merge lines).Pairwise Apart := by
  cases lines with
  | nil => simp [BedFile.merge]
  | cons a rest =>
    rw [List.pairwise_cons] at h
    exact (mergeInto_spec rest a h.2 h.1).1

theorem sort_merge_apart (lines : BedFile) : (BedFile.sort lines true).Pairwise Apart := by
  unfold BedFile.sort
  simp only [if_true]
  exact merge_apart (sorted_insertionSort_le lines)

/-- The regions that `geneToRegions` returns are the result of the final sort. -/
theorem geneToRegions_regions {H : Externals} {db : Store} {st : Statics} {gene : String}
    {source : SOURCE} {mode : String} {fallback annotate messages : Bool} {regions : BedFile}
    {msgs : List String}
    (h : (geneToRegions H db st gene source mode fallback annotate messages).1
      = .ok (regions, msgs)) :
    ∃ output : BedFile, regions = BedFile.sort output (!annotate) := by
  unfold geneToRegions at h
  simp only [] at h
  split at h
  · cases h
  · split at h
    · cases h
    · split at h
      · simp only [Except.ok.injEq, Prod.mk.injEq] at h
        exact ⟨[], by rw [← h.1]; cases annotate <;> rfl⟩
      · split at h
        · cases h
        · split at h
          · simp only [Except.ok.injEq, Prod.mk.injEq] at h
            exact ⟨_, h.1.symm⟩
          · simp only [Except.ok.injEq, Prod.mk.injEq] at h
            exact ⟨_, h.1.symm⟩

/-! ## Lemmas: region generation -/

theorem geneToApprovedID_eq_resolveID (H : Externals) {db : Store} {st : Statics}
    (hc : Coherent db st) (gene : String) :
    geneToApprovedID H db st gene = (resolveID H db gene, st.filled db) := by
  cases hA : (approvedFill db).contains gene with
  | false =>
    rw [geneToApprovedID_not_approved H hc hA]
    unfold resolveID
    simp [hA]
  | true =>
    unfold geneToApprovedID resolveID
    simp only [approvedGeneNames_eq hc, hA, if_true]
    split <;> rfl

theorem cachedSymbol_ok (db : Store) (a : String) : ∃ v, cachedSymbol db a = .ok v := by
  rcases Nat.lt_trichotomy (aliasJoin db a "previous").length 1 with hp | hp | hp
  · have hp0 : (aliasJoin db a "previous").length = 0 := by omega
    have hpn : aliasJoin db a "previous" = [] := List.length_eq_zero.mp hp0
    rcases Nat.lt_trichotomy (aliasJoin db a "synonym").length 1 with hs | hs | hs
    · have hs0 : (aliasJoin db a "synonym").length = 0 := by omega
      exact ⟨"", cachedSymbol_not_one (Or.inr ⟨hp0, hs0⟩)⟩
    · obtain ⟨g, hg⟩ := list_length_one hs
      unfold cachedSymbol
      rw [aliasID_synonym hpn hg]
      split
      · exact ⟨g.symbol, geneSymbol_of_aliasJoin hg⟩
      · exact ⟨"", rfl⟩
    · exact ⟨"", cachedSymbol_not_one (Or.inl (Or.inr ⟨hp0, hs⟩))⟩
  · obtain ⟨g, hg⟩ := list_length_one hp
    unfold cachedSymbol
    rw [aliasID_previous hg]
    split
    · exact ⟨g.symbol, geneSymbol_of_aliasJoin hg⟩
    · exact ⟨"", rfl⟩
  · exact ⟨"", cachedSymbol_not_one (Or.inl (Or.inl hp))⟩

/-- On statics that belong to the store `geneToApproved` returns, and its value does not
depend on the statics. -/
theorem geneToApproved_eq_bestEffort (H : Externals) {db : Store} {st : Statics}
    (hc : Coherent db st) (gene : String) (flag : Bool) :
    (geneToApproved H db st gene flag).1 = .ok (bestEffort db gene flag) := by
  unfold bestEffort
  cases hA : (approvedFill db).contains (toUpper (trimmed gene)) with
  | true =>
    rw [geneToApproved_approved H hc flag hA]
    simp
  | false =>
    rw [(geneToApproved_not_approved H hc flag hA).1]
    obtain ⟨v, hv⟩ := cachedSymbol_ok db (toUpper (trimmed gene))
    simp [hv, Except.map]

/-- The call of `geneToRegions` for a valid mode and a gene that resolves to `id` and
to the approved symbol `gene_approved`. -/
theorem geneToRegions_of_resolved {H : Externals} {db : Store} {st st1 st2 : Statics}
    {gene gene_approved : String} {id : Int} (source : SOURCE) {mode : String}
    (fallback annotate messages : Bool)
    (hmode : mode = "gene" ∨ mode = "exon")
    (hid : geneToApprovedID H db st gene = (.ok id, st1)) (hne : id ≠ -1)
    (hga : geneToApproved H db st1 gene H.geneToApproved_return_input_when_unconvertable
      = (.ok gene_approved, st2)) :
    geneToRegions H db st gene source mode fallback annotate messages
      = (.ok (BedFile.sort
            (generatedLines H db gene gene_approved id source mode fallback annotate) (!annotate),
          if (generatedLines H db gene gene_approved id source mode fallback annotate).isEmpty
          then (if messages then
            ["No transcripts found for gene '" ++ gene ++ "'. Skipping it!"] else [])
          else []), st2) := by
  unfold geneToRegions generatedLines
  have hm : mode ∈ ["gene", "exon"] := by
    rcases hmode with h | h <;> simp [h]
  simp only [hm, not_true_eq_false, if_false, hid, hne, hga]
  split <;> rfl

/-- On statics that belong to the store the value of `geneToRegions` does not depend on
the statics, and the statics it leaves belong to the store. -/
theorem geneToRegions_value (H : Externals) {db : Store} {st : Statics} (hc : Coherent db st)
    (gene : String) (source : SOURCE) (mode : String) (fallback annotate messages : Bool) :
    (geneToRegions H db st gene source mode fallback annotate messages).1
      = regionsValue H db gene source mode fallback annotate messages ∧
    Coherent db (geneToRegions H db st gene source mode fallback annotate messages).2 := by
  by_cases hm : mode ∈ ["gene", "exon"]
  · have hmode : mode = "gene" ∨ mode = "exon" := by simpa using hm
    have hid := geneToApprovedID_eq_resolveID H hc gene
    cases hr : resolveID H db gene with
    | error e =>
      rw [hr] at hid
      unfold geneToRegions regionsValue
      simp only [hm, not_true_eq_false, if_false, hid, hr]
      exact ⟨trivial, coherent_filled hc⟩
    | ok id =>
      rw [hr] at hid
      by_cases hne : id = -1
      · unfold geneToRegions regionsValue
        simp only [hm, not_true_eq_false, if_false, hid, hr, hne, if_true]
        exact ⟨trivial, coherent_filled hc⟩
      · have hc1 := coherent_filled hc
        have hv := geneToApproved_eq_bestEffort H hc1 gene
          H.geneToApproved_return_input_when_unconvertable
        have hc2 := coherent_geneToApproved H hc1 gene
          H.geneToApproved_return_input_when_unconvertable
        have hga : geneToApproved H db (st.filled db) gene
            H.geneToApproved_return_input_when_unconvertable
            = (.ok (bestEffort db gene H.geneToApproved_return_input_when_unconvertable),
                (geneToApproved H db (st.filled db) gene
                  H.geneToApproved_return_input_when_unconvertable).2) :=
          Prod.ext hv rfl
        rw [geneToRegions_of_resolved source fallback annotate messages hmode hid hne hga]
        refine ⟨?_, hc2⟩
        unfold regionsValue
        simp only [hm, not_true_eq_false, if_false, hr, hne]
  · unfold geneToRegions regionsValue
    simp only [hm, not_false_eq_true, if_true]
    exact ⟨trivial, hc⟩

theorem getValue_error_kind {α : Type} {rows : List α} {flag : Bool} {query : String}
    {e : Exception} (h : getValue rows flag query = .error e) :
    ∃ msg, e = .DatabaseException msg := by
  unfold getValue at h
  split at h
  · split at h
    · cases h
    · cases h
      exact ⟨_, rfl⟩
  · split at h
    · cases h
      exact ⟨_, rfl⟩
    · cases h

theorem getValueIdOfSymbol_error_kind {H : Externals} {db : Store} {gene : String}
    {e : Exception} (h : getValueIdOfSymbol H db gene = .error e) :
    ∃ msg, e = .DatabaseException msg := by
  unfold getValueIdOfSymbol at h
  split at h
  · exact getValue_error_kind h
  · split at h
    · cases h
      exact ⟨_, rfl⟩
    · exact getValue_error_kind h

theorem resolveID_error_kind {H : Externals} {db : Store} {gene : String} {e : Exception}
    (h : resolveID H db gene = .error e) : ∃ msg, e = .DatabaseException msg := by
  unfold resolveID at h
  split at h
  · split at h
    · rename_i e2 hg
      cases h
      exact getValueIdOfSymbol_error_kind hg
    · cases h
  · cases h

theorem geneToApprovedID_error_kind {H : Externals} {db : Store} {st : Statics} {gene : String}
    {e : Exception} (h : (geneToApprovedID H db st gene).1 = .error e) :
    ∃ msg, e = .DatabaseException msg := by
  unfold geneToApprovedID at h
  generalize approvedGeneNames db st = p at h
  obtain ⟨approved, st1⟩ := p
  simp only at h
  split at h
  · split at h
    · rename_i e2 hg
      simp only [Except.error.injEq] at h
      subst h
      exact getValueIdOfSymbol_error_kind hg
    · cases h
  · split at h
    · cases h
    · split at h
      · cases h
      · split at h <;> cases h

theorem geneSymbol_error_kind {db : Store} {id : Int} {e : Exception}
    (h : geneSymbol db id = .error e) : ∃ msg, e = .DatabaseException msg := by
  unfold geneSymbol at h
  split at h
  · rename_i e2 hg
    cases h
    exact getValue_error_kind hg
  · cases h

theorem geneToApproved_error_kind {H : Externals} {db : Store} {st : Statics} {gene : String}
    {flag : Bool} {e : Exception} (h : (geneToApproved H db st gene flag).1 = .error e) :
    ∃ msg, e = .DatabaseException msg := by
  unfold geneToApproved at h
  generalize approvedGeneNames db st = p at h
  obtain ⟨approved, st1⟩ := p
  simp only at h
  split at h
  · cases h
  · split at h
    · split at h <;> cases h
    · generalize hq : geneToApprovedID H db st1 (toUpper (trimmed gene)) = q at h
      obtain ⟨r, st2⟩ := q
      cases r with
      | error e1 =>
        simp only [Except.error.injEq] at h
        subst h
        exact geneToApprovedID_error_kind (by rw [hq])
      | ok gene_id =>
        simp only at h
        split at h
        · rename_i e2 hg
          simp only [Except.error.injEq] at h
          subst h
          split at hg
          · exact geneSymbol_error_kind hg
          · cases hg
        · split at h <;> cases h

/-- For a valid mode `geneToRegions` throws nothing but the exception of a query. -/
theorem geneToRegions_error_kind {H : Externals} {db : Store} {st : Statics} {gene : String}
    {source : SOURCE} {mode : String} {fallback annotate messages : Bool} {e : Exception}
    (hmode : mode = "gene" ∨ mode = "exon")
    (h : (geneToRegions H db st gene source mode fallback annotate messages).1 = .error e) :
    ∃ msg, e = .DatabaseException msg := by
  have hm : mode ∈ ["gene", "exon"] := by
    rcases hmode with h | h <;> simp [h]
  unfold geneToRegions at h
  simp only [hm, not_true_eq_false, if_false] at h
  generalize hq : geneToApprovedID H db st gene = q at h
  obtain ⟨r, st1⟩ := q
  cases r with
  | error e1 =>
    simp only [Except.error.injEq] at h
    subst h
    exact geneToApprovedID_error_kind (by rw [hq])
  | ok id =>
    simp only at h
    split at h
    · cases h
    · generalize hq2 : geneToApproved H db st1 gene
        H.geneToApproved_return_input_when_unconvertable = q2 at h
      obtain ⟨r2, st2⟩ := q2
      cases r2 with
      | error e2 =>
        simp only [Except.error.injEq] at h
        subst h
        exact geneToApproved_error_kind (by rw [hq2])
      | ok ga =>
        simp only at h
        split at h <;> cases h

theorem filter_symbol_length (l : List GeneRow) (gene : String) :
    (l.filter fun g => g.symbol == gene).length = (l.map fun g => g.symbol).count gene := by
  induction l with
  | nil => rfl
  | cons x t ih =>
    by_cases hx : x.symbol = gene
    · simp [List.filter_cons, hx, ih]
    · have hb : (x.symbol == gene) = false := by simpa using hx
      simp [List.filter_cons, hb, ih, List.count_cons, hx]

/-- With distinct gene symbols that have no single quote and no backslash
`geneToApprovedID` throws nothing. -/
theorem resolveID_ok (H : Externals) {db : Store} (hnd : (db.gene.map fun g => g.symbol).Nodup)
    (hplain : ∀ g ∈ db.gene, sqlPlain g.symbol = true)
    (gene : String) : ∃ id, resolveID H db gene = .ok id := by
  unfold resolveID
  cases hA : (approvedFill db).contains gene with
  | false => exact ⟨aliasID db gene, by simp⟩
  | true =>
    obtain ⟨r, hr, hrs⟩ := (approvedFill_contains db gene).mp hA
    have hp : sqlPlain gene = true := hrs ▸ hplain r hr
    unfold getValueIdOfSymbol
    rw [if_pos hp]
    have hmem : gene ∈ db.gene.map fun g => g.symbol := List.mem_map.mpr ⟨r, hr, hrs⟩
    have hlen : ((db.gene.filter fun g => g.symbol == gene).map fun g => g.id).length = 1 := by
      rw [List.length_map, filter_symbol_length, List.count_eq_one_of_mem hnd hmem]
    obtain ⟨x, hx⟩ := list_length_one hlen
    simp only [if_true, hx]
    exact ⟨x, by simp [getValue]⟩

theorem regionsValue_ok (H : Externals) {db : Store}
    (hnd : (db.gene.map fun g => g.symbol).Nodup)
    (hplain : ∀ g ∈ db.gene, sqlPlain g.symbol = true) (gene : String) (source : SOURCE)
    {mode : String} (fallback annotate messages : Bool) (hmode : mode = "gene" ∨ mode = "exon") :
    ∃ r, regionsValue H db gene source mode fallback annotate messages = .ok r := by
  have hm : mode ∈ ["gene", "exon"] := by
    rcases hmode with h | h <;> simp [h]
  obtain ⟨id, hid⟩ := resolveID_ok H hnd hplain gene
  unfold regionsValue
  simp only [hm, not_true_eq_false, if_false, hid]
  split
  · exact ⟨_, rfl⟩
  · exact ⟨_, rfl⟩

/-- The loop of `genesToRegions` on statics that belong to the store, when the call for
every gene returns. -/
theorem genesToRegionsLoop_value (H : Externals) {db : Store} (source : SOURCE) (mode : String)
    (fallback annotate messages : Bool) (genes : List String)
    (hok : ∀ g ∈ genes, ∃ r, regionsValue H db g source mode fallback annotate messages = .ok r) :
    ∀ (output : BedFile) (msgs : List String) (st : Statics), Coherent db st →
      (genesToRegionsLoop H db source mode fallback annotate messages genes output msgs st).1
        = .ok (output ++ genes.flatMap (fun g =>
              okRegions (regionsValue H db g source mode fallback annotate messages)),
            msgs ++ genes.flatMap (fun g =>
              okMessages (regionsValue H db g source mode fallback annotate messages))) := by
  induction genes with
  | nil =>
    intro output msgs st _
    simp [genesToRegionsLoop]
  | cons g t ih =>
    intro output msgs st hc
    obtain ⟨hv, hc2⟩ := geneToRegions_value H hc g source mode fallback annotate messages
    obtain ⟨⟨regions, m⟩, hr⟩ := hok g (List.mem_cons_self _ _)
    rw [hr] at hv
    unfold genesToRegionsLoop
    generalize hq : geneToRegions H db st g source mode fallback annotate messages = q at hv hc2
    obtain ⟨r1, st1⟩ := q
    simp only at hv hc2
    subst hv
    simp only
    rw [ih (fun x hx => hok x (List.mem_cons_of_mem _ hx)) _ _ st1 hc2]
    simp [BedFile.add, hr, okRegions, okMessages]

theorem foldl_min_spec (xs : List Int) :
    ∀ x : Int, (xs.foldl min x ≤ x ∧ ∀ y ∈ xs, xs.foldl min x ≤ y) ∧
      (xs.foldl min x = x ∨ xs.foldl min x ∈ xs) := by
  induction xs with
  | nil => intro x; simp
  | cons a t ih =>
    intro x
    obtain ⟨⟨h1, h2⟩, h3⟩ := ih (min x a)
    simp only [List.foldl_cons, List.mem_cons, forall_eq_or_imp]
    refine ⟨⟨by omega, by omega, h2⟩, ?_⟩
    rcases h3 with h3 | h3
    · rcases min_choice x a with hm | hm
      · exact Or.inl (by rw [h3, hm])
      · exact Or.inr (Or.inl (by rw [h3, hm]))
    · exact Or.inr (Or.inr h3)

theorem foldl_max_spec (xs : List Int) :
    ∀ x : Int, (x ≤ xs.foldl max x ∧ ∀ y ∈ xs, y ≤ xs.foldl max x) ∧
      (xs.foldl max x = x ∨ xs.foldl max x ∈ xs) := by
  induction xs with
  | nil => intro x; simp
  | cons a t ih =>
    intro x
    obtain ⟨⟨h1, h2⟩, h3⟩ := ih (max x a)
    simp only [List.foldl_cons, List.mem_cons, forall_eq_or_imp]
    refine ⟨⟨by omega, by omega, h2⟩, ?_⟩
    rcases h3 with h3 | h3
    · rcases max_choice x a with hm | hm
      · exact Or.inl (by rw [h3, hm])
      · exact Or.inr (Or.inl (by rw [h3, hm]))
    · exact Or.inr (Or.inr h3)

theorem aggToInt_min_spec {xs : List Int} (h : xs ≠ []) :
    aggToInt min xs ∈ xs ∧ ∀ y ∈ xs, aggToInt min xs ≤ y := by
  cases xs with
  | nil => exact absurd rfl h
  | cons x t =>
    obtain ⟨⟨h1, h2⟩, h3⟩ := foldl_min_spec t x
    simp only [aggToInt, List.mem_cons, forall_eq_or_imp]
    exact ⟨h3, h1, h2⟩

theorem aggToInt_max_spec {xs : List Int} (h : xs ≠ []) :
    aggToInt max xs ∈ xs ∧ ∀ y ∈ xs, y ≤ aggToInt max xs := by
  cases xs with
  | nil => exact absurd rfl h
  | cons x t =>
    obtain ⟨⟨h1, h2⟩, h3⟩ := foldl_max_spec t x
    simp only [aggToInt, List.mem_cons, forall_eq_or_imp]
    exact ⟨h3, h1, h2⟩

theorem geneModeLines_spans (db : Store) (annos : GeneTranscriptRow → List String)
    (rows : List GeneTranscriptRow) :
    List.Forall₂ (SpansTranscript db) rows (geneModeLines db rows annos) := by
  unfold geneModeLines
  rw [List.forall₂_map_right_iff]
  apply List.forall₂_same.mpr
  intro t _
  refine ⟨rfl, ?_⟩
  intro hne
  have hs : (List.map (fun e => e.start) (exonsOf db t)) ≠ [] := by simpa using hne
  have he : (List.map (fun e => e.end_) (exonsOf db t)) ≠ [] := by simpa using hne
  obtain ⟨hs1, hs2⟩ := aggToInt_min_spec hs
  obtain ⟨he1, he2⟩ := aggToInt_max_spec he
  rw [List.mem_map] at hs1 he1
  obtain ⟨e1, he1m, he1e⟩ := hs1
  obtain ⟨e2, he2m, he2e⟩ := he1
  refine ⟨⟨⟨e1, he1m, he1e.symm⟩, ?_⟩, ⟨⟨e2, he2m, he2e.symm⟩, ?_⟩⟩
  · intro e hem
    exact hs2 _ (List.mem_map.mpr ⟨e, hem, rfl⟩)
  · intro e hem
    exact he2 _ (List.mem_map.mpr ⟨e, hem, rfl⟩)

theorem generatedLines_gene (H : Externals) (db : Store) (gene gene_approved : String) (id : Int)
    (source : SOURCE) (fallback annotate : Bool) :
    ∃ annos, generatedLines H db gene gene_approved id source "gene" fallback annotate
      = geneModeLines db (selectedTranscripts H db id source fallback) annos := by
  refine ⟨fun t => if annotate then [gene_approved ++ " " ++ t.name] else [gene_approved], ?_⟩
  unfold generatedLines selectedTranscripts sourceTranscripts
  simp only [if_true]
  have hemp : ∀ (rows : List GeneTranscriptRow) (annos : GeneTranscriptRow → List String),
      (geneModeLines db rows annos).isEmpty = rows.isEmpty := by
    intro rows annos
    cases rows <;> rfl
  rw [hemp]
  split <;> rfl

/-- The value of `geneToRegions` for a valid mode and a gene that resolves to `id`. -/
theorem regionsValue_of_resolved {H : Externals} {db : Store} {st : Statics} (hc : Coherent db st)
    {gene : String} {id : Int} (source : SOURCE) {mode : String}
    (fallback annotate messages : Bool) (hmode : mode = "gene" ∨ mode = "exon")
    (hid : (geneToApprovedID H db st gene).1 = .ok id) (hne : id ≠ -1) :
    ∃ msgs, (geneToRegions H db st gene source mode fallback annotate messages).1
      = .ok (BedFile.sort (generatedLines H db gene
          (bestEffort db gene H.geneToApproved_return_input_when_unconvertable) id source mode
          fallback annotate) (!annotate), msgs) := by
  have hm : mode ∈ ["gene", "exon"] := by
    rcases hmode with h | h <;> simp [h]
  rw [geneToApprovedID_eq_resolveID H hc gene] at hid
  simp only at hid
  rw [(geneToRegions_value H hc gene source mode fallback annotate messages).1]
  unfold regionsValue
  simp only [hm, not_true_eq_false, if_false, hid, hne]
  exact ⟨_, rfl⟩

/-! ## Lemmas: phenotype traversals -/

theorem phenotypeToGenesLoop_step (H : Externals) (db : Store) (recursive : Bool) (fuel : Nat)
    (rest : List Int) (id : Int) (genes : GeneSet) (st : Statics) :
    phenotypeToGenesLoop H db recursive (fuel + 1) (rest ++ [id]) genes st
      = match addGenesOfTerm H db
          ((db.hpo_genes.filter fun r => r.hpo_term_id == id).map fun r => r.gene) genes st with
        | (.error e, st) => some (.error e, st)
        | (.ok genes, st) =>
          phenotypeToGenesLoop H db recursive fuel
            (if recursive then
              rest ++ ((db.hpo_parent.filter fun r => r.parent == id).map fun r => r.child)
              else rest) genes st := by
  rw [phenotypeToGenesLoop]
  simp only [List.getLast?_concat, List.dropLast_concat]

theorem phenotypeToGenesLoop_nil (H : Externals) (db : Store) (recursive : Bool) (fuel : Nat)
    (genes : GeneSet) (st : Statics) :
    phenotypeToGenesLoop H db recursive fuel [] genes st = some (.ok genes, st) := by
  cases fuel <;> simp [phenotypeToGenesLoop]

/-- With ranked terms the work-list segment `seg` is used up after `k` iterations,
by an exception or with the rest of the work-list untouched. -/
theorem phenotypeToGenesLoop_terminates (H : Externals) (db : Store) (rank : Int → Nat)
    (hrank : ∀ e ∈ db.hpo_parent, rank e.child < rank e.parent) :
    ∀ (n : Nat) (seg : List Int), (∀ x ∈ seg, rank x < n) →
      ∀ (rest : List Int) (genes : GeneSet) (st : Statics), ∃ k : Nat,
        (∃ e s, ∀ fuel,
          phenotypeToGenesLoop H db true (fuel + k) (rest ++ seg) genes st = some (.error e, s)) ∨
        (∃ genes2 st2, ∀ fuel,
          phenotypeToGenesLoop H db true (fuel + k) (rest ++ seg) genes st
            = phenotypeToGenesLoop H db true fuel rest genes2 st2) := by
  intro n
  induction n with
  | zero =>
    intro seg hseg rest genes st
    have hnil : seg = [] := by
      cases seg with
      | nil => rfl
      | cons x t => exact absurd (hseg x (List.mem_cons_self _ _)) (Nat.not_lt_zero _)
    subst hnil
    exact ⟨0, Or.inr ⟨genes, st, fun fuel => by simp⟩⟩
  | succ n ih =>
    intro seg
    induction seg using List.reverseRecOn with
    | nil =>
      intro _ rest genes st
      exact ⟨0, Or.inr ⟨genes, st, fun fuel => by simp⟩⟩
    | append_singleton s id ihs =>
      intro hseg rest genes st
      have hs : ∀ x ∈ s, rank x < n + 1 := fun x hx => hseg x (List.mem_append_left _ hx)
      have hid : rank id < n + 1 := hseg id (List.mem_append_right _ (List.mem_singleton_self _))
      have hch : ∀ x ∈ ((db.hpo_parent.filter fun r => r.parent == id).map fun r => r.child),
          rank x < n := by
        intro x hx
        rw [List.mem_map] at hx
        obtain ⟨e, he, hex⟩ := hx
        rw [List.mem_filter] at he
        have hp : e.parent = id := by simpa using he.2
        have := hrank e he.1
        rw [hp, hex] at this
        omega
      cases hadd : addGenesOfTerm H db
          ((db.hpo_genes.filter fun r => r.hpo_term_id == id).map fun r => r.gene) genes st with
      | mk r st1 =>
        cases r with
        | error e =>
          refine ⟨1, Or.inl ⟨e, st1, fun fuel => ?_⟩⟩
          rw [← List.append_assoc, phenotypeToGenesLoop_step, hadd]
        | ok genes1 =>
          obtain ⟨k1, h1⟩ := ih _ hch (rest ++ s) genes1 st1
          rcases h1 with ⟨e, s1, h1⟩ | ⟨genes2, st2, h1⟩
          · refine ⟨k1 + 1, Or.inl ⟨e, s1, fun fuel => ?_⟩⟩
            rw [← List.append_assoc, ← Nat.add_assoc, phenotypeToGenesLoop_step, hadd]
            simp only [if_true]
            exact h1 fuel
          · obtain ⟨k2, h2⟩ := ihs hs rest genes2 st2
            rcases h2 with ⟨e, s2, h2⟩ | ⟨genes3, st3, h2⟩
            · refine ⟨k2 + k1 + 1, Or.inl ⟨e, s2, fun fuel => ?_⟩⟩
              rw [← List.append_assoc, ← Nat.add_assoc, phenotypeToGenesLoop_step, hadd]
              simp only [if_true]
              rw [← Nat.add_assoc, h1 (fuel + k2)]
              exact h2 fuel
            · refine ⟨k2 + k1 + 1, Or.inr ⟨genes3, st3, fun fuel => ?_⟩⟩
              rw [← List.append_assoc, ← Nat.add_assoc, phenotypeToGenesLoop_step, hadd]
              simp only [if_true]
              rw [← Nat.add_assoc, h1 (fuel + k2)]
              exact h2 fuel

/-- On an acyclic ontology `phenotypeToGenes` returns: from some number of iterations
on, the outcome is the same for every bound. -/
theorem phenotypeToGenes_returns (H : Externals) (db : Store) (st : Statics)
    (phenotype : Phenotype) (h : Acyclic db) :
    ∃ k r, ∀ fuel, phenotypeToGenes (fuel + k) H db st phenotype true = some r := by
  obtain ⟨rank, hrank⟩ := h
  unfold phenotypeToGenes
  cases (db.hpo_term.filter fun t => t.name == phenotype.name).head? with
  | none => exact ⟨0, _, fun _ => rfl⟩
  | some tmp =>
    obtain ⟨k, hk⟩ := phenotypeToGenesLoop_terminates H db rank hrank (rank tmp.id + 1) [tmp.id]
      (fun x hx => by rw [List.mem_singleton.mp hx]; omega) [] {} st
    rcases hk with ⟨e, s, hk⟩ | ⟨genes2, st2, hk⟩
    · refine ⟨k, (.error e, s), fun fuel => ?_⟩
      have := hk fuel
      simp only [List.nil_append] at this
      simp only [this]
    · refine ⟨k, (.ok genes2, st2), fun fuel => ?_⟩
      have := hk fuel
      simp only [List.nil_append] at this
      simp only [this, phenotypeToGenesLoop_nil]

theorem phenotypeChildTemsLoop_step (db : Store) (recursive : Bool) (fuel : Nat)
    (rest : List Int) (id : Int) (terms : List Phenotype) :
    phenotypeChildTemsLoop db recursive (fuel + 1) (rest ++ [id]) terms
      = phenotypeChildTemsLoop db recursive fuel
          (if recursive then rest ++ (childTermRows db id).map fun t => t.id else rest)
          (terms ++ (childTermRows db id).map fun t => ⟨t.hpo_id, t.name⟩) := by
  rw [phenotypeChildTemsLoop]
  simp only [List.getLast?_concat, List.dropLast_concat]

theorem phenotypeChildTemsLoop_nil (db : Store) (recursive : Bool) (fuel : Nat)
    (terms : List Phenotype) :
    phenotypeChildTemsLoop db recursive fuel [] terms = some terms := by
  cases fuel <;> simp [phenotypeChildTemsLoop]

theorem phenotypeChildTemsLoop_terminates (db : Store) (rank : Int → Nat)
    (hrank : ∀ e ∈ db.hpo_parent, rank e.child < rank e.parent) :
    ∀ (n : Nat) (seg : List Int), (∀ x ∈ seg, rank x < n) →
      ∀ (rest : List Int) (terms : List Phenotype), ∃ (k : Nat) (terms2 : List Phenotype),
        ∀ fuel, phenotypeChildTemsLoop db true (fuel + k) (rest ++ seg) terms
          = phenotypeChildTemsLoop db true fuel rest terms2 := by
  intro n
  induction n with
  | zero =>
    intro seg hseg rest terms
    have hnil : seg = [] := by
      cases seg with
      | nil => rfl
      | cons x t => exact absurd (hseg x (List.mem_cons_self _ _)) (Nat.not_lt_zero _)
    subst hnil
    exact ⟨0, terms, fun fuel => by simp⟩
  | succ n ih =>
    intro seg
    induction seg using List.reverseRecOn with
    | nil =>
      intro _ rest terms
      exact ⟨0, terms, fun fuel => by simp⟩
    | append_singleton s id ihs =>
      intro hseg rest terms
      have hs : ∀ x ∈ s, rank x < n + 1 := fun x hx => hseg x (List.mem_append_left _ hx)
      have hid : rank id < n + 1 := hseg id (List.mem_append_right _ (List.mem_singleton_self _))
      have hch : ∀ x ∈ (childTermRows db id).map (fun t => t.id), rank x < n := by
        intro x hx
        rw [List.mem_map] at hx
        obtain ⟨t, ht, htx⟩ := hx
        unfold childTermRows at ht
        rw [List.mem_flatMap] at ht
        obtain ⟨e, he, hte⟩ := ht
        rw [List.mem_filter] at he hte
        have hp : e.parent = id := by simpa using he.2
        have hc : e.child = t.id := by simpa using hte.2
        have := hrank e he.1
        rw [hp, hc, htx] at this
        omega
      obtain ⟨k1, terms1, h1⟩ := ih _ hch (rest ++ s)
        (terms ++ (childTermRows db id).map fun t => ⟨t.hpo_id, t.name⟩)
      obtain ⟨k2, terms2, h2⟩ := ihs hs rest terms1
      refine ⟨k2 + k1 + 1, terms2, fun fuel => ?_⟩
      rw [← List.append_assoc, ← Nat.add_assoc, phenotypeChildTemsLoop_step]
      simp only [if_true]
      rw [← Nat.add_assoc, h1 (fuel + k2)]
      exact h2 fuel

/-- On an acyclic ontology `phenotypeChildTems` returns: from some number of iterations
on, the outcome is the same for every bound. -/
theorem phenotypeChildTems_returns (db : Store) (phenotype : Phenotype) (h : Acyclic db) :
    ∃ k r, ∀ fuel, phenotypeChildTems (fuel + k) db phenotype true = some r := by
  obtain ⟨rank, hrank⟩ := h
  unfold phenotypeChildTems
  cases getValue ((db.hpo_term.filter fun t => t.name == phenotype.name).map fun t => t.id) true
      "SELECT id FROM hpo_term WHERE name=:0" with
  | error e => exact ⟨0, _, fun _ => rfl⟩
  | ok v =>
    cases v with
    | none => exact ⟨0, _, fun _ => rfl⟩
    | some id =>
      obtain ⟨k, terms2, hk⟩ := phenotypeChildTemsLoop_terminates db rank hrank (rank id + 1) [id]
        (fun x hx => by rw [List.mem_singleton.mp hx]; omega) [] []
      refine ⟨k, .ok terms2, fun fuel => ?_⟩
      have := hk fuel
      simp only [List.nil_append] at this
      simp only [this, phenotypeChildTemsLoop_nil, Option.map_some']

/-- On the cycle of `storeCycle` the loop of `phenotypeToGenes` does not end. -/
theorem phenotypeToGenesLoop_cycle (H : Externals) :
    ∀ fuel : Nat,
      (∀ genes st, phenotypeToGenesLoop H storeCycle true fuel [1] genes st = none) ∧
      (∀ genes st, phenotypeToGenesLoop H storeCycle true fuel [2] genes st = none) := by
  have hg : ∀ id : Int,
      ((storeCycle.hpo_genes.filter fun r => r.hpo_term_id == id).map fun r => r.gene) = [] :=
    fun _ => rfl
  have hc1 : ((storeCycle.hpo_parent.filter fun r => r.parent == 1).map fun r => r.child) = [2] := by
    decide
  have hc2 : ((storeCycle.hpo_parent.filter fun r => r.parent == 2).map fun r => r.child) = [1] := by
    decide
  intro fuel
  induction fuel with
  | zero => exact ⟨fun _ _ => rfl, fun _ _ => rfl⟩
  | succ f ih =>
    refine ⟨fun genes st => ?_, fun genes st => ?_⟩
    · have := phenotypeToGenesLoop_step H storeCycle true f [] 1 genes st
      simp only [List.nil_append, hg, hc1, addGenesOfTerm, if_true] at this
      rw [this]
      exact ih.2 genes st
    · have := phenotypeToGenesLoop_step H storeCycle true f [] 2 genes st
      simp only [List.nil_append, hg, hc2, addGenesOfTerm, if_true] at this
      rw [this]
      exact ih.1 genes st

/-- On the cycle of `storeCycle` the loop of `phenotypeChildTems` does not end. -/
theorem phenotypeChildTemsLoop_cycle :
    ∀ fuel : Nat,
      (∀ terms, phenotypeChildTemsLoop storeCycle true fuel [1] terms = none) ∧
      (∀ terms, phenotypeChildTemsLoop storeCycle true fuel [2] terms = none) := by
  have hc1 : (childTermRows storeCycle 1).map (fun t => t.id) = [2] := by decide
  have hc2 : (childTermRows storeCycle 2).map (fun t => t.id) = [1] := by decide
  intro fuel
  induction fuel with
  | zero => exact ⟨fun _ => rfl, fun _ => rfl⟩
  | succ f ih =>
    refine ⟨fun terms => ?_, fun terms => ?_⟩
    · have := phenotypeChildTemsLoop_step storeCycle true f [] 1 terms
      simp only [List.nil_append, hc1, if_true] at this
      rw [this]
      exact ih.2 _
    · have := phenotypeChildTemsLoop_step storeCycle true f [] 2 terms
      simp only [List.nil_append, hc2, if_true] at this
      rw [this]
      exact ih.1 _

theorem mem_insert_of_mem {acc : GeneSet} {x : String} (y : String) (h : x ∈ acc.elems) :
    x ∈ (acc.insert y).elems := by
  unfold GeneSet.insert
  split
  · exact h
  · exact List.mem_append_left _ h

theorem mem_foldl_insert_of_mem (f : String → String) (l : List String) :
    ∀ (acc : GeneSet) (x : String), x ∈ acc.elems →
      x ∈ (l.foldl (fun a g => a.insert (f g)) acc).elems := by
  induction l with
  | nil => intro acc x h; exact h
  | cons g t ih =>
    intro acc x h
    exact ih _ x (mem_insert_of_mem _ h)

/-- On statics that belong to the store the genes of a term are added without an
exception, each as the value of `geneToApproved(gene, true)`. -/
theorem addGenesOfTerm_value (H : Externals) {db : Store} (l : List String) :
    ∀ (acc : GeneSet) (st : Statics), Coherent db st →
      ∃ st2, addGenesOfTerm H db l acc st
          = (.ok (l.foldl (fun a g => a.insert (bestEffort db g true)) acc), st2) ∧
        Coherent db st2 := by
  induction l with
  | nil =>
    intro acc st hc
    exact ⟨st, rfl, hc⟩
  | cons g t ih =>
    intro acc st hc
    have hv := geneToApproved_eq_bestEffort H hc g true
    have hc1 := coherent_geneToApproved H hc g true
    generalize hq : geneToApproved H db st g true = q at hv hc1
    obtain ⟨r, st1⟩ := q
    simp only at hv hc1
    subst hv
    obtain ⟨st2, h2, hc2⟩ := ih (acc.insert (bestEffort db g true)) st1 hc1
    refine ⟨st2, ?_, hc2⟩
    rw [addGenesOfTerm, hq]
    exact h2

/-- The loop of `phenotypeToGenes` keeps the genes it has collected. -/
theorem phenotypeToGenesLoop_mono (H : Externals) {db : Store} (recursive : Bool) :
    ∀ (fuel : Nat) (ids : List Int) (acc : GeneSet) (st : Statics) (g : GeneSet) (s : Statics),
      Coherent db st → phenotypeToGenesLoop H db recursive fuel ids acc st = some (.ok g, s) →
      ∀ x ∈ acc.elems, x ∈ g.elems := by
  intro fuel
  induction fuel with
  | zero =>
    intro ids acc st g s _ h x hx
    unfold phenotypeToGenesLoop at h
    split at h
    · cases h
      exact hx
    · cases h
  | succ f ih =>
    intro ids acc st g s hc h x hx
    rcases List.eq_nil_or_concat ids with hnil | ⟨rest, id, hid⟩
    · subst hnil
      rw [phenotypeToGenesLoop_nil] at h
      cases h
      exact hx
    · subst hid
      rw [List.concat_eq_append, phenotypeToGenesLoop_step] at h
      obtain ⟨st2, h2, hc2⟩ := addGenesOfTerm_value H
        ((db.hpo_genes.filter fun r => r.hpo_term_id == id).map fun r => r.gene) acc st hc
      rw [h2] at h
      exact ih _ _ _ g s hc2 h x (mem_foldl_insert_of_mem _ _ acc x hx)

/-! ## Lemmas: transcripts -/

/-- The element that `maxElement` selects splits the list: the elements before it have a
smaller base count and the elements after it have no greater base count. -/
theorem maxElement_spec (rest : List Transcript) :
    ∀ largest : Transcript, ∃ pre post : List Transcript,
      largest :: rest = pre ++ maxElement largest rest :: post ∧
      (∀ t ∈ pre, t.regions.baseCount < (maxElement largest rest).regions.baseCount) ∧
      (∀ t ∈ post, t.regions.baseCount ≤ (maxElement largest rest).regions.baseCount) := by
  induction rest with
  | nil =>
    intro largest
    exact ⟨[], [], rfl, fun t h => by simp at h, fun t h => by simp at h⟩
  | cons t rest ih =>
    intro largest
    unfold maxElement
    by_cases hlt : largest.regions.baseCount < t.regions.baseCount
    · rw [if_pos hlt]
      obtain ⟨pre, post, heq, hpre, hpost⟩ := ih t
      refine ⟨largest :: pre, post, by rw [heq]; rfl, ?_, hpost⟩
      have ht : t.regions.baseCount ≤ (maxElement t rest).regions.baseCount := by
        cases pre with
        | nil =>
          simp only [List.nil_append, List.cons.injEq] at heq
          rw [← heq.1]
        | cons x pre2 =>
          simp only [List.cons_append, List.cons.injEq] at heq
          have := hpre x (List.mem_cons_self _ _)
          rw [← heq.1] at this
          omega
      intro x hx
      rcases List.mem_cons.mp hx with rfl | hx
      · omega
      · exact hpre x hx
    · rw [if_neg hlt]
      obtain ⟨pre, post, heq, hpre, hpost⟩ := ih largest
      cases pre with
      | nil =>
        simp only [List.nil_append, List.cons.injEq] at heq
        refine ⟨[], t :: post, ?_, fun x h => by simp at h, ?_⟩
        · rw [← heq.1, heq.2]
          rfl
        · intro x hx
          rcases List.mem_cons.mp hx with rfl | hx
          · rw [← heq.1]; omega
          · exact hpost x hx
      | cons y pre2 =>
        simp only [List.cons_append, List.cons.injEq] at heq
        refine ⟨largest :: t :: pre2, post, ?_, ?_, hpost⟩
        · simp only [List.cons_append, List.cons.injEq, true_and]
          exact heq.2
        · have hl := hpre y (List.mem_cons_self _ _)
          rw [← heq.1] at hl
          intro x hx
          rcases List.mem_cons.mp hx with rfl | hx
          · exact hl
          · rcases List.mem_cons.mp hx with rfl | hx
            · omega
            · exact hpre x (List.mem_cons_of_mem _ hx)

/-! ## Lemmas: overlap queries -/

theorem mem_foldl_insert_iff {α : Type} (f : α → String) (l : List α) :
    ∀ (acc : GeneSet) (x : String),
      x ∈ (l.foldl (fun a i => a.insert (f i)) acc).elems ↔ x ∈ acc.elems ∨ ∃ i ∈ l, f i = x := by
  induction l with
  | nil => intro acc x; simp
  | cons i t ih =>
    intro acc x
    rw [List.foldl_cons, ih]
    have hins : x ∈ (acc.insert (f i)).elems ↔ x ∈ acc.elems ∨ f i = x := by
      unfold GeneSet.insert
      by_cases hr : f i ∈ acc.elems
      · rw [if_pos hr]
        constructor
        · exact Or.inl
        · rintro (h | h)
          · exact h
          · exact h ▸ hr
      · rw [if_neg hr]
        simp only [List.mem_append, List.mem_singleton]
        constructor
        · rintro (h | h)
          · exact Or.inl h
          · exact Or.inr h.symm
        · rintro (h | h)
          · exact Or.inl h
          · exact Or.inr h.symm
    rw [hins]
    simp only [List.mem_cons, exists_eq_or_imp]
    tauto

/-- The symbols read at the matching indices are the first annotations of the lines of
`bed` that intersect the queried range on the queried chromosome. -/
theorem mem_genesOfMatches (bed : BedFile) (chr : String) (s e : Int) (x : String) :
    x ∈ (genesOfMatches bed (matchingIndices bed chr s e)).elems ↔
      ∃ l ∈ bed, l.chr = chr ∧ l.start ≤ e ∧ s ≤ l.end_ ∧ l.annotations.headD "" = x := by
  unfold genesOfMatches
  rw [mem_foldl_insert_iff]
  have hnil : x ∉ ({} : GeneSet).elems := by
    intro h
    cases h
  constructor
  · rintro (h | ⟨i, hi, hx⟩)
    · exact absurd h hnil
    · unfold matchingIndices at hi
      rw [List.mem_filter] at hi
      obtain ⟨_, hm⟩ := hi
      cases hg : bed.get? i with
      | none => rw [hg] at hm; cases hm
      | some l =>
        rw [hg] at hm hx
        simp only [Bool.and_eq_true, beq_iff_eq, decide_eq_true_eq] at hm
        exact ⟨l, List.get?_mem hg, hm.1.1, hm.1.2, hm.2, hx⟩
  · rintro ⟨l, hl, h1, h2, h3, hx⟩
    right
    obtain ⟨i, hi⟩ := List.mem_iff_get?.mp hl
    refine ⟨i, ?_, ?_⟩
    · unfold matchingIndices
      rw [List.mem_filter]
      refine ⟨List.mem_range.mpr ?_, ?_⟩
      · exact (List.get?_eq_some.mp hi).1
      · rw [hi]
        simp only [Bool.and_eq_true, beq_iff_eq, decide_eq_true_eq]
        exact ⟨⟨h1, h2⟩, h3⟩
    · rw [hi]
      exact hx

theorem mem_sort_false (bed : BedFile) (l : BedLine) : l ∈ BedFile.sort bed false ↔ l ∈ bed := by
  unfold BedFile.sort
  simp only [Bool.false_eq_true, if_false]
  exact (List.perm_insertionSort BedLine.le bed).mem_iff

theorem mem_transcriptSpanLines (db : Store) (l : BedLine) :
    l ∈ transcriptSpanLines db ↔
      ∃ t ∈ db.gene_transcript, ∃ g ∈ db.gene, t.gene_id = g.id ∧ exonsOf db t ≠ [] ∧
        l = { chr := t.chromosome, start := spanStart db t, end_ := spanEnd db t,
              annotations := [g.symbol] } := by
  unfold transcriptSpanLines spanStart spanEnd exonsOf
  simp only [List.mem_flatMap, List.mem_filter, beq_iff_eq]
  constructor
  · rintro ⟨t, ht, g, ⟨hg, hid⟩, hl⟩
    by_cases hemp : (db.gene_exon.filter fun e => e.transcript_id == t.id) = []
    · simp [hemp] at hl
    · have hne : (db.gene_exon.filter fun e => e.transcript_id == t.id).isEmpty = false := by
        cases hq : db.gene_exon.filter fun e => e.transcript_id == t.id with
        | nil => exact absurd hq hemp
        | cons a b => rfl
      simp only [hne, Bool.false_eq_true, if_false, List.mem_singleton] at hl
      exact ⟨t, ht, g, hg, hid, hemp, hl⟩
  · rintro ⟨t, ht, g, hg, hid, hemp, hl⟩
    refine ⟨t, ht, g, ⟨hg, hid⟩, ?_⟩
    have hne : (db.gene_exon.filter fun e => e.transcript_id == t.id).isEmpty = false := by
      cases hq : db.gene_exon.filter fun e => e.transcript_id == t.id with
      | nil => exact absurd hq hemp
      | cons a b => rfl
    simp only [hne, Bool.false_eq_true, if_false, List.mem_singleton]
    exact hl

theorem mem_exonLines (db : Store) (l : BedLine) :
    l ∈ exonLines db ↔
      ∃ t ∈ db.gene_transcript, ∃ g ∈ db.gene, t.gene_id = g.id ∧ ∃ e ∈ exonsOf db t,
        l = { chr := t.chromosome, start := e.start, end_ := e.end_,
              annotations := [g.symbol] } := by
  unfold exonLines exonsOf
  simp only [List.mem_dedup, List.mem_flatMap, List.mem_filter, beq_iff_eq, List.mem_map]
  constructor
  · rintro ⟨t, ht, g, ⟨hg, hid⟩, e, he, hl⟩
    exact ⟨t, ht, g, hg, hid, e, he, hl.symm⟩
  · rintro ⟨t, ht, g, hg, hid, e, he, hl⟩
    exact ⟨t, ht, g, ⟨hg, hid⟩, e, he, hl.symm⟩

/-- The lines that `genesOverlapping` queries, on statics that belong to the store. -/
theorem genesOverlapping_bed {db : Store} {st : IndexStatics} (hc : IndexCoherent db st) :
    (if st.genes_bed.length = 0 then
      BedFile.sort (st.genes_bed ++ transcriptSpanLines db) false else st.genes_bed)
      = BedFile.sort (transcriptSpanLines db) false := by
  rcases hc.1 with h | h
  · rw [h]
    rfl
  · by_cases hl : st.genes_bed.length = 0
    · rw [if_pos hl, List.length_eq_zero.mp hl]
      rfl
    · rw [if_neg hl]
      exact h

/-- The lines that `genesOverlappingByExon` queries, on statics that belong to the store. -/
theorem genesOverlappingByExon_bed {db : Store} {st : IndexStatics} (hc : IndexCoherent db st) :
    (if st.exons_bed.length = 0 then
      BedFile.sort (st.exons_bed ++ exonLines db) false else st.exons_bed)
      = BedFile.sort (exonLines db) false := by
  rcases hc.2 with h | h
  · rw [h]
    rfl
  · by_cases hl : st.exons_bed.length = 0
    · rw [if_pos hl, List.length_eq_zero.mp hl]
      rfl
    · rw [if_neg hl]
      exact h

/-- Symbols returned by `genesOverlapping` on statics that belong to the store. -/
theorem mem_genesOverlapping {db : Store} {st : IndexStatics} (hc : IndexCoherent db st)
    (chr : String) (start end_ extend : Int) (x : String) :
    x ∈ (genesOverlapping db st chr start end_ extend).1.elems ↔
      ∃ g ∈ db.gene, ∃ t ∈ db.gene_transcript, t.gene_id = g.id ∧ g.symbol = x ∧
        t.chromosome = chr ∧ exonsOf db t ≠ [] ∧
        spanStart db t ≤ wrapInt (end_ + extend) ∧ wrapInt (start - extend) ≤ spanEnd db t := by
  unfold genesOverlapping
  simp only [genesOverlapping_bed hc, mem_genesOfMatches, mem_sort_false,
    mem_transcriptSpanLines]
  constructor
  · rintro ⟨l, ⟨t, ht, g, hg, hid, hne, rfl⟩, h1, h2, h3, hx⟩
    exact ⟨g, hg, t, ht, hid, hx, h1, hne, h2, h3⟩
  · rintro ⟨g, hg, t, ht, hid, hx, h1, hne, h2, h3⟩
    exact ⟨_, ⟨t, ht, g, hg, hid, hne, rfl⟩, h1, h2, h3, hx⟩

/-- Symbols returned by `genesOverlappingByExon` on statics that belong to the store. -/
theorem mem_genesOverlappingByExon {db : Store} {st : IndexStatics}
    (hc : IndexCoherent db st) (chr : String) (start end_ extend : Int) (x : String) :
    x ∈ (genesOverlappingByExon db st chr start end_ extend).1.elems ↔
      ∃ g ∈ db.gene, ∃ t ∈ db.gene_transcript, t.gene_id = g.id ∧ g.symbol = x ∧
        t.chromosome = chr ∧ ∃ e ∈ exonsOf db t,
          e.start ≤ wrapInt (end_ + extend) ∧ wrapInt (start - extend) ≤ e.end_ := by
  unfold genesOverlappingByExon
  simp only [genesOverlappingByExon_bed hc, mem_genesOfMatches, mem_sort_false, mem_exonLines]
  constructor
  · rintro ⟨l, ⟨t, ht, g, hg, hid, e, he, rfl⟩, h1, h2, h3, hx⟩
    exact ⟨g, hg, t, ht, hid, hx, h1, e, he, h2, h3⟩
  · rintro ⟨g, hg, t, ht, hid, hx, h1, e, he, h2, h3⟩
    exact ⟨_, ⟨t, ht, g, hg, hid, e, he, rfl⟩, h1, h2, h3, hx⟩

theorem indexCoherent_init (db : Store) : IndexCoherent db {} :=
  ⟨Or.inl rfl, Or.inl rfl⟩

/-- An `int` expression without overflow has its mathematical value. -/
theorem wrapInt_of_inRange {x : Int} (h : InIntRange x) : wrapInt x = x := by
  obtain ⟨h1, h2⟩ := h
  unfold wrapInt
  omega

/-! ## Lemmas: phenotype search -/

theorem nodup_termMatches (db : Store) (term : String) : (termMatches db term).Nodup :=
  List.nodup_dedup _

/-- The loop over the search terms after its first round. -/
theorem searchLoop_rest (db : Store) (l : List String) :
    ∀ (acc : List Phenotype),
      (l.foldl (fun (acc : List Phenotype × Bool) term =>
        if acc.2 then (termMatches db term, false)
        else (acc.1.filter fun p => decide (p ∈ termMatches db term), false)) (acc, false)).1
      = acc.filter fun p => decide (∀ t ∈ l, p ∈ termMatches db t) := by
  induction l with
  | nil =>
    intro acc
    simp
  | cons t l ih =>
    intro acc
    rw [List.foldl_cons]
    simp only [Bool.false_eq_true, if_false]
    rw [ih, List.filter_filter]
    apply List.filter_congr
    intro p _
    simp only [List.mem_cons, forall_eq_or_imp, Bool.decide_and, Bool.and_comm]

/-- The loop over the search terms: the phenotypes in the set of every term, without
repetition. -/
theorem searchLoop_spec (db : Store) (t : String) (l : List String) :
    let r := ((t :: l).foldl (fun (acc : List Phenotype × Bool) term =>
        if acc.2 then (termMatches db term, false)
        else (acc.1.filter fun p => decide (p ∈ termMatches db term), false))
        (([] : List Phenotype), true)).1
    r.Nodup ∧ ∀ p, p ∈ r ↔ ∀ u ∈ t :: l, p ∈ termMatches db u := by
  intro r
  have hr : r = (termMatches db t).filter fun p => decide (∀ u ∈ l, p ∈ termMatches db u) := by
    simp only [r, List.foldl_cons, if_true]
    exact searchLoop_rest db l _
  rw [hr]
  refine ⟨(nodup_termMatches db t).filter _, fun p => ?_⟩
  simp only [List.mem_filter, decide_eq_true_eq, List.mem_cons, forall_eq_or_imp]

theorem sorted_sortByName (list : List Phenotype) : (sortByName list).Pairwise nameLe := by
  haveI : IsTotal Phenotype nameLe := ⟨fun a b => chrLe_total a.name.data b.name.data⟩
  haveI : IsTrans Phenotype nameLe :=
    ⟨fun a b c h1 h2 => chrLe_trans a.name.data b.name.data c.name.data h1 h2⟩
  exact List.sorted_insertionSort nameLe list

theorem perm_sortByName (list : List Phenotype) : (sortByName list).Perm list :=
  List.perm_insertionSort _ list

/-- The two branches of `phenotypes`, by the terms that are left after trimming. -/
theorem phenotypes_eq (db : Store) (search_terms : List String) :
    ((search_terms.map trimmedQString).filter (fun term => term != "") = [] ∧
      phenotypes db search_terms = sortByName (db.hpo_term.map HpoTermRow.phenotype)) ∨
    ∃ t l, (search_terms.map trimmedQString).filter (fun term => term != "") = t :: l ∧
      phenotypes db search_terms = sortByName
        ((t :: l).foldl (fun (acc : List Phenotype × Bool) term =>
          if acc.2 then (termMatches db term, false)
          else (acc.1.filter fun p => decide (p ∈ termMatches db term), false))
          (([] : List Phenotype), true)).1 := by
  unfold phenotypes
  cases h : (search_terms.map trimmedQString).filter (fun term => term != "") with
  | nil =>
    left
    exact ⟨rfl, rfl⟩
  | cons t l =>
    right
    exact ⟨t, l, rfl, rfl⟩

/-- Value of `geneToApproved(gene, true)` for a symbol that is not resolved. -/
theorem bestEffort_unresolved (db : Store) (s : String)
    (hn : (approvedFill db).contains (toUpper (trimmed s)) = false)
    (hr : Ambiguous db (toUpper (trimmed s)) ∨ Unknown db (toUpper (trimmed s))) :
    bestEffort db s true = toUpper (trimmed s) := by
  have hcs : cachedSymbol db (toUpper (trimmed s)) = .ok "" := by
    unfold cachedSymbol
    rw [aliasID_not_one hr]
    rfl
  unfold bestEffort
  rw [hn, hcs]
  rfl

theorem mem_childIds (db : Store) (id c : Int) :
    c ∈ ((db.hpo_parent.filter fun r => r.parent == id).map fun r => r.child) ↔
      ChildEdge db id c := by
  unfold ChildEdge
  simp only [List.mem_map, List.mem_filter, beq_iff_eq]
  constructor
  · rintro ⟨e, ⟨he, hp⟩, hch⟩
    exact ⟨e, he, hp, hch⟩
  · rintro ⟨e, he, hp, hch⟩
    exact ⟨e, ⟨he, hp⟩, hch⟩

/-- Genes in the set after the loop over the genes of the term `id`. -/
theorem mem_genesOfTerm (db : Store) (id : Int) (acc : GeneSet) (x : String) :
    x ∈ (((db.hpo_genes.filter fun r => r.hpo_term_id == id).map fun r => r.gene).foldl
        (fun a g => a.insert (bestEffort db g true)) acc).elems ↔
      x ∈ acc.elems ∨ ∃ r ∈ db.hpo_genes, r.hpo_term_id = id ∧ bestEffort db r.gene true = x := by
  rw [mem_foldl_insert_iff]
  simp only [List.mem_map, List.mem_filter, beq_iff_eq]
  constructor
  · rintro (h | ⟨g, ⟨r, ⟨hr, hid⟩, hg⟩, hx⟩)
    · exact Or.inl h
    · exact Or.inr ⟨r, hr, hid, hg ▸ hx⟩
  · rintro (h | ⟨r, hr, hid, hx⟩)
    · exact Or.inl h
    · exact Or.inr ⟨r.gene, ⟨r, ⟨hr, hid⟩, rfl⟩, hx⟩

/-- With ranked terms and statics that belong to the store, the work-list segment `seg`
is used up after `k` iterations with the rest of the work-list untouched; the genes
added are those of the terms reachable from the segment. -/
theorem phenotypeToGenesLoop_collects (H : Externals) (db : Store) (rank : Int → Nat)
    (hrank : ∀ e ∈ db.hpo_parent, rank e.child < rank e.parent) :
    ∀ (n : Nat) (seg : List Int), (∀ x ∈ seg, rank x < n) →
      ∀ (rest : List Int) (genes : GeneSet) (st : Statics), Coherent db st →
        ∃ (k : Nat) (genes2 : GeneSet) (st2 : Statics), Coherent db st2 ∧
          (∀ fuel, phenotypeToGenesLoop H db true (fuel + k) (rest ++ seg) genes st
            = phenotypeToGenesLoop H db true fuel rest genes2 st2) ∧
          ∀ x, x ∈ genes2.elems ↔ x ∈ genes.elems ∨
            ∃ i ∈ seg, ∃ r ∈ db.hpo_genes,
              Relation.ReflTransGen (ChildEdge db) i r.hpo_term_id ∧
              bestEffort db r.gene true = x := by
  intro n
  induction n with
  | zero =>
    intro seg hseg rest genes st hc
    have hnil : seg = [] := by
      cases seg with
      | nil => rfl
      | cons x t => exact absurd (hseg x (List.mem_cons_self _ _)) (Nat.not_lt_zero _)
    subst hnil
    exact ⟨0, genes, st, hc, fun fuel => by simp, fun x => by simp⟩
  | succ n ih =>
    intro seg
    induction seg using List.reverseRecOn with
    | nil =>
      intro _ rest genes st hc
      exact ⟨0, genes, st, hc, fun fuel => by simp, fun x => by simp⟩
    | append_singleton s id ihs =>
      intro hseg rest genes st hc
      have hs : ∀ x ∈ s, rank x < n + 1 := fun x hx => hseg x (List.mem_append_left _ hx)
      have hch : ∀ x ∈ ((db.hpo_parent.filter fun r => r.parent == id).map fun r => r.child),
          rank x < n := by
        intro x hx
        have hid : rank id < n + 1 :=
          hseg id (List.mem_append_right _ (List.mem_singleton_self _))
        obtain ⟨e, he, hp, hex⟩ := (mem_childIds db id x).mp hx
        have := hrank e he
        rw [hp, hex] at this
        omega
      obtain ⟨st1, hadd, hc1⟩ := addGenesOfTerm_value H
        ((db.hpo_genes.filter fun r => r.hpo_term_id == id).map fun r => r.gene) genes st hc
      obtain ⟨k1, genes2, st2, hc2, h1, hm1⟩ := ih _ hch (rest ++ s) _ st1 hc1
      obtain ⟨k2, genes3, st3, hc3, h2, hm2⟩ := ihs hs rest genes2 st2 hc2
      refine ⟨k2 + k1 + 1, genes3, st3, hc3, fun fuel => ?_, fun x => ?_⟩
      · rw [← List.append_assoc, ← Nat.add_assoc, phenotypeToGenesLoop_step, hadd]
        simp only [if_true]
        rw [← Nat.add_assoc, h1 (fuel + k2)]
        exact h2 fuel
      · rw [hm2, hm1, mem_genesOfTerm]
        constructor
        · rintro (((h | ⟨r, hr, hid, hx⟩) | ⟨i, hi, r, hr, hreach, hx⟩) | ⟨i, hi, r, hr, hreach, hx⟩)
          · exact Or.inl h
          · exact Or.inr ⟨id, by simp, r, hr, hid ▸ Relation.ReflTransGen.refl, hx⟩
          · exact Or.inr ⟨id, by simp, r, hr,
              Relation.ReflTransGen.head ((mem_childIds db id i).mp hi) hreach, hx⟩
          · exact Or.inr ⟨i, List.mem_append_left _ hi, r, hr, hreach, hx⟩
        · rintro (h | ⟨i, hi, r, hr, hreach, hx⟩)
          · exact Or.inl (Or.inl (Or.inl h))
          · rcases List.mem_append.mp hi with hi | hi
            · exact Or.inr ⟨i, hi, r, hr, hreach, hx⟩
            · rw [List.mem_singleton.mp hi] at hreach
              rcases Relation.ReflTransGen.cases_head hreach with heq | ⟨c, hc, hreach2⟩
              · exact Or.inl (Or.inl (Or.inr ⟨r, hr, heq.symm, hx⟩))
              · exact Or.inl (Or.inr ⟨c, (mem_childIds db id c).mpr hc, r, hr, hreach2, hx⟩)

/-! ## Claims -/

/-- C1, refuted as stated: the approved symbol `C9orf72` is in the approved set, but
`geneToApproved` looks up its upper-case form and returns that form or the empty value,
not the symbol itself. -/
theorem C1_counterexample :
    (approvedGeneNames storeLower Statics.init).1.contains "C9orf72" = true ∧
    (geneToApproved sampleExternals storeLower Statics.init "C9orf72" true).1 = .ok "C9ORF72" ∧
    (geneToApproved sampleExternals storeLower Statics.init "C9orf72" false).1 = .ok "" := by
  decide

/-- C1, amended: for every symbol `g` of the approved set that is trimmed and upper-case
(`g.trimmed().toUpper() = g`), `geneToApproved(g, flag)` returns exactly `g`, for both
values of the flag, whatever the alias edges and the cached mapping are. -/
theorem C1_approved_normalized_kept (H : Externals) (db : Store) (st : Statics) (g : String)
    (flag : Bool) (hc : Coherent db st)
    (ha : (approvedGeneNames db st).1.contains g = true)
    (hnorm : toUpper (trimmed g) = g) :
    (geneToApproved H db st g flag).1 = .ok g := by
  rw [approvedGeneNames_contains hc] at ha
  rw [geneToApproved_approved H hc flag (by rw [hnorm]; exact ha), hnorm]

/-- C1, instance: the approved symbol `BAZ1` of `storeAmbiguous` is returned as it is. -/
theorem C1_approved_normalized_kept_witness :
    Coherent storeAmbiguous Statics.init ∧
    (approvedGeneNames storeAmbiguous Statics.init).1.contains "BAZ1" = true ∧
    toUpper (trimmed "BAZ1") = "BAZ1" ∧
    (geneToApproved sampleExternals storeAmbiguous Statics.init "BAZ1" true).1 = .ok "BAZ1" :=
  ⟨coherent_init _, by decide, by decide,
    C1_approved_normalized_kept sampleExternals storeAmbiguous Statics.init "BAZ1" true
      (coherent_init _) (by decide) (by decide)⟩

/-- C2, refuted as stated: in `storeShadow` the symbol `FOO` is mapped to exactly one
gene, `BAR` (id 2), through a `previous` edge, but it is approved itself and is kept;
in `storeLowerAlias` the `previous` symbol `C1orf10` of gene `CRNN` is not found by
`geneToApproved`, which looks up `C1ORF10`. -/
theorem C2_counterexample :
    (previousMatches storeShadow "FOO" = [⟨2, "BAR"⟩] ∧
      (geneToApprovedID sampleExternals storeShadow Statics.init "FOO").1 = .ok 1 ∧
      (geneToApproved sampleExternals storeShadow Statics.init "FOO" false).1 = .ok "FOO" ∧
      (geneToApprovedWithMessage storeShadow Statics.init "FOO").1
        = ("FOO", "KEPT: FOO is an approved symbol")) ∧
    (previousMatches storeLowerAlias "C1orf10" = [⟨1, "CRNN"⟩] ∧
      (geneToApproved sampleExternals storeLowerAlias Statics.init "C1orf10" false).1 = .ok "" ∧
      (geneToApproved sampleExternals storeLowerAlias Statics.init "C1orf10" true).1
        = .ok "C1ORF10") := by
  decide

/-- C2, amended: for every symbol `a` that is not approved and whose `previous` lookup
gives exactly one row, of gene `g`: `geneToApprovedID(a)` is the id of `g`,
`geneToApprovedWithMessage(a)` returns the symbol of `g` with the `REPLACED` message, and
`geneToApproved(a, flag)` returns the symbol of `g` when `a` is trimmed and upper-case
(the id of `g` not being the value `-1` and its symbol not being empty). -/
theorem C2_single_previous_replaced (H : Externals) (db : Store) (st : Statics) (a : String)
    (g : GeneRow) (flag : Bool) (hc : Coherent db st)
    (hn : (approvedGeneNames db st).1.contains a = false)
    (h1 : previousMatches db a = [g]) :
    (geneToApprovedID H db st a).1 = .ok g.id ∧
    ((geneToApprovedWithMessage db st a).1 = (g.symbol, "REPLACED: " ++ a ++ " is a previous symbol") ∧
      startsWith (geneToApprovedWithMessage db st a).1.2 "REPLACED" = true) ∧
    (toUpper (trimmed a) = a → g.id ≠ -1 → g.symbol ≠ "" →
      (geneToApproved H db st a flag).1 = .ok g.symbol) := by
  rw [approvedGeneNames_contains hc] at hn
  have h1b : aliasJoin db a "previous" = [g] := h1
  have hmsg : (geneToApprovedWithMessage db st a).1
      = (g.symbol, "REPLACED: " ++ a ++ " is a previous symbol") := by
    unfold geneToApprovedWithMessage
    simp [approvedGeneNames_eq hc, hn, h1b, orderById_singleton]
  refine ⟨?_, ⟨hmsg, ?_⟩, ?_⟩
  · rw [geneToApprovedID_not_approved H hc hn, aliasID_previous h1b]
  · rw [hmsg]
    show startsWith ("REPLACED: " ++ a ++ " is a previous symbol") "REPLACED" = true
    have : "REPLACED: " ++ a ++ " is a previous symbol"
        = "REPLACED" ++ (": " ++ a ++ " is a previous symbol") := by
      simp only [← String.append_assoc]
      rfl
    rw [this]
    exact startsWith_append _ _
  · intro hnorm hid hsym
    have hn2 : (approvedFill db).contains (toUpper (trimmed a)) = false := by rw [hnorm]; exact hn
    rw [(geneToApproved_not_approved H hc flag hn2).1, hnorm]
    unfold cachedSymbol
    rw [aliasID_previous h1b]
    have : (g.id != -1) = true := by simpa using hid
    rw [if_pos this, geneSymbol_of_aliasJoin h1b]
    simp [Except.map, isEmpty_false_of_ne hsym]

/-- C2, instance: `BAR` is a `previous` symbol of gene `BAZ` only. -/
theorem C2_single_previous_replaced_witness :
    Coherent storeAlias Statics.init ∧
    (approvedGeneNames storeAlias Statics.init).1.contains "BAR" = false ∧
    previousMatches storeAlias "BAR" = [⟨1, "BAZ"⟩] ∧
    (geneToApprovedID sampleExternals storeAlias Statics.init "BAR").1 = .ok 1 ∧
    (geneToApprovedWithMessage storeAlias Statics.init "BAR").1
      = ("BAZ", "REPLACED: BAR is a previous symbol") ∧
    (geneToApproved sampleExternals storeAlias Statics.init "BAR" false).1 = .ok "BAZ" :=
  have h := C2_single_previous_replaced sampleExternals storeAlias Statics.init "BAR" ⟨1, "BAZ"⟩
    false (coherent_init _) (by decide) (by decide)
  ⟨coherent_init _, by decide, by decide, h.1, h.2.1.1, h.2.2 (by decide) (by decide) (by decide)⟩

/-- C3, refuted as stated: in `storeAmbiguousApproved` the symbol `BAR` is a `previous`
symbol of the two genes `BAZ1` and `BAZ2` but is approved itself, and the result is the
single entry that keeps it; in `storeDuplicateEdge` the edge to `BAZ1` is stored twice
and `BAZ1` gets two entries. -/
theorem C3_counterexample :
    (previousCandidates storeAmbiguousApproved "BAR" = [⟨1, "BAZ1"⟩, ⟨2, "BAZ2"⟩] ∧
      (geneToApprovedWithMessageAndAmbiguous storeAmbiguousApproved Statics.init "BAR").1
        = [("BAR", "KEPT: BAR is an approved symbol")]) ∧
    (previousCandidates storeDuplicateEdge "BAR" = [⟨1, "BAZ1"⟩, ⟨2, "BAZ2"⟩] ∧
      (geneToApprovedWithMessageAndAmbiguous storeDuplicateEdge Statics.init "BAR").1
        = [("BAZ1", "REPLACED: BAR is a previous symbol"),
           ("BAZ1", "REPLACED: BAR is a previous symbol"),
           ("BAZ2", "REPLACED: BAR is a previous symbol")]) := by
  decide

/-- C3, amended: for every symbol `a` that is not approved and is a `previous` alias of
two or more genes (the alias edges being distinct rows),
`geneToApprovedWithMessageAndAmbiguous(a)` returns one entry per candidate gene: the
symbols of the entries are the symbols of the candidates rearranged by `ORDER BY g.id`,
which is a permutation of the candidates with ascending ids, and every entry has the
`REPLACED` message. -/
theorem C3_ambiguous_previous_all_candidates (db : Store) (st : Statics) (a : String)
    (hc : Coherent db st) (hnodup : db.gene_alias.Nodup)
    (hn : (approvedGeneNames db st).1.contains a = false)
    (h2 : 2 ≤ (previousCandidates db a).length) :
    (geneToApprovedWithMessageAndAmbiguous db st a).1
      = (orderById (previousCandidates db a)).map
          (fun g => (g.symbol, "REPLACED: " ++ a ++ " is a previous symbol")) ∧
    (orderById (previousCandidates db a)).Perm (previousCandidates db a) ∧
    ((orderById (previousCandidates db a)).map fun g => g.id).Sorted (· ≤ ·) ∧
    (geneToApprovedWithMessageAndAmbiguous db st a).1.length = (previousCandidates db a).length := by
  rw [approvedGeneNames_contains hc] at hn
  have hout : (geneToApprovedWithMessageAndAmbiguous db st a).1
      = (orderById (previousCandidates db a)).map
          (fun g => (g.symbol, "REPLACED: " ++ a ++ " is a previous symbol")) := by
    unfold geneToApprovedWithMessageAndAmbiguous
    have hlen : (orderById (previousCandidates db a)).length ≥ 1 := by
      rw [orderById_length]; omega
    simp only [approvedGeneNames_eq hc, hn, Bool.false_eq_true, if_false,
      aliasJoin_eq_candidates hnodup, List.length_map, hlen, if_true, List.map_map]
    rfl
  refine ⟨hout, orderById_perm _, orderById_sorted _, ?_⟩
  rw [hout, List.length_map, orderById_length]

/-- C3, instance: `BAR` is a `previous` symbol of `BAZ1` and `BAZ2`; the edges are stored
in descending gene order and the entries come out in ascending gene order. -/
theorem C3_ambiguous_previous_all_candidates_witness :
    Coherent storeAmbiguous Statics.init ∧ storeAmbiguous.gene_alias.Nodup ∧
    (approvedGeneNames storeAmbiguous Statics.init).1.contains "BAR" = false ∧
    2 ≤ (previousCandidates storeAmbiguous "BAR").length ∧
    (geneToApprovedWithMessageAndAmbiguous storeAmbiguous Statics.init "BAR").1
      = [("BAZ1", "REPLACED: BAR is a previous symbol"),
         ("BAZ2", "REPLACED: BAR is a previous symbol")] :=
  ⟨coherent_init _, by decide, by decide, by decide,
    (C3_ambiguous_previous_all_candidates storeAmbiguous Statics.init "BAR" (coherent_init _)
      (by decide) (by decide) (by decide)).1.trans (by decide)⟩

/-- C4, refuted as stated: the unknown symbol `bar` is not returned unchanged by
`geneToApproved(s, true)`, which returns `BAR`. -/
theorem C4_counterexample :
    (approvedGeneNames storeLower Statics.init).1.contains "bar" = false ∧
    Unknown storeLower "bar" ∧
    (approvedGeneNames storeLower Statics.init).1.contains "BAR" = false ∧
    Unknown storeLower "BAR" ∧
    (geneToApproved sampleExternals storeLower Statics.init "bar" true).1 = .ok "BAR" := by
  decide

/-- C4, amended: for every input `s` whose trimmed upper-case form `n` is not approved
and is ambiguous or unknown, `geneToApproved(s, true)` returns `n` (the normalised
input), `geneToApproved(s, false)` returns the empty value, and `n` is the symbol of no
gene of the store, so none of the ambiguous candidates is returned. -/
theorem C4_unresolved_returns_normalized_input (H : Externals) (db : Store) (st : Statics)
    (s : String) (hc : Coherent db st)
    (hn : (approvedGeneNames db st).1.contains (toUpper (trimmed s)) = false)
    (hr : Ambiguous db (toUpper (trimmed s)) ∨ Unknown db (toUpper (trimmed s))) :
    (geneToApproved H db st s true).1 = .ok (toUpper (trimmed s)) ∧
    (geneToApproved H db st s false).1 = .ok "" ∧
    ∀ g ∈ db.gene, g.symbol ≠ toUpper (trimmed s) := by
  rw [approvedGeneNames_contains hc] at hn
  have hcs : cachedSymbol db (toUpper (trimmed s)) = .ok "" := by
    unfold cachedSymbol
    rw [aliasID_not_one hr]
    rfl
  refine ⟨?_, ?_, (approvedFill_contains_false db _).mp hn⟩
  · rw [(geneToApproved_not_approved H hc true hn).1, hcs]
    rfl
  · rw [(geneToApproved_not_approved H hc false hn).1, hcs]
    rfl

/-- C4, instance: the scenario of the spec, `BAR` is a `previous` symbol of `BAZ1` and
`BAZ2`. -/
theorem C4_unresolved_returns_normalized_input_witness :
    Coherent storeAmbiguous Statics.init ∧
    (approvedGeneNames storeAmbiguous Statics.init).1.contains (toUpper (trimmed "BAR")) = false ∧
    Ambiguous storeAmbiguous (toUpper (trimmed "BAR")) ∧
    (geneToApproved sampleExternals storeAmbiguous Statics.init "BAR" true).1 = .ok "BAR" ∧
    (geneToApproved sampleExternals storeAmbiguous Statics.init "BAR" false).1 = .ok "" :=
  have h := C4_unresolved_returns_normalized_input sampleExternals storeAmbiguous Statics.init
    "BAR" (coherent_init _) (by decide) (Or.inl (by decide))
  ⟨coherent_init _, by decide, by decide, h.1.trans (by decide), h.2.1⟩

/-- C5: for every symbol that is not approved, `geneToApprovedID` gives the gene of a
single `previous` match, `-1` for several `previous` matches whatever the `synonym`
edges are, and with no `previous` match the gene of a single `synonym` match and `-1`
for no or several `synonym` matches. -/
theorem C5_previous_before_synonym (H : Externals) (db : Store) (st : Statics) (gene : String)
    (hc : Coherent db st) (hn : (approvedGeneNames db st).1.contains gene = false) :
    (∀ g, previousMatches db gene = [g] → (geneToApprovedID H db st gene).1 = .ok g.id) ∧
    (2 ≤ (previousMatches db gene).length → (geneToApprovedID H db st gene).1 = .ok (-1)) ∧
    (previousMatches db gene = [] →
      (∀ g, synonymMatches db gene = [g] → (geneToApprovedID H db st gene).1 = .ok g.id) ∧
      ((synonymMatches db gene).length ≠ 1 → (geneToApprovedID H db st gene).1 = .ok (-1))) := by
  rw [approvedGeneNames_contains hc] at hn
  rw [geneToApprovedID_not_approved H hc hn]
  refine ⟨?_, ?_, ?_⟩
  · intro g hg
    rw [aliasID_previous hg]
  · intro h2
    rw [aliasID_not_one (Or.inl (Or.inl (by omega)))]
  · intro hp
    refine ⟨?_, ?_⟩
    · intro g hg
      rw [aliasID_synonym hp hg]
    · intro hs
      have hp0 : (previousMatches db gene).length = 0 := by rw [hp]; rfl
      by_cases h0 : (synonymMatches db gene).length = 0
      · rw [aliasID_not_one (Or.inr ⟨hp0, h0⟩)]
      · rw [aliasID_not_one (Or.inl (Or.inr ⟨hp0, by omega⟩))]

/-- C5, instance: in `storeAlias` the symbol `QUX` has no `previous` match and two
`synonym` matches. -/
theorem C5_previous_before_synonym_witness :
    Coherent storeAlias Statics.init ∧
    (approvedGeneNames storeAlias Statics.init).1.contains "QUX" = false ∧
    previousMatches storeAlias "QUX" = [] ∧ (synonymMatches storeAlias "QUX").length ≠ 1 ∧
    (geneToApprovedID sampleExternals storeAlias Statics.init "QUX").1 = .ok (-1) :=
  ⟨coherent_init _, by decide, by decide, by decide,
    ((C5_previous_before_synonym sampleExternals storeAlias Statics.init "QUX" (coherent_init _)
      (by decide)).2.2 (by decide)).2 (by decide)⟩

/-- C6, refuted as stated: for the input ` BAR` (with a leading blank)
`geneToApproved` resolves the `previous` symbol `BAR` to `BAZ`, while
`geneToApprovedWithMessage` looks up the text as given and reports an unknown symbol. -/
theorem C6_counterexample :
    (geneToApproved sampleExternals storeAlias Statics.init " BAR" false).1 = .ok "BAZ" ∧
    (geneToApprovedWithMessage storeAlias Statics.init " BAR").1
      = (" BAR", "ERROR:  BAR is unknown symbol") ∧
    startsWith (geneToApprovedWithMessage storeAlias Statics.init " BAR").1.2 "ERROR" = true := by
  decide

/-- C6, amended: for every symbol `s` that is trimmed and upper-case (on a store whose
gene ids are not `-1` and whose symbols are not empty), `geneToApproved(s, false)`
returns a value, which is non-empty exactly when the message of
`geneToApprovedWithMessage(s)` does not start with `ERROR`, and in that case both
return the same symbol. -/
theorem C6_variants_agree_on_normalized (H : Externals) (db : Store) (st : Statics) (s : String)
    (hc : Coherent db st) (hwf : WellFormed db) (hnorm : toUpper (trimmed s) = s) :
    ∃ v, (geneToApproved H db st s false).1 = .ok v ∧
      (v ≠ "" ↔ startsWith (geneToApprovedWithMessage db st s).1.2 "ERROR" = false) ∧
      (v ≠ "" → (geneToApprovedWithMessage db st s).1.1 = v) := by
  cases hA : (approvedFill db).contains s with
  | true =>
    have hs : s ≠ "" := by
      obtain ⟨r, hr, hrs⟩ := (approvedFill_contains db s).mp hA
      exact hrs ▸ (hwf r hr).2
    refine ⟨s, ?_, ?_, ?_⟩
    · rw [geneToApproved_approved H hc false (by rw [hnorm]; exact hA), hnorm]
    · rw [gTAWM_approved hc hA]
      exact ⟨fun _ => startsWith_append_false _ _ _ (by decide), fun _ => hs⟩
    · intro _
      rw [gTAWM_approved hc hA]
  | false =>
    have hkept : ∀ g : GeneRow, g ∈ db.gene → ∀ msg : String,
        (geneToApproved H db st s false).1 = .ok g.symbol →
        (geneToApprovedWithMessage db st s).1 = (g.symbol, "REPLACED: " ++ msg) →
        ∃ v, (geneToApproved H db st s false).1 = .ok v ∧
          (v ≠ "" ↔ startsWith (geneToApprovedWithMessage db st s).1.2 "ERROR" = false) ∧
          (v ≠ "" → (geneToApprovedWithMessage db st s).1.1 = v) := by
      intro g hg msg h1 h2
      refine ⟨g.symbol, h1, ?_, ?_⟩
      · rw [h2]
        exact ⟨fun _ => startsWith_append_false _ _ _ (by decide), fun _ => (hwf g hg).2⟩
      · intro _
        rw [h2]
    have herr : ∀ msg : String, (Ambiguous db s ∨ Unknown db s) →
        (geneToApprovedWithMessage db st s).1 = (s, "ERROR: " ++ msg) →
        ∃ v, (geneToApproved H db st s false).1 = .ok v ∧
          (v ≠ "" ↔ startsWith (geneToApprovedWithMessage db st s).1.2 "ERROR" = false) ∧
          (v ≠ "" → (geneToApprovedWithMessage db st s).1.1 = v) := by
      intro msg hr h2
      refine ⟨"", geneToApproved_false_of_cached H hc hnorm hA (cachedSymbol_not_one hr), ?_, ?_⟩
      · rw [h2]
        have : startsWith ("ERROR: " ++ msg) "ERROR" = true :=
          startsWith_append_true _ _ _ (by decide)
        simp [this]
      · intro h
        exact absurd rfl h
    rcases Nat.lt_trichotomy (aliasJoin db s "previous").length 1 with hp | hp | hp
    · have hp0 : (aliasJoin db s "previous").length = 0 := by omega
      have hpn : aliasJoin db s "previous" = [] := List.length_eq_zero.mp hp0
      rcases Nat.lt_trichotomy (aliasJoin db s "synonym").length 1 with hs | hs | hs
      · have hs0 : (aliasJoin db s "synonym").length = 0 := by omega
        exact herr _ (Or.inr ⟨hp0, hs0⟩) (gTAWM_unknown hc hA hp0 hs0)
      · obtain ⟨g, hg⟩ := list_length_one hs
        have hmem : g ∈ db.gene := mem_gene_of_mem_aliasJoin s "synonym" (by simp [hg])
        exact hkept g hmem _
          (geneToApproved_false_of_cached H hc hnorm hA
            (cachedSymbol_synonym_one hpn hg (hwf g hmem).1))
          (gTAWM_synonym_one hc hA hp0 hg)
      · exact herr _ (Or.inl (Or.inr ⟨hp0, hs⟩)) (gTAWM_synonym_many hc hA hp0 hs)
    · obtain ⟨g, hg⟩ := list_length_one hp
      have hmem : g ∈ db.gene := mem_gene_of_mem_aliasJoin s "previous" (by simp [hg])
      exact hkept g hmem _
        (geneToApproved_false_of_cached H hc hnorm hA (cachedSymbol_previous_one hg (hwf g hmem).1))
        (gTAWM_previous_one hc hA hg)
    · exact herr _ (Or.inl (Or.inl hp)) (gTAWM_previous_many hc hA hp)

/-- C6, instance: the `previous` symbol `BAR` of `storeAlias`. -/
theorem C6_variants_agree_on_normalized_witness :
    Coherent storeAlias Statics.init ∧ WellFormed storeAlias ∧ toUpper (trimmed "BAR") = "BAR" ∧
    ∃ v, (geneToApproved sampleExternals storeAlias Statics.init "BAR" false).1 = .ok v ∧
      (v ≠ "" ↔ startsWith (geneToApprovedWithMessage storeAlias Statics.init "BAR").1.2 "ERROR"
        = false) ∧
      (v ≠ "" → (geneToApprovedWithMessage storeAlias Statics.init "BAR").1.1 = v) :=
  ⟨coherent_init _, by decide, by decide,
    C6_variants_agree_on_normalized sampleExternals storeAlias Statics.init "BAR"
      (coherent_init _) (by decide) (by decide)⟩

/-- C8, refuted as stated: `geneToApprovedWithMessage` does not normalise its input: it
reports ` bar` as unknown and replaces `BAR`, the trimmed upper-case form of ` bar`. -/
theorem C8_counterexample :
    toUpper (trimmed " bar") = "BAR" ∧
    (geneToApprovedWithMessage storeAlias Statics.init " bar").1
      = (" bar", "ERROR:  bar is unknown symbol") ∧
    (geneToApprovedWithMessage storeAlias Statics.init "BAR").1
      = ("BAZ", "REPLACED: BAR is a previous symbol") := by
  decide

/-- C8, amended: `geneToApproved` trims and case-normalises its input: for every symbol
`s`, either flag and any statics, the call on `s` has the same outcome (result and
statics) as the call on `s.trimmed().toUpper()`. -/
theorem C8_geneToApproved_normalizes (H : Externals) (db : Store) (st : Statics) (s : String)
    (flag : Bool) :
    geneToApproved H db st s flag = geneToApproved H db st (toUpper (trimmed s)) flag := by
  unfold geneToApproved
  simp only [toUpper_trimmed_idem]

/-- C7, refuted as stated: for the ambiguous symbol `BAR` of `storeAmbiguous`,
`geneToApprovedWithMessageAndAmbiguous` returns one `REPLACED` entry per candidate and
no entry with an `ERROR` reason. -/
theorem C7_counterexample :
    (approvedGeneNames storeAmbiguous Statics.init).1.contains "BAR" = false ∧
    Ambiguous storeAmbiguous "BAR" ∧
    (geneToApprovedWithMessageAndAmbiguous storeAmbiguous Statics.init "BAR").1
      = [("BAZ1", "REPLACED: BAR is a previous symbol"),
         ("BAZ2", "REPLACED: BAR is a previous symbol")] ∧
    ∀ e ∈ (geneToApprovedWithMessageAndAmbiguous storeAmbiguous Statics.init "BAR").1,
      startsWith e.2 "ERROR" = false ∧ startsWith e.2 "REPLACED" = true := by
  decide

/-- C7, amended: the reason of `geneToApprovedWithMessage(s)` starts with `KEPT` iff `s`
is approved, with `REPLACED` iff `s` is not approved and resolves to exactly one gene,
and with `ERROR` iff `s` is not approved and is ambiguous or unknown; for an ambiguous
`s` the symbol of every candidate gene occurs in the reason.
`geneToApprovedWithMessageAndAmbiguous(s)` returns at least one entry, and the reason of
every entry starts with `KEPT` iff `s` is approved, with `ERROR` iff `s` is not approved
and unknown, and with `REPLACED` iff `s` is not approved and has a match, an ambiguous
`s` included. -/
theorem C7_reason_by_outcome (db : Store) (st : Statics) (s : String) (hc : Coherent db st) :
    ((startsWith (geneToApprovedWithMessage db st s).1.2 "KEPT" = true ↔
        (approvedGeneNames db st).1.contains s = true) ∧
      (startsWith (geneToApprovedWithMessage db st s).1.2 "REPLACED" = true ↔
        (approvedGeneNames db st).1.contains s = false ∧ ResolvesToOne db s) ∧
      (startsWith (geneToApprovedWithMessage db st s).1.2 "ERROR" = true ↔
        (approvedGeneNames db st).1.contains s = false ∧ (Ambiguous db s ∨ Unknown db s))) ∧
    ((approvedGeneNames db st).1.contains s = false → 1 < (previousMatches db s).length →
      ∀ g ∈ previousMatches db s, Occurs g.symbol (geneToApprovedWithMessage db st s).1.2) ∧
    ((approvedGeneNames db st).1.contains s = false → (previousMatches db s).length = 0 →
      1 < (synonymMatches db s).length →
      ∀ g ∈ synonymMatches db s, Occurs g.symbol (geneToApprovedWithMessage db st s).1.2) ∧
    ((geneToApprovedWithMessageAndAmbiguous db st s).1 ≠ [] ∧
      ∀ e ∈ (geneToApprovedWithMessageAndAmbiguous db st s).1,
        (startsWith e.2 "KEPT" = true ↔ (approvedGeneNames db st).1.contains s = true) ∧
        (startsWith e.2 "REPLACED" = true ↔
          (approvedGeneNames db st).1.contains s = false ∧ ¬ Unknown db s) ∧
        (startsWith e.2 "ERROR" = true ↔
          (approvedGeneNames db st).1.contains s = false ∧ Unknown db s)) := by
  rw [approvedGeneNames_contains hc]
  refine ⟨gTAWM_kinds hc s, ?_, ?_, gTAWMAA_kinds hc s⟩
  · intro hn hp g hg
    rw [gTAWM_previous_many hc hn hp]
    exact occurs_append_left _ (occurs_append_left _ (occurs_append_left _
      (occurs_joinGenes (mem_orderById_symbols hg))))
  · intro hn hp hs g hg
    rw [gTAWM_synonym_many hc hn hp hs]
    exact occurs_append_left _ (occurs_append_left _ (occurs_append_left _
      (occurs_joinGenes (mem_orderById_symbols hg))))

/-- C7, instance: the ambiguous symbol `BAR` of `storeAmbiguous`; the reason of
`geneToApprovedWithMessage` starts with `ERROR` and names `BAZ1` and `BAZ2`. -/
theorem C7_reason_by_outcome_witness :
    Coherent storeAmbiguous Statics.init ∧
    (geneToApprovedWithMessage storeAmbiguous Statics.init "BAR").1
      = ("BAR", "ERROR: BAR is a previous symbol of the genes BAZ1, BAZ2") ∧
    startsWith (geneToApprovedWithMessage storeAmbiguous Statics.init "BAR").1.2 "ERROR" = true ∧
    ∀ g ∈ previousMatches storeAmbiguous "BAR",
      Occurs g.symbol (geneToApprovedWithMessage storeAmbiguous Statics.init "BAR").1.2 :=
  have h := C7_reason_by_outcome storeAmbiguous Statics.init "BAR" (coherent_init _)
  ⟨coherent_init _, by decide, h.1.2.2.mpr ⟨by decide, Or.inl (by decide)⟩,
    h.2.1 (by decide) (by decide)⟩

/-- C9: exon-mode clipping of `geneToRegions`. For a coding transcript with coding
region `[sc, ec]` (`sc ≤ ec`) the exon `(s, e)` is skipped iff `e < sc` or `s > ec`, and
otherwise the region `(max sc s, min ec e)` is appended; for a transcript without a
coding start or without a coding end the region `(s, e)` is appended. -/
theorem C9_exon_clipping (sc ec s e : Int) (h : sc ≤ ec) :
    (exonRegion (some sc) (some ec) s e = none ↔ (e < sc ∨ s > ec)) ∧
    (¬ (e < sc ∨ s > ec) → exonRegion (some sc) (some ec) s e = some (max sc s, min ec e)) ∧
    (∀ osc oec : Option Int, osc = none ∨ oec = none → exonRegion osc oec s e = some (s, e)) := by
  refine ⟨?_, ?_, ?_⟩
  · unfold exonRegion
    simp only [Option.isSome_some, Bool.and_self, if_true, Option.getD_some]
    constructor
    · intro hnone
      by_contra hcon
      rw [if_neg (by omega)] at hnone
      cases hnone
    · intro hout
      rw [if_pos (by omega)]
  · intro hin
    unfold exonRegion
    simp only [Option.isSome_some, Bool.and_self, if_true, Option.getD_some]
    rw [if_neg (by omega)]
  · intro osc oec hnull
    unfold exonRegion
    rcases hnull with h1 | h1 <;> subst h1 <;> simp

/-- C9, instances: the exons of the spec. Coding 100..500: exon (80,120) gives (100,120)
and exon (600,700) is skipped; gene `FOO` with coding 20..90 and exons (10,50), (60,100)
on chromosome `1` gives `chr1:20-50` and `chr1:60-90`. -/
theorem C9_exon_clipping_witness :
    (100 : Int) ≤ 500 ∧
    exonRegion (some 100) (some 500) 80 120 = some (100, 120) ∧
    exonRegion (some 100) (some 500) 600 700 = none ∧
    exonModeLines storeFoo storeFoo.gene_transcript (fun _ => ["FOO"])
      = [⟨"chr1", 20, 50, ["FOO"]⟩, ⟨"chr1", 60, 90, ["FOO"]⟩] ∧
    (geneToRegions sampleExternals storeFoo Statics.init "FOO" .CCDS "exon" false false false).1
      = .ok ([⟨"chr1", 20, 50, ["FOO"]⟩, ⟨"chr1", 60, 90, ["FOO"]⟩], []) :=
  ⟨by decide,
    ((C9_exon_clipping 100 500 80 120 (by decide)).2.1 (by decide)).trans (by decide),
    (C9_exon_clipping 100 500 600 700 (by decide)).1.mpr (Or.inr (by decide)),
    by decide, by decide⟩

/-- C10, refuted as stated: gene `FOO` of `storeTwoChromosomes` has a transcript on
chromosome `1` and one on chromosome `2`; the list is ordered by (chromosome, start) and
the start of its first entry is greater than the start of its second entry. -/
theorem C10_counterexample :
    (geneToRegions sampleExternals storeTwoChromosomes Statics.init "FOO" .CCDS "exon" false false
        false).1
      = .ok ([⟨"chr1", 500, 600, ["FOO"]⟩, ⟨"chr2", 100, 200, ["FOO"]⟩], []) ∧
    ¬ ((⟨"chr1", 500, 600, ["FOO"]⟩ : BedLine).start
        ≤ (⟨"chr2", 100, 200, ["FOO"]⟩ : BedLine).start) := by
  decide

/-- C10, amended: every list returned by `geneToRegions` with
`annotate_transcript_names = false` is ordered by (chromosome, start), so that of two
entries on the same chromosome the earlier one has the smaller or equal start, and no
two entries of the list overlap or touch. -/
theorem C10_regions_sorted_disjoint (H : Externals) (db : Store) (st : Statics) (gene : String)
    (source : SOURCE) (mode : String) (fallback messages : Bool) (regions : BedFile)
    (msgs : List String)
    (h : (geneToRegions H db st gene source mode fallback false messages).1
      = .ok (regions, msgs)) :
    regions.Pairwise BedLine.le ∧
    regions.Pairwise (fun a b => a.chr = b.chr → a.start ≤ b.start) ∧
    regions.Pairwise (fun a b => ¬ BedLine.Overlaps a b ∧ ¬ BedLine.Overlaps b a) := by
  obtain ⟨output, hout⟩ := geneToRegions_regions h
  have hap : regions.Pairwise Apart := by
    rw [hout]
    exact sort_merge_apart output
  refine ⟨hap.imp (fun h => h.1), hap.imp ?_, hap.imp ?_⟩
  · intro a b hab hchr
    have := hab.1
    unfold BedLine.le at this
    rw [if_pos hchr] at this
    exact this
  · intro a b hab
    refine ⟨fun ho => ?_, fun ho => ?_⟩
    · have := hab.2 ho.1
      have := ho.2.2
      omega
    · have := hab.2 ho.1.symm
      have := ho.2.1
      omega

/-- C10, instance: two transcripts of gene `FOO` with overlapping exons on chromosome
`1` give one merged region. -/
theorem C10_regions_sorted_disjoint_witness :
    (geneToRegions sampleExternals storeOverlap Statics.init "FOO" .CCDS "exon" false false
        false).1
      = .ok ([⟨"chr1", 20, 90, ["FOO"]⟩, ⟨"chr1", 95, 99, ["FOO"]⟩], []) ∧
    ([⟨"chr1", 20, 90, ["FOO"]⟩, ⟨"chr1", 95, 99, ["FOO"]⟩] : BedFile).Pairwise
      (fun a b => ¬ BedLine.Overlaps a b ∧ ¬ BedLine.Overlaps b a) :=
  ⟨by decide,
    (C10_regions_sorted_disjoint sampleExternals storeOverlap Statics.init "FOO" .CCDS "exon"
      false false [⟨"chr1", 20, 90, ["FOO"]⟩, ⟨"chr1", 95, 99, ["FOO"]⟩] [] (by decide)).2.2⟩

/-- C11: `geneToRegions` throws an `ArgumentException` iff the mode is neither `gene`
nor `exon`, whatever the gene and the statics are; for such a mode the statics are left
as they were, the gene is not looked up. -/
theorem C11_mode_checked_first (H : Externals) (db : Store) (st : Statics) (gene : String)
    (source : SOURCE) (mode : String) (fallback annotate messages : Bool) :
    ((∃ msg, (geneToRegions H db st gene source mode fallback annotate messages).1
        = .error (.ArgumentException msg)) ↔ (mode ≠ "gene" ∧ mode ≠ "exon")) ∧
    ((mode ≠ "gene" ∧ mode ≠ "exon") →
      (geneToRegions H db st gene source mode fallback annotate messages).2 = st) := by
  have hinv : (mode ≠ "gene" ∧ mode ≠ "exon") →
      geneToRegions H db st gene source mode fallback annotate messages
        = (.error (.ArgumentException ("Invalid mode '" ++ mode ++ "'. Valid modes are: "
            ++ ", ".intercalate ["gene", "exon"] ++ ".")), st) := by
    intro hm
    have hm2 : ¬ mode ∈ ["gene", "exon"] := by simpa using hm
    unfold geneToRegions
    simp only [hm2, not_false_eq_true, if_true]
  refine ⟨⟨?_, ?_⟩, ?_⟩
  · rintro ⟨msg, hmsg⟩
    by_contra hcon
    have hmode : mode = "gene" ∨ mode = "exon" := by
      by_cases h1 : mode = "gene"
      · exact Or.inl h1
      · by_cases h2 : mode = "exon"
        · exact Or.inr h2
        · exact absurd ⟨h1, h2⟩ hcon
    obtain ⟨m2, hm2⟩ := geneToRegions_error_kind hmode hmsg
    cases hm2
  · intro hm
    exact ⟨_, by rw [hinv hm]⟩
  · intro hm
    rw [hinv hm]

/-- C12: for a valid mode and a gene for which `geneToApprovedID` returns `-1`,
`geneToRegions` returns the empty region list without an exception, with one message
when a message stream is supplied and none otherwise. -/
theorem C12_unresolved_gene_empty (H : Externals) (db : Store) (st : Statics) (gene : String)
    (source : SOURCE) (mode : String) (fallback annotate messages : Bool)
    (hmode : mode = "gene" ∨ mode = "exon")
    (hid : (geneToApprovedID H db st gene).1 = .ok (-1)) :
    (geneToRegions H db st gene source mode fallback annotate messages).1
      = .ok ([], if messages then
          ["Gene name '" ++ gene ++ "' is no HGNC-approved symbol. Skipping it!"] else []) := by
  have hm : mode ∈ ["gene", "exon"] := by
    rcases hmode with h | h <;> simp [h]
  unfold geneToRegions
  simp only [hm, not_true_eq_false, if_false]
  generalize hq : geneToApprovedID H db st gene = q at hid
  obtain ⟨r, st1⟩ := q
  simp only at hid
  subst hid
  simp

/-- C12, instance: the ambiguous symbol `BAR` of `storeAmbiguous` in exon mode with a
message stream. -/
theorem C12_unresolved_gene_empty_witness :
    (geneToApprovedID sampleExternals storeAmbiguous Statics.init "BAR").1 = .ok (-1) ∧
    (geneToRegions sampleExternals storeAmbiguous Statics.init "BAR" .CCDS "exon" true false
        true).1
      = .ok ([], ["Gene name 'BAR' is no HGNC-approved symbol. Skipping it!"]) :=
  ⟨by decide,
    C12_unresolved_gene_empty sampleExternals storeAmbiguous Statics.init "BAR" .CCDS "exon" true
      false true (Or.inr rfl) (by decide)⟩

/-- C17: for a valid mode, on a store with distinct gene symbols that hold no single
quote and no backslash (the query of `geneToApprovedID` has the symbol in its text),
`genesToRegions` returns the final sort applied to the concatenation, in the order of
the gene set, of the regions that `geneToRegions` returns for each gene, with the
messages of these calls; the call for every gene returns, and a gene for which
`geneToApprovedID` gives `-1` contributes no region. -/
theorem C17_genesToRegions_concat (H : Externals) (db : Store) (st : Statics) (genes : GeneSet)
    (source : SOURCE) (mode : String) (fallback annotate messages : Bool)
    (hmode : mode = "gene" ∨ mode = "exon") (hc : Coherent db st)
    (hnd : (db.gene.map fun g => g.symbol).Nodup)
    (hplain : ∀ g ∈ db.gene, sqlPlain g.symbol = true) :
    (genesToRegions H db st genes source mode fallback annotate messages).1
      = .ok (BedFile.sort (genes.elems.flatMap fun g =>
            okRegions (geneToRegions H db st g source mode fallback annotate messages).1)
          (!annotate),
          genes.elems.flatMap fun g =>
            okMessages (geneToRegions H db st g source mode fallback annotate messages).1) ∧
    (∀ g ∈ genes.elems,
      ∃ r, (geneToRegions H db st g source mode fallback annotate messages).1 = .ok r) ∧
    (∀ g ∈ genes.elems, (geneToApprovedID H db st g).1 = .ok (-1) →
      okRegions (geneToRegions H db st g source mode fallback annotate messages).1 = []) := by
  have hval : ∀ g, (geneToRegions H db st g source mode fallback annotate messages).1
      = regionsValue H db g source mode fallback annotate messages :=
    fun g => (geneToRegions_value H hc g source mode fallback annotate messages).1
  have hok : ∀ g ∈ genes.elems,
      ∃ r, regionsValue H db g source mode fallback annotate messages = .ok r :=
    fun g _ => regionsValue_ok H hnd hplain g source fallback annotate messages hmode
  refine ⟨?_, ?_, ?_⟩
  · simp only [hval]
    unfold genesToRegions
    have hl := genesToRegionsLoop_value H source mode fallback annotate messages genes.elems hok
      [] [] st hc
    generalize hq : genesToRegionsLoop H db source mode fallback annotate messages genes.elems
      [] [] st = q at hl
    obtain ⟨r1, st1⟩ := q
    simp only at hl
    subst hl
    simp
  · intro g hg
    rw [hval g]
    exact hok g hg
  · intro g _ hid
    have hm : mode ∈ ["gene", "exon"] := by
      rcases hmode with h | h <;> simp [h]
    unfold geneToRegions
    simp only [hm, not_true_eq_false, if_false]
    generalize hq : geneToApprovedID H db st g = q at hid
    obtain ⟨r, st1⟩ := q
    simp only at hid
    subst hid
    simp [okRegions]

/-- C17, instance: the gene set `BAR`, `FOO` on `storeFoo`, where `BAR` is unknown: the
regions are those of `FOO`, and the message for `BAR` is kept. -/
theorem C17_genesToRegions_concat_witness :
    Coherent storeFoo Statics.init ∧ (storeFoo.gene.map fun g => g.symbol).Nodup ∧
    (∀ g ∈ storeFoo.gene, sqlPlain g.symbol = true) ∧
    (genesToRegions sampleExternals storeFoo Statics.init ⟨["BAR", "FOO"]⟩ .CCDS "exon" false
        false true).1
      = .ok ([⟨"chr1", 20, 50, ["FOO"]⟩, ⟨"chr1", 60, 90, ["FOO"]⟩],
          ["Gene name 'BAR' is no HGNC-approved symbol. Skipping it!"]) :=
  ⟨coherent_init _, by decide, by decide,
    (C17_genesToRegions_concat sampleExternals storeFoo Statics.init ⟨["BAR", "FOO"]⟩ .CCDS "exon"
      false false true (Or.inr rfl) (coherent_init _) (by decide) (by decide)).1.trans
      (by decide)⟩

/-- C18: on statics that belong to the store snapshot, a second call of `geneToRegions`
with the same arguments, made on the statics that the first call leaves, has the same
outcome as the first call: the same ordered region list and messages, or the same
exception. The statics left by the first call belong to the snapshot again. -/
theorem C18_geneToRegions_repeatable (H : Externals) (db : Store) (st : Statics) (gene : String)
    (source : SOURCE) (mode : String) (fallback annotate messages : Bool)
    (hc : Coherent db st) :
    (geneToRegions H db (geneToRegions H db st gene source mode fallback annotate messages).2
        gene source mode fallback annotate messages).1
      = (geneToRegions H db st gene source mode fallback annotate messages).1 ∧
    Coherent db (geneToRegions H db st gene source mode fallback annotate messages).2 := by
  obtain ⟨h1, hc1⟩ := geneToRegions_value H hc gene source mode fallback annotate messages
  exact ⟨((geneToRegions_value H hc1 gene source mode fallback annotate messages).1).trans
    h1.symm, hc1⟩

/-- C18, instance: the first call for the alias `BAR` on the statics of process start
fills the approved set and the mapping; the second call reads them and returns the same
regions. -/
theorem C18_geneToRegions_repeatable_witness :
    Coherent storeAliasFallback Statics.init ∧
    (geneToRegions sampleExternals storeAliasFallback Statics.init "BAR" .CCDS "gene" true false
        false).2 = { approved := ⟨["BAZ"]⟩, mapping := [("BAR", "BAZ")] } ∧
    (geneToRegions sampleExternals storeAliasFallback Statics.init "BAR" .CCDS "gene" true false
        false).1 = .ok ([⟨"chr1", 10, 50, ["BAZ"]⟩], []) ∧
    (geneToRegions sampleExternals storeAliasFallback
        (geneToRegions sampleExternals storeAliasFallback Statics.init "BAR" .CCDS "gene" true
          false false).2 "BAR" .CCDS "gene" true false false).1
      = .ok ([⟨"chr1", 10, 50, ["BAZ"]⟩], []) :=
  ⟨coherent_init _, by decide, by decide,
    (C18_geneToRegions_repeatable sampleExternals storeAliasFallback Statics.init "BAR" .CCDS
      "gene" true false false (coherent_init _)).1.trans (by decide)⟩

/-- C13, the code at the failing input: gene `FOO` of `storeNoExon` has a CCDS transcript
(without exon rows) and an ENSEMBL transcript. In exon mode with `fallback` set the
CCDS request returns the region of the ENSEMBL transcript, and without `fallback` it
reports that no transcripts were found; in gene mode the same request returns the
region of the CCDS transcript only. -/
theorem C13_exon_mode_fallback_despite_source_transcript :
    sourceTranscripts sampleExternals storeNoExon 1 .CCDS
      = [⟨7, 1, "CCDS1", "ccds", "1", some 20, some 90, "+"⟩] ∧
    (geneToRegions sampleExternals storeNoExon Statics.init "FOO" .CCDS "exon" true false true).1
      = .ok ([⟨"chr2", 10, 50, ["FOO"]⟩], []) ∧
    (geneToRegions sampleExternals storeNoExon Statics.init "FOO" .CCDS "exon" false false true).1
      = .ok ([], ["No transcripts found for gene 'FOO'. Skipping it!"]) ∧
    (geneToRegions sampleExternals storeNoExon Statics.init "FOO" .CCDS "gene" true false true).1
      = .ok ([⟨"chr1", 0, 0, ["FOO"]⟩], []) := by
  decide

/-- C14: in mode `gene`, for a gene that resolves to the id `id`, `geneToRegions` returns
the final sort of a list of generated lines that has exactly one line per selected
transcript, in their order: the line of a transcript is on chromosome `chr` +
transcript chromosome and, when the transcript has exons, starts at the minimum of
their starts and ends at the maximum of their ends. -/
theorem C14_gene_mode_one_region_per_transcript (H : Externals) (db : Store) (st : Statics)
    (gene : String) (id : Int) (source : SOURCE) (fallback annotate messages : Bool)
    (hc : Coherent db st) (hid : (geneToApprovedID H db st gene).1 = .ok id) (hne : id ≠ -1) :
    ∃ (lines : BedFile) (msgs : List String),
      (geneToRegions H db st gene source "gene" fallback annotate messages).1
        = .ok (BedFile.sort lines (!annotate), msgs) ∧
      List.Forall₂ (SpansTranscript db) (selectedTranscripts H db id source fallback) lines := by
  obtain ⟨msgs, hmsgs⟩ := regionsValue_of_resolved hc source fallback annotate messages
    (Or.inl rfl) hid hne
  obtain ⟨annos, hannos⟩ := generatedLines_gene H db gene
    (bestEffort db gene H.geneToApproved_return_input_when_unconvertable) id source fallback
    annotate
  refine ⟨_, msgs, hmsgs, ?_⟩
  rw [hannos]
  exact geneModeLines_spans db annos _

/-- C14, instance: gene `FOO` of `storeOverlap` has two CCDS transcripts, with exons
(10,50), (60,100) and (40,65), (95,120); with transcript names the two generated regions
10..100 and 40..120 are returned. -/
theorem C14_gene_mode_one_region_per_transcript_witness :
    Coherent storeOverlap Statics.init ∧
    (geneToApprovedID sampleExternals storeOverlap Statics.init "FOO").1 = .ok 1 ∧
    (geneToRegions sampleExternals storeOverlap Statics.init "FOO" .CCDS "gene" false true
        false).1
      = .ok ([⟨"chr1", 10, 100, ["FOO CCDS1"]⟩, ⟨"chr1", 40, 120, ["FOO CCDS2"]⟩], []) ∧
    ∃ (lines : BedFile) (msgs : List String),
      (geneToRegions sampleExternals storeOverlap Statics.init "FOO" .CCDS "gene" false true
          false).1 = .ok (BedFile.sort lines (!true), msgs) ∧
      List.Forall₂ (SpansTranscript storeOverlap)
        (selectedTranscripts sampleExternals storeOverlap 1 .CCDS false) lines :=
  ⟨coherent_init _, by decide, by decide,
    C14_gene_mode_one_region_per_transcript sampleExternals storeOverlap Statics.init "FOO" 1
      .CCDS false true false (coherent_init _) (by decide) (by decide)⟩

/-- C15, the code at the failing input: `BAR` is a `previous` symbol of gene `BAZ`, which
has an ENSEMBL transcript only. With transcript names and `fallback`, the CCDS request
in exon mode annotates the region with `BAR ENST1`, the input symbol, while the same
request in gene mode annotates it with `BAZ ENST1`, the approved symbol. -/
theorem C15_exon_fallback_annotates_input_symbol :
    (geneToApproved sampleExternals storeAliasFallback Statics.init "BAR" false).1 = .ok "BAZ" ∧
    (geneToRegions sampleExternals storeAliasFallback Statics.init "BAR" .CCDS "exon" true true
        false).1 = .ok ([⟨"chr1", 10, 50, ["BAR ENST1"]⟩], []) ∧
    (geneToRegions sampleExternals storeAliasFallback Statics.init "BAR" .CCDS "gene" true true
        false).1 = .ok ([⟨"chr1", 10, 50, ["BAZ ENST1"]⟩], []) ∧
    (geneToRegions sampleExternals storeAliasFallback Statics.init "BAR" .ENSEMBL "exon" true true
        false).1 = .ok ([⟨"chr1", 10, 50, ["BAZ ENST1"]⟩], []) := by
  decide

/-- C16: with `annotate_transcript_names` set, for a valid mode and a gene that resolves
to the id `id`, the list that `geneToRegions` returns is a permutation of the lines
generated from the transcripts and is ordered by (chromosome, start). -/
theorem C16_annotated_only_sorted (H : Externals) (db : Store) (st : Statics) (gene : String)
    (id : Int) (source : SOURCE) (mode : String) (fallback messages : Bool)
    (hmode : mode = "gene" ∨ mode = "exon")
    (hc : Coherent db st) (hid : (geneToApprovedID H db st gene).1 = .ok id) (hne : id ≠ -1) :
    ∃ (regions : BedFile) (msgs : List String),
      (geneToRegions H db st gene source mode fallback true messages).1 = .ok (regions, msgs) ∧
      regions.Perm (generatedLines H db gene
        (bestEffort db gene H.geneToApproved_return_input_when_unconvertable) id source mode
        fallback true) ∧
      regions.Pairwise BedLine.le := by
  obtain ⟨msgs, hmsgs⟩ := regionsValue_of_resolved hc source fallback true messages hmode hid hne
  refine ⟨_, msgs, hmsgs, ?_, ?_⟩
  · simp only [BedFile.sort, Bool.not_true, Bool.false_eq_true, if_false]
    exact List.perm_insertionSort _ _
  · simp only [BedFile.sort, Bool.not_true, Bool.false_eq_true, if_false]
    exact sorted_insertionSort_le _

/-- C16, instance: the overlapping exon regions of the two transcripts of gene `FOO` in
`storeOverlap` are all returned, in the order of their starts. -/
theorem C16_annotated_only_sorted_witness :
    Coherent storeOverlap Statics.init ∧
    (geneToApprovedID sampleExternals storeOverlap Statics.init "FOO").1 = .ok 1 ∧
    generatedLines sampleExternals storeOverlap "FOO" "FOO" 1 .CCDS "exon" false true
      = [⟨"chr1", 20, 50, ["FOO CCDS1"]⟩, ⟨"chr1", 60, 90, ["FOO CCDS1"]⟩,
         ⟨"chr1", 40, 65, ["FOO CCDS2"]⟩, ⟨"chr1", 95, 99, ["FOO CCDS2"]⟩] ∧
    (geneToRegions sampleExternals storeOverlap Statics.init "FOO" .CCDS "exon" false true
        false).1
      = .ok ([⟨"chr1", 20, 50, ["FOO CCDS1"]⟩, ⟨"chr1", 40, 65, ["FOO CCDS2"]⟩,
          ⟨"chr1", 60, 90, ["FOO CCDS1"]⟩, ⟨"chr1", 95, 99, ["FOO CCDS2"]⟩], []) ∧
    ∃ (regions : BedFile) (msgs : List String),
      (geneToRegions sampleExternals storeOverlap Statics.init "FOO" .CCDS "exon" false true
          false).1 = .ok (regions, msgs) ∧
      regions.Perm (generatedLines sampleExternals storeOverlap "FOO"
        (bestEffort storeOverlap "FOO"
          sampleExternals.geneToApproved_return_input_when_unconvertable) 1 .CCDS "exon" false
        true) ∧
      regions.Pairwise BedLine.le :=
  ⟨coherent_init _, by decide, by decide, by decide,
    C16_annotated_only_sorted sampleExternals storeOverlap Statics.init "FOO" 1 .CCDS "exon" false
      false (Or.inr rfl) (coherent_init _) (by decide) (by decide)⟩

/-- C19: on statics that belong to the store, `phenotypeToGenes(term, false)` returns
after one iteration, and whenever the non-recursive and the recursive call both return
a gene set, every gene of the first is in the second; on an acyclic ontology the
recursive call returns. -/
theorem C19_direct_genes_subset_recursive (H : Externals) (db : Store) (st : Statics)
    (phenotype : Phenotype) (hc : Coherent db st) :
    (∃ r, ∀ fuel, phenotypeToGenes (fuel + 1) H db st phenotype false = some r) ∧
    (∀ (fuel1 fuel2 : Nat) (st2 : Statics) (g1 g2 : GeneSet) (s1 s2 : Statics),
      Coherent db st2 →
      phenotypeToGenes fuel1 H db st phenotype false = some (.ok g1, s1) →
      phenotypeToGenes fuel2 H db st2 phenotype true = some (.ok g2, s2) →
      ∀ x ∈ g1.elems, x ∈ g2.elems) ∧
    (Acyclic db → ∃ k r, ∀ fuel, phenotypeToGenes (fuel + k) H db st phenotype true = some r) := by
  refine ⟨?_, ?_, phenotypeToGenes_returns H db st phenotype⟩
  · unfold phenotypeToGenes
    cases (db.hpo_term.filter fun t => t.name == phenotype.name).head? with
    | none => exact ⟨_, fun _ => rfl⟩
    | some tmp =>
      obtain ⟨st1, h1, _⟩ := addGenesOfTerm_value H
        ((db.hpo_genes.filter fun r => r.hpo_term_id == tmp.id).map fun r => r.gene) {} st hc
      refine ⟨(.ok (((db.hpo_genes.filter fun r => r.hpo_term_id == tmp.id).map
        fun r => r.gene).foldl (fun a g => a.insert (bestEffort db g true)) {}), st1),
        fun fuel => ?_⟩
      have := phenotypeToGenesLoop_step H db false fuel [] tmp.id {} st
      simp only [List.nil_append] at this
      simp only [this, h1, Bool.false_eq_true, if_false, phenotypeToGenesLoop_nil]
  · intro fuel1 fuel2 st2 g1 g2 s1 s2 hc2 h1 h2 x hx
    unfold phenotypeToGenes at h1 h2
    cases hh : (db.hpo_term.filter fun t => t.name == phenotype.name).head? with
    | none =>
      rw [hh] at h1
      cases h1
    | some tmp =>
      rw [hh] at h1 h2
      simp only at h1 h2
      obtain ⟨st1, ha1, _⟩ := addGenesOfTerm_value H
        ((db.hpo_genes.filter fun r => r.hpo_term_id == tmp.id).map fun r => r.gene) {} st hc
      obtain ⟨st3, ha2, hc3⟩ := addGenesOfTerm_value H
        ((db.hpo_genes.filter fun r => r.hpo_term_id == tmp.id).map fun r => r.gene) {} st2 hc2
      cases fuel1 with
      | zero => simp [phenotypeToGenesLoop] at h1
      | succ f1 =>
        cases fuel2 with
        | zero => simp [phenotypeToGenesLoop] at h2
        | succ f2 =>
          have e1 := phenotypeToGenesLoop_step H db false f1 [] tmp.id {} st
          have e2 := phenotypeToGenesLoop_step H db true f2 [] tmp.id {} st2
          simp only [List.nil_append] at e1 e2
          rw [e1, ha1] at h1
          rw [e2, ha2] at h2
          simp only [Bool.false_eq_true, if_false, phenotypeToGenesLoop_nil, Option.some.injEq,
            Prod.mk.injEq, Except.ok.injEq] at h1
          rw [← h1.1] at hx
          exact phenotypeToGenesLoop_mono H true _ _ _ _ g2 s2 hc3 h2 x hx

/-- C19, instance: term `A` of `storeDiamond`; its own gene is `FOO`, the recursive call
adds the genes of term `D`. -/
theorem C19_direct_genes_subset_recursive_witness :
    Coherent storeDiamond Statics.init ∧
    (phenotypeToGenes 10 sampleExternals storeDiamond Statics.init ⟨"HP:1", "A"⟩ false).map
      (fun r => r.1) = some (.ok ⟨["FOO"]⟩) ∧
    (phenotypeToGenes 10 sampleExternals storeDiamond Statics.init ⟨"HP:1", "A"⟩ true).map
      (fun r => r.1) = some (.ok ⟨["FOO", "BAZ", "QUX"]⟩) ∧
    ∀ x ∈ (⟨["FOO"]⟩ : GeneSet).elems, x ∈ (⟨["FOO", "BAZ", "QUX"]⟩ : GeneSet).elems :=
  ⟨coherent_init _, by decide, by decide,
    (C19_direct_genes_subset_recursive sampleExternals storeDiamond Statics.init ⟨"HP:1", "A"⟩
      (coherent_init _)).2.1 10 10 Statics.init ⟨["FOO"]⟩ ⟨["FOO", "BAZ", "QUX"]⟩
      { approved := ⟨["FOO", "BAZ"]⟩, mapping := [] }
      { approved := ⟨["FOO", "BAZ"]⟩, mapping := [("QUX", ""), ("BAR", "BAZ")] }
      (coherent_init _) (by decide) (by decide)⟩

/-- C20, refuted as stated: on the cycle of `storeCycle` (term `A` has child `B`, term
`B` has child `A`) neither `phenotypeToGenes(A, true)` nor `phenotypeChildTems(A, true)`
returns, for any number of iterations; on the acyclic `storeDiamond` term `D`, reached
through `B` and through `C`, is visited twice and listed twice. -/
theorem C20_counterexample :
    (¬ ∃ fuel r,
      phenotypeToGenes fuel sampleExternals storeCycle Statics.init ⟨"HP:1", "A"⟩ true = some r) ∧
    (¬ ∃ fuel r, phenotypeChildTems fuel storeCycle ⟨"HP:1", "A"⟩ true = some r) ∧
    phenotypeChildTems 5 storeDiamond ⟨"HP:1", "A"⟩ true
      = some (.ok [⟨"HP:2", "B"⟩, ⟨"HP:3", "C"⟩, ⟨"HP:4", "D"⟩, ⟨"HP:4", "D"⟩]) := by
  refine ⟨?_, ?_, by decide⟩
  · rintro ⟨fuel, r, h⟩
    have hh : phenotypeToGenes fuel sampleExternals storeCycle Statics.init ⟨"HP:1", "A"⟩ true
        = phenotypeToGenesLoop sampleExternals storeCycle true fuel [1] {} Statics.init := rfl
    rw [hh, (phenotypeToGenesLoop_cycle sampleExternals fuel).1] at h
    cases h
  · rintro ⟨fuel, r, h⟩
    have hh : phenotypeChildTems fuel storeCycle ⟨"HP:1", "A"⟩ true
        = (phenotypeChildTemsLoop storeCycle true fuel [1] []).map .ok := rfl
    rw [hh, (phenotypeChildTemsLoop_cycle fuel).1] at h
    cases h

/-- C20, amended: on every acyclic parent→child relation `phenotypeToGenes(term, true)`
and `phenotypeChildTems(term, true)` terminate: from some number of iterations on, each
returns the same outcome for every bound on the iterations. -/
theorem C20_traversals_terminate_acyclic (H : Externals) (db : Store) (st : Statics)
    (phenotype : Phenotype) (h : Acyclic db) :
    (∃ k r, ∀ fuel, phenotypeToGenes (fuel + k) H db st phenotype true = some r) ∧
    (∃ k r, ∀ fuel, phenotypeChildTems (fuel + k) db phenotype true = some r) :=
  ⟨phenotypeToGenes_returns H db st phenotype h, phenotypeChildTems_returns db phenotype h⟩

/-- C20, instance: `storeDiamond` is acyclic, with rank 2 for `A`, 1 for `B` and `C` and
0 for `D`. -/
theorem C20_traversals_terminate_acyclic_witness :
    Acyclic storeDiamond ∧
    (∃ k r, ∀ fuel, phenotypeToGenes (fuel + k) sampleExternals storeDiamond Statics.init
      ⟨"HP:1", "A"⟩ true = some r) ∧
    (∃ k r, ∀ fuel, phenotypeChildTems (fuel + k) storeDiamond ⟨"HP:1", "A"⟩ true = some r) :=
  have hacyc : Acyclic storeDiamond := ⟨rankDiamond, by decide⟩
  ⟨hacyc, C20_traversals_terminate_acyclic sampleExternals storeDiamond Statics.init
    ⟨"HP:1", "A"⟩ hacyc⟩

/-- C29: for the empty gene set `genesToRegions` returns the empty region list for
every mode text, and for a mode other than `gene` and `exon` it throws an
`ArgumentException` iff the gene set is not empty. -/
theorem C29_mode_checked_per_gene (H : Externals) (db : Store) (st : Statics) (genes : GeneSet)
    (source : SOURCE) (mode : String) (fallback annotate messages : Bool) :
    (genes.elems = [] →
      (genesToRegions H db st genes source mode fallback annotate messages).1 = .ok ([], [])) ∧
    ((mode ≠ "gene" ∧ mode ≠ "exon") →
      ((∃ msg, (genesToRegions H db st genes source mode fallback annotate messages).1
          = .error (.ArgumentException msg)) ↔ genes.elems ≠ [])) := by
  have hempty : genes.elems = [] →
      (genesToRegions H db st genes source mode fallback annotate messages).1 = .ok ([], []) := by
    intro h
    unfold genesToRegions
    rw [h]
    cases annotate <;> rfl
  refine ⟨hempty, ?_⟩
  intro hm
  constructor
  · rintro ⟨msg, hmsg⟩ hnil
    rw [hempty hnil] at hmsg
    cases hmsg
  · intro hne
    have hm2 : ¬ mode ∈ ["gene", "exon"] := by simpa using hm
    cases hg : genes.elems with
    | nil => exact absurd hg hne
    | cons g t =>
      refine ⟨"Invalid mode '" ++ mode ++ "'. Valid modes are: "
        ++ ", ".intercalate ["gene", "exon"] ++ ".", ?_⟩
      unfold genesToRegions
      rw [hg]
      unfold genesToRegionsLoop geneToRegions
      simp only [hm2, not_false_eq_true, if_true]

/-- C29, instance: the mode `bogus` with the gene set of `FOO` and with the empty gene
set. -/
theorem C29_mode_checked_per_gene_witness :
    ("bogus" ≠ "gene" ∧ "bogus" ≠ "exon") ∧
    (genesToRegions sampleExternals storeFoo Statics.init ⟨[]⟩ .CCDS "bogus" false false
      false).1 = .ok ([], []) ∧
    ((∃ msg, (genesToRegions sampleExternals storeFoo Statics.init ⟨["FOO"]⟩ .CCDS "bogus" false
        false false).1 = .error (.ArgumentException msg)) ↔
      (⟨["FOO"]⟩ : GeneSet).elems ≠ []) :=
  ⟨⟨by decide, by decide⟩, by decide,
    (C29_mode_checked_per_gene sampleExternals storeFoo Statics.init ⟨["FOO"]⟩ .CCDS "bogus"
      false false false).2 ⟨by decide, by decide⟩⟩

/-- C30: the result of `escapeForSql` is the trimmed input with the double quotes, single
quotes, semicolons and newlines deleted, all other characters kept in their order, and
it contains none of these four characters. -/
theorem C30_escapeForSql_deletes_special (text : String) :
    (escapeForSql text).data
      = (trimmedQString text).data.filter (fun c => !(sqlSpecialChars.contains c)) ∧
    ∀ c ∈ (escapeForSql text).data, c ∉ sqlSpecialChars := by
  have heq : (escapeForSql text).data
      = (trimmedQString text).data.filter (fun c => !(sqlSpecialChars.contains c)) := by
    unfold escapeForSql removeChar
    simp only [List.filter_filter]
    apply List.filter_congr
    intro c _
    simp only [sqlSpecialChars, List.contains_cons, List.contains_nil, Bool.or_false, bne,
      Bool.not_or]
    cases h1 : (c == Char.ofNat 34) <;> cases h2 : (c == Char.ofNat 39) <;>
      cases h3 : (c == ';') <;> cases h4 : (c == '\n') <;> rfl
  refine ⟨heq, ?_⟩
  intro c hc hmem
  rw [heq, List.mem_filter] at hc
  have : sqlSpecialChars.contains c = true := by simpa using hmem
  rw [this] at hc
  exact absurd hc.2 (by decide)

/-- C25: for a non-empty candidate list `longestCodingTranscript` returns an element of
the list whose base count is greater than or equal to that of every candidate, and the
candidates before it in the list have a smaller base count: it is the first candidate
with the maximal base count. -/
theorem C25_longest_is_first_maximum (H : Externals) (db : Store) (gene_id : Int)
    (source : SOURCE) (fallback_alt_source fallback_alt_source_nocoding : Bool)
    (hne : longestCodingTranscriptList H db gene_id source fallback_alt_source
      fallback_alt_source_nocoding ≠ []) :
    ∃ pre post : List Transcript,
      longestCodingTranscriptList H db gene_id source fallback_alt_source
          fallback_alt_source_nocoding
        = pre ++ longestCodingTranscript H db gene_id source fallback_alt_source
            fallback_alt_source_nocoding :: post ∧
      (∀ t ∈ pre, t.regions.baseCount
        < (longestCodingTranscript H db gene_id source fallback_alt_source
            fallback_alt_source_nocoding).regions.baseCount) ∧
      (∀ t ∈ longestCodingTranscriptList H db gene_id source fallback_alt_source
          fallback_alt_source_nocoding,
        t.regions.baseCount
          ≤ (longestCodingTranscript H db gene_id source fallback_alt_source
              fallback_alt_source_nocoding).regions.baseCount) := by
  unfold longestCodingTranscript
  cases hl : longestCodingTranscriptList H db gene_id source fallback_alt_source
      fallback_alt_source_nocoding with
  | nil => exact absurd hl hne
  | cons first rest =>
    obtain ⟨pre, post, heq, hpre, hpost⟩ := maxElement_spec rest first
    refine ⟨pre, post, heq, hpre, ?_⟩
    intro t ht
    rw [heq] at ht
    rcases List.mem_append.mp ht with h | h
    · exact Int.le_of_lt (hpre t h)
    · rcases List.mem_cons.mp h with rfl | h
      · exact Int.le_refl _
      · exact hpost t h

/-- C25, instance: of the candidates `T1` (10 bases), `T2` and `T3` (30 bases each) of
`storeTie` the transcript `T2` is returned. -/
theorem C25_longest_is_first_maximum_witness :
    (longestCodingTranscriptList sampleExternals storeTie 1 .CCDS false false).map
      (fun t => (t.name, t.regions.baseCount)) = [("T1", 10), ("T2", 30), ("T3", 30)] ∧
    (longestCodingTranscript sampleExternals storeTie 1 .CCDS false false).name = "T2" ∧
    ∃ pre post : List Transcript,
      longestCodingTranscriptList sampleExternals storeTie 1 .CCDS false false
        = pre ++ longestCodingTranscript sampleExternals storeTie 1 .CCDS false false :: post ∧
      (∀ t ∈ pre, t.regions.baseCount
        < (longestCodingTranscript sampleExternals storeTie 1 .CCDS false
            false).regions.baseCount) ∧
      (∀ t ∈ longestCodingTranscriptList sampleExternals storeTie 1 .CCDS false false,
        t.regions.baseCount
          ≤ (longestCodingTranscript sampleExternals storeTie 1 .CCDS false
              false).regions.baseCount) :=
  ⟨by decide, by decide,
    C25_longest_is_first_maximum sampleExternals storeTie 1 .CCDS false false (by decide)⟩

/-- C26: the candidate list of `longestCodingTranscript` is the list of the coding
transcripts of `source` when this is not empty; else the list of the coding transcripts
of the alternate source when `fallback_alt_source` is set and this is not empty; else
the list of all transcripts of the alternate source when `fallback_alt_source_nocoding`
is set; else empty. `CCDS` and `ENSEMBL` are the alternate of each other, and for an
empty candidate list the default-constructed transcript is returned. -/
theorem C26_candidate_fallback_chain (H : Externals) (db : Store) (gene_id : Int)
    (source : SOURCE) (fallback_alt_source fallback_alt_source_nocoding : Bool) :
    (transcripts H db gene_id source true ≠ [] →
      longestCodingTranscriptList H db gene_id source fallback_alt_source
        fallback_alt_source_nocoding = transcripts H db gene_id source true) ∧
    (transcripts H db gene_id source true = [] → fallback_alt_source = true →
      transcripts H db gene_id (alt_source source) true ≠ [] →
      longestCodingTranscriptList H db gene_id source fallback_alt_source
        fallback_alt_source_nocoding = transcripts H db gene_id (alt_source source) true) ∧
    (transcripts H db gene_id source true = [] →
      (fallback_alt_source = false ∨ transcripts H db gene_id (alt_source source) true = []) →
      longestCodingTranscriptList H db gene_id source fallback_alt_source
          fallback_alt_source_nocoding
        = if fallback_alt_source_nocoding then transcripts H db gene_id (alt_source source) false
          else []) ∧
    (alt_source .CCDS = .ENSEMBL ∧ alt_source .ENSEMBL = .CCDS) ∧
    (longestCodingTranscriptList H db gene_id source fallback_alt_source
        fallback_alt_source_nocoding = [] →
      longestCodingTranscript H db gene_id source fallback_alt_source
        fallback_alt_source_nocoding = {}) := by
  refine ⟨?_, ?_, ?_, ⟨rfl, rfl⟩, ?_⟩
  · intro h
    unfold longestCodingTranscriptList
    cases hl : transcripts H db gene_id source true with
    | nil => exact absurd hl h
    | cons a l => simp
  · intro h hf h2
    unfold longestCodingTranscriptList
    cases hl : transcripts H db gene_id (alt_source source) true with
    | nil => exact absurd hl h2
    | cons a l => simp [h, hf, hl]
  · intro h h2
    unfold longestCodingTranscriptList
    rcases h2 with h2 | h2
    · cases fallback_alt_source_nocoding <;> simp [h, h2]
    · cases fallback_alt_source <;> cases fallback_alt_source_nocoding <;> simp [h, h2]
  · intro h
    unfold longestCodingTranscript
    rw [h]

/-- C26, instance: gene 1 of `storeTie` has CCDS transcripts only; for the source
`ENSEMBL` the candidates are the coding CCDS transcripts when `fallback_alt_source` is
set. -/
theorem C26_candidate_fallback_chain_witness :
    transcripts sampleExternals storeTie 1 .ENSEMBL true = [] ∧
    transcripts sampleExternals storeTie 1 (alt_source .ENSEMBL) true ≠ [] ∧
    longestCodingTranscriptList sampleExternals storeTie 1 .ENSEMBL true false
      = transcripts sampleExternals storeTie 1 (alt_source .ENSEMBL) true ∧
    longestCodingTranscriptList sampleExternals storeTie 1 .ENSEMBL false false = [] :=
  ⟨by decide, by decide,
    (C26_candidate_fallback_chain sampleExternals storeTie 1 .ENSEMBL true false).2.1
      (by decide) rfl (by decide), by decide⟩

/-- C27: for a coding region `sc..ec` and an exon `s ≤ e`, a region that the exon-mode
loop of `geneToRegions` appends, and a region that the loop of `transcripts` appends
with `coding_only` set, starts at or after `sc`, ends at or before `ec` and does not
end before it starts. The bound `sc ≤ ec` of the claim is not needed: no region is
appended without it. -/
theorem C27_clipped_region_well_formed (sc ec s e : Int) (h2 : s ≤ e) :
    (∀ r, exonRegion (some sc) (some ec) s e = some r → sc ≤ r.1 ∧ r.1 ≤ r.2 ∧ r.2 ≤ ec) ∧
    (∀ r, codingExonRegion true sc ec s e = some r → sc ≤ r.1 ∧ r.1 ≤ r.2 ∧ r.2 ≤ ec) := by
  refine ⟨?_, ?_⟩
  · intro r hr
    unfold exonRegion at hr
    simp only [Option.isSome_some, Bool.and_self, if_true, Option.getD_some] at hr
    split at hr
    · cases hr
    · cases hr
      simp only
      omega
  · intro r hr
    unfold codingExonRegion at hr
    simp only [if_true] at hr
    split at hr
    · cases hr
    · cases hr
      simp only
      omega

/-- C27, instance: coding region 100..500 and exon (80,120). -/
theorem C27_clipped_region_well_formed_witness :
    (100 : Int) ≤ 500 ∧ (80 : Int) ≤ 120 ∧
    exonRegion (some 100) (some 500) 80 120 = some (100, 120) ∧
    codingExonRegion true 100 500 80 120 = some (100, 120) ∧
    ((100 : Int) ≤ 100 ∧ (100 : Int) ≤ 120 ∧ (120 : Int) ≤ 500) :=
  ⟨by decide, by decide, by decide, by decide,
    (C27_clipped_region_well_formed 100 500 80 120 (by decide)).1 (100, 120) (by decide)⟩

/-- C24, counterexample: on chromosome `2` of `storeIndex` the span 900..1100 of `AAA`
intersects the range from `1000 - 1` to `2147483647 + 1`, but the call with start 1000,
end 2147483647 and extend 1 returns no gene: the bound `end+extend` is computed in
`int` and is negative. -/
theorem C24_counterexample :
    IndexCoherent storeIndex {} ∧
    (genesOverlapping storeIndex {} "2" 1000 2147483647 1).1 = ⟨[]⟩ ∧
    (∃ g ∈ storeIndex.gene, ∃ t ∈ storeIndex.gene_transcript, t.gene_id = g.id ∧
      g.symbol = "AAA" ∧ t.chromosome = "2" ∧ exonsOf storeIndex t ≠ [] ∧
      spanStart storeIndex t = 900 ∧ spanEnd storeIndex t = 1100 ∧
      spanStart storeIndex t ≤ 2147483647 + 1 ∧ 1000 - 1 ≤ spanEnd storeIndex t) ∧
    wrapInt (2147483647 + 1) = -2147483648 :=
  ⟨indexCoherent_init storeIndex, by decide,
    ⟨⟨1, "AAA"⟩, by decide, ⟨11, 1, "T1", "ccds", "2", none, none, "+"⟩, by decide, by decide⟩,
    by decide⟩

/-- C24, amended: on index statics that belong to the store, and for arguments whose
bounds `start - extend` and `end + extend` are values of type `int` (no overflow),
`genesOverlapping(chr, start, end, extend)` returns exactly the symbols of the genes
that have a transcript (with exons) on chromosome `chr` whose span from its minimum
exon start to its maximum exon end intersects `[start - extend, end + extend]`; the
statics it leaves belong to the store again. -/
theorem C24_genesOverlapping_exact (db : Store) (st : IndexStatics)
    (hc : IndexCoherent db st) (chr : String) (start end_ extend : Int)
    (hlo : InIntRange (start - extend)) (hhi : InIntRange (end_ + extend)) :
    (∀ x, x ∈ (genesOverlapping db st chr start end_ extend).1.elems ↔
      ∃ g ∈ db.gene, ∃ t ∈ db.gene_transcript, t.gene_id = g.id ∧ g.symbol = x ∧
        t.chromosome = chr ∧ exonsOf db t ≠ [] ∧
        spanStart db t ≤ end_ + extend ∧ start - extend ≤ spanEnd db t) ∧
    IndexCoherent db (genesOverlapping db st chr start end_ extend).2 := by
  refine ⟨fun x => ?_, ?_⟩
  · rw [mem_genesOverlapping hc chr start end_ extend x, wrapInt_of_inRange hlo,
      wrapInt_of_inRange hhi]
  · unfold genesOverlapping
    simp only [genesOverlapping_bed hc]
    exact ⟨Or.inr rfl, hc.2⟩

/-- C24, instance: on chromosome `2` the range 1000..2000 meets the spans of `AAA` and
`BBB`; extended by 25 it also meets the span 2020..2100 of `DDD`. -/
theorem C24_genesOverlapping_exact_witness :
    IndexCoherent storeIndex {} ∧ InIntRange (1000 - 25) ∧ InIntRange (2000 + 25) ∧
    (genesOverlapping storeIndex {} "2" 1000 2000 0).1 = ⟨["AAA", "BBB"]⟩ ∧
    (genesOverlapping storeIndex {} "2" 1000 2000 25).1 = ⟨["AAA", "BBB", "DDD"]⟩ ∧
    ("DDD" ∈ (genesOverlapping storeIndex {} "2" 1000 2000 25).1.elems ↔
      ∃ g ∈ storeIndex.gene, ∃ t ∈ storeIndex.gene_transcript, t.gene_id = g.id ∧
        g.symbol = "DDD" ∧ t.chromosome = "2" ∧ exonsOf storeIndex t ≠ [] ∧
        spanStart storeIndex t ≤ 2000 + 25 ∧ 1000 - 25 ≤ spanEnd storeIndex t) :=
  ⟨indexCoherent_init storeIndex, by decide, by decide, by decide, by decide,
    (C24_genesOverlapping_exact storeIndex {} (indexCoherent_init storeIndex)
      "2" 1000 2000 25 (by decide) (by decide)).1 "DDD"⟩

/-- C28: on index statics that belong to the store, every symbol that
`genesOverlappingByExon` returns for a chromosome, a range and an extension is also
returned by `genesOverlapping` for the same arguments. -/
theorem C28_byExon_subset (db : Store) (st1 st2 : IndexStatics)
    (hc1 : IndexCoherent db st1) (hc2 : IndexCoherent db st2)
    (chr : String) (start end_ extend : Int) :
    ∀ x ∈ (genesOverlappingByExon db st1 chr start end_ extend).1.elems,
      x ∈ (genesOverlapping db st2 chr start end_ extend).1.elems := by
  intro x hx
  rw [mem_genesOverlappingByExon hc1] at hx
  rw [mem_genesOverlapping hc2]
  obtain ⟨g, hg, t, ht, hid, hsym, hchr, e, he, h1, h2⟩ := hx
  have hne : exonsOf db t ≠ [] := List.ne_nil_of_mem he
  have hs : (exonsOf db t).map (fun e => e.start) ≠ [] := by
    simpa using hne
  have hE : (exonsOf db t).map (fun e => e.end_) ≠ [] := by
    simpa using hne
  have hmin := (aggToInt_min_spec hs).2 e.start (List.mem_map.mpr ⟨e, he, rfl⟩)
  have hmax := (aggToInt_max_spec hE).2 e.end_ (List.mem_map.mpr ⟨e, he, rfl⟩)
  refine ⟨g, hg, t, ht, hid, hsym, hchr, hne, ?_, ?_⟩
  · exact le_trans hmin h1
  · exact le_trans h2 hmax

/-- C28, instance: in the range 1700..2000 of chromosome `2` no exon lies, so the exon
query returns nothing, while the span of `BBB` covers the range. -/
theorem C28_byExon_subset_witness :
    (genesOverlappingByExon storeIndex {} "2" 1000 2000 0).1 = ⟨["AAA", "BBB"]⟩ ∧
    (genesOverlappingByExon storeIndex {} "2" 1700 2000 0).1 = ⟨[]⟩ ∧
    (genesOverlapping storeIndex {} "2" 1700 2000 0).1 = ⟨["BBB"]⟩ ∧
    ∀ x ∈ (genesOverlappingByExon storeIndex {} "2" 1000 2000 0).1.elems,
      x ∈ (genesOverlapping storeIndex {} "2" 1000 2000 0).1.elems :=
  ⟨by decide, by decide, by decide,
    C28_byExon_subset storeIndex {} {} (indexCoherent_init storeIndex)
      (indexCoherent_init storeIndex) "2" 1000 2000 0⟩

/-- C23: the list returned by `phenotypes(search_terms)` is in ascending order of the
names; it has no phenotype twice when a term is left after trimming, and for every
list of terms when no two rows of the table give the same phenotype. -/
theorem C23_phenotypes_sorted_nodup (db : Store) (search_terms : List String) :
    (phenotypes db search_terms).Pairwise nameLe ∧
    ((∃ t ∈ search_terms, trimmedQString t ≠ "") → (phenotypes db search_terms).Nodup) ∧
    ((db.hpo_term.map HpoTermRow.phenotype).Nodup → (phenotypes db search_terms).Nodup) := by
  rcases phenotypes_eq db search_terms with ⟨hnil, heq⟩ | ⟨t, l, hcons, heq⟩
  · rw [heq]
    refine ⟨sorted_sortByName _, ?_, fun h => (perm_sortByName _).nodup_iff.mpr h⟩
    rintro ⟨t, ht, hne⟩
    have : trimmedQString t ∈
        (search_terms.map trimmedQString).filter (fun term => term != "") := by
      simp only [List.mem_filter, List.mem_map, bne_iff_ne, ne_eq]
      exact ⟨⟨t, ht, rfl⟩, hne⟩
    rw [hnil] at this
    cases this
  · rw [heq]
    have hn := (perm_sortByName _).nodup_iff.mpr (searchLoop_spec db t l).1
    exact ⟨sorted_sortByName _, fun _ => hn, fun _ => hn⟩

/-- C23, instance: the four phenotypes of `storeSearch` have different accessions; all
of them are returned in the order of their names for no term, three of them for the
term `ab`. -/
theorem C23_phenotypes_sorted_nodup_witness :
    (storeSearch.hpo_term.map HpoTermRow.phenotype).Nodup ∧
    phenotypes storeSearch [] = [⟨"HP:0000002", "abc"⟩, ⟨"HP:0000001", "cab"⟩,
      ⟨"HP:0000004", "mn"⟩, ⟨"HP:0000003", "zeta"⟩] ∧
    (phenotypes storeSearch []).Pairwise nameLe ∧ (phenotypes storeSearch []).Nodup ∧
    (phenotypes storeSearch ["ab"]).Nodup :=
  have hkey : (storeSearch.hpo_term.map HpoTermRow.phenotype).Nodup := by decide
  ⟨hkey, by decide, (C23_phenotypes_sorted_nodup storeSearch []).1,
    (C23_phenotypes_sorted_nodup storeSearch []).2.2 hkey,
    (C23_phenotypes_sorted_nodup storeSearch ["ab"]).2.1 ⟨"ab", by simp, by decide⟩⟩

/-- C21, counterexample: the raw symbol `qux` of term `B` is unknown, and the recursive
call on term `A` of `storeRaw` returns `FOO` and `QUX`: the unknown symbol is in the
result in upper case, not as itself. -/
theorem C21_counterexample :
    Acyclic storeRaw ∧
    (approvedGeneNames storeRaw Statics.init).1.contains (toUpper (trimmed "qux")) = false ∧
    Unknown storeRaw (toUpper (trimmed "qux")) ∧
    (phenotypeToGenes 5 sampleExternals storeRaw Statics.init ⟨"HP:1", "A"⟩ true).map
      (fun r => r.1) = some (.ok ⟨["FOO", "QUX"]⟩) ∧
    (phenotypeToGenes 5 sampleExternals storeRaw Statics.init ⟨"HP:2", "B"⟩ false).map
      (fun r => r.1) = some (.ok ⟨["QUX"]⟩) ∧
    "qux" ∉ (⟨["FOO", "QUX"]⟩ : GeneSet).elems :=
  ⟨⟨fun id => if id = 1 then 1 else 0, by decide⟩, by decide, by decide, by decide, by decide,
    by decide⟩

/-- C21, amended: on statics that belong to the store, for a term of the table (on an
acyclic ontology when the call is recursive), `phenotypeToGenes(term, recursive)`
returns, and its result has exactly the values `geneToApproved(g, true)` of the raw
symbols `g` of the terms in scope: the term itself, and for a recursive call every term
reachable from it through child edges. A raw symbol in scope that is not resolved is in
the result in its trimmed upper-case form. -/
theorem C21_phenotypeToGenes_collects (H : Externals) (db : Store) (st : Statics)
    (phenotype : Phenotype) (recursive : Bool) (tmp : HpoTermRow) (hc : Coherent db st)
    (hterm : (db.hpo_term.filter fun t => t.name == phenotype.name).head? = some tmp)
    (hacyc : recursive = true → Acyclic db) :
    ∃ (k : Nat) (genes : GeneSet) (st2 : Statics),
      (∀ fuel, phenotypeToGenes (fuel + k) H db st phenotype recursive = some (.ok genes, st2)) ∧
      (∀ x, x ∈ genes.elems ↔ ∃ r ∈ db.hpo_genes,
        InScope db recursive tmp.id r.hpo_term_id ∧
        (geneToApproved H db st r.gene true).1 = .ok x) ∧
      (∀ r ∈ db.hpo_genes, InScope db recursive tmp.id r.hpo_term_id →
        (approvedGeneNames db st).1.contains (toUpper (trimmed r.gene)) = false →
        (Ambiguous db (toUpper (trimmed r.gene)) ∨ Unknown db (toUpper (trimmed r.gene))) →
        toUpper (trimmed r.gene) ∈ genes.elems) := by
  have hval : ∀ (g x : String),
      (geneToApproved H db st g true).1 = .ok x ↔ bestEffort db g true = x := by
    intro g x
    rw [geneToApproved_eq_bestEffort H hc]
    exact ⟨fun h => by cases h; rfl, fun h => by rw [h]⟩
  have hlast : ∀ (genes : GeneSet),
      (∀ x, x ∈ genes.elems ↔ ∃ r ∈ db.hpo_genes,
        InScope db recursive tmp.id r.hpo_term_id ∧
        (geneToApproved H db st r.gene true).1 = .ok x) →
      ∀ r ∈ db.hpo_genes, InScope db recursive tmp.id r.hpo_term_id →
        (approvedGeneNames db st).1.contains (toUpper (trimmed r.gene)) = false →
        (Ambiguous db (toUpper (trimmed r.gene)) ∨ Unknown db (toUpper (trimmed r.gene))) →
        toUpper (trimmed r.gene) ∈ genes.elems := by
    intro genes hm r hr hin hn hu
    rw [approvedGeneNames_contains hc] at hn
    exact (hm _).mpr ⟨r, hr, hin, (hval _ _).mpr (bestEffort_unresolved db r.gene hn hu)⟩
  unfold phenotypeToGenes
  rw [hterm]
  simp only
  cases recursive with
  | false =>
    obtain ⟨st1, h1, _⟩ := addGenesOfTerm_value H
      ((db.hpo_genes.filter fun r => r.hpo_term_id == tmp.id).map fun r => r.gene) {} st hc
    have hm : ∀ x, x ∈ (List.foldl (fun (a : GeneSet) g => a.insert (bestEffort db g true)) {}
        ((db.hpo_genes.filter fun r => r.hpo_term_id == tmp.id).map fun r => r.gene)).elems ↔
        ∃ r ∈ db.hpo_genes, InScope db false tmp.id r.hpo_term_id ∧
          (geneToApproved H db st r.gene true).1 = .ok x := by
      intro x
      rw [mem_genesOfTerm]
      unfold InScope
      constructor
      · rintro (h | ⟨r, hr, hid, hx⟩)
        · cases h
        · exact ⟨r, hr, Or.inl hid, (hval _ _).mpr hx⟩
      · rintro ⟨r, hr, hin, hx⟩
        rcases hin with hid | ⟨hf, _⟩
        · exact Or.inr ⟨r, hr, hid, (hval _ _).mp hx⟩
        · cases hf
    refine ⟨1, _, st1, fun fuel => ?_, hm, hlast _ hm⟩
    have := phenotypeToGenesLoop_step H db false fuel [] tmp.id {} st
    simp only [List.nil_append] at this
    simp only [this, h1, Bool.false_eq_true, if_false, phenotypeToGenesLoop_nil]
  | true =>
    obtain ⟨rank, hrank⟩ := hacyc rfl
    obtain ⟨k, genes2, st2, _, hk, hm2⟩ := phenotypeToGenesLoop_collects H db rank hrank
      (rank tmp.id + 1) [tmp.id] (fun x hx => by rw [List.mem_singleton.mp hx]; omega) [] {} st hc
    have hm : ∀ x, x ∈ genes2.elems ↔ ∃ r ∈ db.hpo_genes,
        InScope db true tmp.id r.hpo_term_id ∧
        (geneToApproved H db st r.gene true).1 = .ok x := by
      intro x
      rw [hm2]
      unfold InScope
      constructor
      · rintro (h | ⟨i, hi, r, hr, hreach, hx⟩)
        · cases h
        · rw [List.mem_singleton.mp hi] at hreach
          exact ⟨r, hr, Or.inr ⟨rfl, hreach⟩, (hval _ _).mpr hx⟩
      · rintro ⟨r, hr, hin, hx⟩
        refine Or.inr ⟨tmp.id, List.mem_singleton_self _, r, hr, ?_, (hval _ _).mp hx⟩
        rcases hin with hid | ⟨_, hreach⟩
        · rw [hid]
        · exact hreach
    refine ⟨k, genes2, st2, fun fuel => ?_, hm, hlast _ hm⟩
    have := hk fuel
    simp only [List.nil_append] at this
    simp only [this, phenotypeToGenesLoop_nil]

/-- C21, instance: the recursive call on term `A` of `storeDiamond` returns `FOO` of
term `A` and, of term `D`, the gene `BAZ` for its alias `BAR` and the unknown `QUX`. -/
theorem C21_phenotypeToGenes_collects_witness :
    Coherent storeDiamond Statics.init ∧ Acyclic storeDiamond ∧
    (phenotypeToGenes 10 sampleExternals storeDiamond Statics.init ⟨"HP:1", "A"⟩ true).map
      (fun r => r.1) = some (.ok ⟨["FOO", "BAZ", "QUX"]⟩) ∧
    ∃ (k : Nat) (genes : GeneSet) (st2 : Statics),
      (∀ fuel, phenotypeToGenes (fuel + k) sampleExternals storeDiamond Statics.init
        ⟨"HP:1", "A"⟩ true = some (.ok genes, st2)) ∧
      (∀ x, x ∈ genes.elems ↔ ∃ r ∈ storeDiamond.hpo_genes,
        InScope storeDiamond true 1 r.hpo_term_id ∧
        (geneToApproved sampleExternals storeDiamond Statics.init r.gene true).1 = .ok x) ∧
      (∀ r ∈ storeDiamond.hpo_genes, InScope storeDiamond true 1 r.hpo_term_id →
        (approvedGeneNames storeDiamond Statics.init).1.contains (toUpper (trimmed r.gene))
          = false →
        (Ambiguous storeDiamond (toUpper (trimmed r.gene)) ∨
          Unknown storeDiamond (toUpper (trimmed r.gene))) →
        toUpper (trimmed r.gene) ∈ genes.elems) :=
  ⟨coherent_init _, ⟨rankDiamond, by decide⟩, by decide,
    C21_phenotypeToGenes_collects sampleExternals storeDiamond Statics.init ⟨"HP:1", "A"⟩ true
      ⟨1, "HP:1", "A", ""⟩ (coherent_init _) (by decide) (fun _ => ⟨rankDiamond, by decide⟩)⟩

end NGSD


